import Mathlib

/-!
# jackBoxLike: rooms, rounds, the leaderboard and the hub

A shallow embedding of `internal/game/room_manager.go` (the `Room` operations
`AddPlayer`, `RemovePlayer`, `StartGame`, `SubmitAnswer`,
`FinishRoundIfDeadlinePassed`, `Snapshot`, and the `RoomManager` with `CreateRoom`,
`GetRoom`, `generateCode`), of `internal/service/game_service_impl.go` (`StartRound`,
`BuildLeaderboard`), of `internal/service/admin_service.go` (`CreateQuestion`) and of
`internal/ws` (the hub loop `Hub.run`, the generation counter, the two scheduler tasks and the
`start_game` dispatch), together with theorems about them.

Conventions of the embedding

* A Go method with receiver `r *Room` that mutates the room and returns `x`
  becomes a function from the room before the call to the pair of the room
  after the call and `x`.  The room mutex makes each method atomic, so the
  mutex itself is not modelled.
* `time.Now()` is an explicit argument `now`.
* Go maps are association lists with distinct keys (`AList`), wrapped in
  `Option` because a Go map may be nil.  The order of the entries stands for
  the iteration order of `range`, which Go leaves unspecified; every theorem
  below holds for every order.
* Go strings are Lean strings (sequences of Unicode code points), compared with `=`.
* Go `int` counters and `time.Duration` values are mathematical integers (`Int`); the
  wrap-around of 64-bit arithmetic is not modelled.
* `time.Time` is an instant on one time line, counted in nanoseconds.
* Library behaviour the sources do not spell out is a parameter `lib : StdLib`: the case
  table of `strings.ToUpper` outside ASCII, and `sort.Slice` with its contract.  Random bytes
  and the result of the question store are arguments.
* A goroutine is modelled by its steps: a scheduler task by what it does on waking, the hub
  loop by the events it receives in order.  A channel is its queue, its capacity and whether
  it is closed; a `*Client` is identified by an address.
-/

namespace game

/-! ## Strings -/

/-- Go `unicode.IsSpace`: the Unicode White_Space code points. -/
def isSpace (c : Char) : Bool :=
  let n := c.toNat
  (0x09 ≤ n && n ≤ 0x0D) || n == 0x20 || n == 0x85 || n == 0xA0 || n == 0x1680 ||
  (0x2000 ≤ n && n ≤ 0x200A) || n == 0x2028 || n == 0x2029 || n == 0x202F ||
  n == 0x205F || n == 0x3000

/-- Go `strings.TrimSpace`: the string without its leading and trailing white space. -/
def TrimSpace (s : String) : String :=
  ⟨((s.data.dropWhile isSpace).reverse.dropWhile isSpace).reverse⟩

/-! ## Time -/

/-- Go `time.Time` as an instant: nanoseconds elapsed since the zero time
(January 1, year 1, 00:00:00 UTC). -/
structure Time where
  nanos : Int
deriving DecidableEq, Repr

/-- Go `time.Duration`: a number of nanoseconds. -/
abbrev Duration := Int

/-- Go `time.Second`. -/
def Second : Duration := 1000000000

/-- Go `Time.IsZero`. -/
def Time.IsZero (t : Time) : Bool := t.nanos == 0

/-- Go `Time.After`: `t` is strictly later than `u`. -/
def Time.After (t u : Time) : Bool := decide (u.nanos < t.nanos)

/-- Go `Time.Before`: `t` is strictly earlier than `u`. -/
def Time.Before (t u : Time) : Bool := decide (t.nanos < u.nanos)

/-- Go `Time.Add`. -/
def Time.Add (t : Time) (d : Duration) : Time := ⟨t.nanos + d⟩

/-- Nanoseconds between the zero time and the Unix epoch
(Go `unixToInternal` seconds, 62135596800, times 10^9). -/
def unixEpochNanos : Int := 62135596800 * 1000000000

/-- Go `Time.UnixMilli`: whole milliseconds elapsed since the Unix epoch (rounded down). -/
def Time.UnixMilli (t : Time) : Int := (t.nanos - unixEpochNanos) / 1000000

/-! ## Maps -/

/-- A non-nil Go map with string keys. -/
abbrev StrMap (β : Type) := AList (fun _ : String => β)

/-- A Go map with string keys; `none` is the nil map. -/
abbrev GoMap (β : Type) := Option (StrMap β)

/-- Reading `m[k]` with the comma-ok form: `none` when the key is absent (or the map is nil). -/
def GoMap.get? {β : Type} (m : GoMap β) (k : String) : Option β :=
  match m with
  | none => none
  | some a => a.lookup k

/-- Go `len(m)`. -/
def GoMap.len {β : Type} (m : GoMap β) : Nat :=
  match m with
  | none => 0
  | some a => a.entries.length

/-- The entries visited by `for k, v := range m`, in iteration order. -/
def GoMap.range {β : Type} (m : GoMap β) : List (Sigma fun _ : String => β) :=
  match m with
  | none => []
  | some a => a.entries

/-! ## The data model (`models.go`, `room_manager.go`, `errors.go`) -/

/-- Go `type Phase string`. -/
abbrev Phase := String

def PhaseLobby : Phase := "lobby"
def PhaseAnswering : Phase := "answering"
def PhaseResults : Phase := "results"

/-- Go `Player`. -/
structure Player where
  ID : String
  Name : String
deriving DecidableEq, Repr

/-- Go `Option` (an answer option of a question; renamed, `Option` is taken in Lean). -/
structure AnswerOption where
  ID : String
  Text : String
deriving DecidableEq, Repr

/-- Go `Question`. -/
structure Question where
  Text : String
  Options : List AnswerOption
  CorrectID : String
deriving DecidableEq, Repr

/-- The sentinel errors of `errors.go`. -/
inductive GameError where
  | ErrNotHost
  | ErrBadPhase
  | ErrNoPlayers
  | ErrDeadlinePassed
  | ErrAlreadyAnswered
  | ErrEmptyAnswer
  | ErrInvalidOption
  | ErrInvalidQuestion
deriving DecidableEq, Repr

/-- Go `Room` (without its mutex). -/
structure Room where
  Code : String
  Phase : Phase
  Players : GoMap Player
  HostID : String
  RoundNumber : Int
  CurrentQuestion : Question
  AnsweringDeadline : Time
  Answers : GoMap String
  Scores : GoMap Int
deriving DecidableEq

/-- Go `hasOption`. -/
def hasOption : List AnswerOption → String → Bool
  | [], _ => false
  | o :: rest, id => if o.ID = id then true else hasOption rest id

/-- The loop `for id := range r.Players { if _, ok := r.Scores[id]; !ok { r.Scores[id] = 0 } }`
of `StartGame`. -/
def ensureScores : List (Sigma fun _ : String => Player) → StrMap Int → StrMap Int
  | [], scores => scores
  | e :: rest, scores =>
    ensureScores rest (if (scores.lookup e.1).isSome then scores else scores.insert e.1 0)

/-- Go `Room.StartGame`; returns the room after the call and the error (`none` is nil).  The
duration `time.Duration(answeringSeconds) * time.Second` is the exact product; in Go it is
that for answeringSeconds from -9223372036 to 9223372036 and wraps around in 64 bits
beyond. -/
def StartGame (r : Room) (requesterID : String) (q : Question) (answeringSeconds : Int)
    (now : Time) : Room × Option GameError :=
  if r.HostID = "" ∨ r.HostID ≠ requesterID then (r, some .ErrNotHost)
  else if r.Phase ≠ PhaseLobby ∧ r.Phase ≠ PhaseResults then (r, some .ErrBadPhase)
  else if r.Players.len < 1 then (r, some .ErrNoPlayers)
  else if TrimSpace q.Text = "" ∨ q.Options.length ≠ 4 ∨ TrimSpace q.CorrectID = "" then
    (r, some .ErrInvalidQuestion)
  else if ¬ hasOption q.Options q.CorrectID then (r, some .ErrInvalidQuestion)
  else
    let scores : StrMap Int := match r.Scores with
      | none => ∅
      | some m => m
    ({ r with
        RoundNumber := r.RoundNumber + 1
        CurrentQuestion := q
        Answers := some ∅
        Scores := some (ensureScores r.Players.range scores)
        Phase := PhaseAnswering
        AnsweringDeadline := now.Add (answeringSeconds * Second) }, none)

/-- Go `Room.SubmitAnswer`; returns the room after the call and the error (`none` is nil). -/
def SubmitAnswer (r : Room) (playerID : String) (optionID : String) (now : Time) :
    Room × Option GameError :=
  if r.Phase ≠ PhaseAnswering then (r, some .ErrBadPhase)
  else if (!r.AnsweringDeadline.IsZero && now.After r.AnsweringDeadline) = true then
    (r, some .ErrDeadlinePassed)
  else
    let optionID := TrimSpace optionID
    if optionID = "" then (r, some .ErrEmptyAnswer)
    else if ¬ hasOption r.CurrentQuestion.Options optionID then (r, some .ErrInvalidOption)
    else
      let answers : StrMap String := match r.Answers with
        | none => ∅
        | some m => m
      let r1 : Room := { r with Answers := some answers }
      if (answers.lookup playerID).isSome then (r1, some .ErrAlreadyAnswered)
      else ({ r1 with Answers := some (answers.insert playerID optionID) }, none)

/-- Go `RoundResult`. -/
structure RoundResult where
  PlayerID : String
  Name : String
  SelectedOptionID : String
  Correct : Bool
  Score : Int
deriving DecidableEq, Repr

/-- Go `RoundResultsPayload`. -/
structure RoundResultsPayload where
  Code : String
  RoundNumber : Int
  Question : String
  Options : List AnswerOption
  CorrectOptionID : String
  Results : List RoundResult
deriving DecidableEq, Repr

/-- The scoring loop `for id, p := range r.Players { ... }` of `FinishRoundIfDeadlinePassed`,
threading the score map and the result slice. -/
def finishLoop (answers : StrMap String) (correctID : String) :
    List (Sigma fun _ : String => Player) → StrMap Int → List RoundResult →
      StrMap Int × List RoundResult
  | [], scores, results => (scores, results)
  | e :: rest, scores, results =>
    let selected := (answers.lookup e.1).getD ""
    let isCorrect := selected != "" && selected == correctID
    let scores1 :=
      if isCorrect then scores.insert e.1 ((scores.lookup e.1).getD 0 + 1) else scores
    finishLoop answers correctID rest scores1
      (results ++ [{ PlayerID := e.1, Name := e.2.Name, SelectedOptionID := selected,
                     Correct := isCorrect, Score := (scores1.lookup e.1).getD 0 }])

/-- Go `Room.FinishRoundIfDeadlinePassed`; returns the room after the call, the payload
(`none` is nil) and the flag. -/
def FinishRoundIfDeadlinePassed (r : Room) (now : Time) :
    Room × Option RoundResultsPayload × Bool :=
  if r.Phase ≠ PhaseAnswering then (r, none, false)
  else if now.Before r.AnsweringDeadline = true then (r, none, false)
  else
    let scores : StrMap Int := match r.Scores with
      | none => ∅
      | some m => m
    let answers : StrMap String := match r.Answers with
      | none => ∅
      | some m => m
    let correctID := r.CurrentQuestion.CorrectID
    let out := finishLoop answers correctID r.Players.range scores []
    let r1 : Room := { r with Scores := some out.1, Answers := some answers, Phase := PhaseResults }
    (r1, some { Code := r1.Code, RoundNumber := r1.RoundNumber,
                Question := r1.CurrentQuestion.Text, Options := r1.CurrentQuestion.Options,
                CorrectOptionID := correctID, Results := out.2 }, true)

/-- Go `RoomSnapshot`. -/
structure RoomSnapshot where
  Code : String
  Phase : Phase
  HostID : String
  RoundNumber : Int
  Question : String
  Options : List AnswerOption
  Deadline : Int
  Players : List Player
  Scores : StrMap Int
deriving DecidableEq

/-- The loop `for k, v := range r.Scores { scoresCopy[k] = v }` of `Snapshot`. -/
def copyScores : List (Sigma fun _ : String => Int) → StrMap Int → StrMap Int
  | [], acc => acc
  | e :: rest, acc => copyScores rest (acc.insert e.1 e.2)

/-- Go `Room.Snapshot`. -/
def Snapshot (r : Room) : RoomSnapshot :=
  let players := r.Players.range.map (fun e => e.2)
  let deadlineMillis : Int :=
    if r.Phase = PhaseAnswering ∧ r.AnsweringDeadline.IsZero = false then
      r.AnsweringDeadline.UnixMilli
    else 0
  let scoresCopy : StrMap Int := match r.Scores with
    | none => ∅
    | some m => copyScores m.entries ∅
  let s : RoomSnapshot :=
    { Code := r.Code, Phase := r.Phase, HostID := r.HostID, RoundNumber := r.RoundNumber,
      Question := "", Options := [], Deadline := 0, Players := players, Scores := scoresCopy }
  let s := if r.Phase = PhaseAnswering ∨ r.Phase = PhaseResults then
      { s with Question := r.CurrentQuestion.Text, Options := r.CurrentQuestion.Options }
    else s
  if deadlineMillis ≠ 0 then { s with Deadline := deadlineMillis } else s

/-- Go `Room.AddPlayer`; `none` is the run-time panic of writing to a nil `Players` map. -/
def AddPlayer (r : Room) (p : Player) : Option (Room × Bool) :=
  match r.Players with
  | none => none
  | some players =>
    let r1 : Room := { r with Players := some (players.insert p.ID p) }
    let r2 : Room := match r1.Scores with
      | none => r1
      | some scores =>
        if (scores.lookup p.ID).isSome then r1 else { r1 with Scores := some (scores.insert p.ID 0) }
    if r2.HostID = "" then some ({ r2 with HostID := p.ID }, true) else some (r2, false)

/-- Go `Room.RemovePlayer`; the new host is the first key the `range` loop yields. -/
def RemovePlayer (r : Room) (playerID : String) : Room :=
  let r1 : Room := { r with Players := r.Players.map (fun m => m.erase playerID) }
  if r1.HostID = playerID then
    match r1.Players.range with
    | [] => { r1 with HostID := "" }
    | e :: _ => { r1 with HostID := e.1 }
  else r1

/-! ## Score maps as references

Go maps are reference values.  To state that the score map of a snapshot is a copy and not an
alias of the room's map, the score part of `Snapshot` is also modelled on a heap of maps. -/

/-- A heap of score maps: `cell a` is the content of the map at address `a`; the addresses
below `next` are allocated. -/
structure ScoreHeap where
  cell : Nat → StrMap Int
  next : Nat

/-- Go `make(map[string]int)`: a new empty map at a fresh address. -/
def ScoreHeap.make (h : ScoreHeap) : ScoreHeap × Nat :=
  ({ cell := Function.update h.cell h.next ∅, next := h.next + 1 }, h.next)

/-- Go `m[k] = v` for the map `m` at address `addr`. -/
def ScoreHeap.store (h : ScoreHeap) (addr : Nat) (k : String) (v : Int) : ScoreHeap :=
  { h with cell := Function.update h.cell addr ((h.cell addr).insert k v) }

/-- The Go map a reference stands for; `none` is the nil map. -/
def ScoreHeap.deref (h : ScoreHeap) (ref : Option Nat) : GoMap Int := ref.map h.cell

/-- The loop `for k, v := range r.Scores { scoresCopy[k] = v }` of `Snapshot`, writing to the
map at address `dst`. -/
def copyScoresRef : List (Sigma fun _ : String => Int) → Nat → ScoreHeap → ScoreHeap
  | [], _, h => h
  | e :: rest, dst, h => copyScoresRef rest dst (h.store dst e.1 e.2)

/-- The score part of Go `Room.Snapshot` on the heap, `scores` being the reference held in
`r.Scores`; returns the heap after the call and the address of `scoresCopy`. -/
def snapshotScoresRef (h : ScoreHeap) (scores : Option Nat) : ScoreHeap × Nat :=
  let made := h.make
  match scores with
  | none => made
  | some a =>
    let made2 := made.1.make
    (copyScoresRef (made2.1.cell a).entries made2.2 made2.1, made2.2)

/-! ## Sequences of calls -/

/-- One call of a mutating `Room` method, with its arguments and the clock reading it sees. -/
inductive RoomOp where
  | addPlayer (p : Player)
  | removePlayer (playerID : String)
  | startGame (requesterID : String) (q : Question) (answeringSeconds : Int) (now : Time)
  | submitAnswer (playerID : String) (optionID : String) (now : Time)
  | finishRound (now : Time)
deriving DecidableEq

/-- The room after one call; `none` when the call panics. -/
def RoomOp.run (r : Room) : RoomOp → Option Room
  | .addPlayer p => (AddPlayer r p).map (fun out => out.1)
  | .removePlayer playerID => some (RemovePlayer r playerID)
  | .startGame requesterID q answeringSeconds now =>
    some (StartGame r requesterID q answeringSeconds now).1
  | .submitAnswer playerID optionID now => some (SubmitAnswer r playerID optionID now).1
  | .finishRound now => some (FinishRoundIfDeadlinePassed r now).1

/-- The room after a sequence of calls, made one after the other. -/
def runOps (r : Room) : List RoomOp → Option Room
  | [] => some r
  | op :: rest =>
    match op.run r with
    | none => none
    | some r' => runOps r' rest

/-! ## Predicates on rooms used in the proofs -/

/-- Go `r.Scores[id]`: the stored score, 0 when there is none. -/
def Room.score (r : Room) (id : String) : Int := (r.Scores.get? id).getD 0

/-- Go `r.Answers[id]`: the recorded answer, the empty string when there is none. -/
def Room.answer (r : Room) (id : String) : String := (r.Answers.get? id).getD ""

/-- The test `selected != "" && selected == correctID` of the scoring loop for player `id`. -/
def answeredCorrectly (answers : StrMap String) (correctID : String) (id : String) : Bool :=
  (answers.lookup id).getD "" != "" && (answers.lookup id).getD "" == correctID

/-- In round `n` player `p` has answered `x` to question `q`: the room is at round `n` or
later, and while it is at round `n` it is either in results, or still answering `q` with `x`
recorded for `p`. -/
def answeredInRound (n : Int) (q : Question) (p x : String) (r : Room) : Prop :=
  n ≤ r.RoundNumber ∧
  (r.RoundNumber = n →
    r.Phase = PhaseResults ∨
    (r.Phase = PhaseAnswering ∧ r.CurrentQuestion = q ∧ r.Answers.get? p = some x))

/-! ## Concrete rooms and questions (those of `room_manager_test.go`) -/

/-- An instant used as `time.Now()` in the examples: 1700000000 s after the Unix epoch. -/
def exampleNow : Time := ⟨unixEpochNanos + 1700000000 * 1000000000⟩

/-- The room of `newTestRoomWithHost`: lobby, one player `p1` who is the host. -/
def lobbyRoom : Room :=
  { Code := "ABCD", Phase := PhaseLobby,
    Players := some (AList.singleton "p1" { ID := "p1", Name := "Host" }),
    HostID := "p1", RoundNumber := 0,
    CurrentQuestion := { Text := "", Options := [], CorrectID := "" },
    AnsweringDeadline := ⟨0⟩, Answers := some ∅, Scores := some (AList.singleton "p1" 0) }

/-- The question of `validQuestion()`. -/
def validQuestion : Question :=
  { Text := "Q?",
    Options := [⟨"A", "A"⟩, ⟨"B", "B"⟩, ⟨"C", "C"⟩, ⟨"D", "D"⟩],
    CorrectID := "B" }

/-- A question whose text is one space. -/
def blankTextQuestion : Question := { validQuestion with Text := " " }

/-- A question whose correct id is the empty id of its first option. -/
def emptyIdQuestion : Question :=
  { Text := "Q?",
    Options := [⟨"", "A"⟩, ⟨"B", "B"⟩, ⟨"C", "C"⟩, ⟨"D", "D"⟩],
    CorrectID := "" }

/-- The test room after its host has started `validQuestion` with 30 seconds to answer. -/
def answeringRoom : Room := (StartGame lobbyRoom "p1" validQuestion 30 exampleNow).1

/-- A question whose first option id starts with a space. -/
def paddedIdQuestion : Question :=
  { Text := "Q?",
    Options := [⟨" A", "A"⟩, ⟨"B", "B"⟩, ⟨"C", "C"⟩, ⟨"D", "D"⟩],
    CorrectID := "B" }

/-- The test room after its host has started `paddedIdQuestion`. -/
def paddedIdRoom : Room := (StartGame lobbyRoom "p1" paddedIdQuestion 30 exampleNow).1

/-- The test room after the host answered " B ", a second player joined and answered "A". -/
def twoAnswersRoom : Room :=
  (runOps (SubmitAnswer answeringRoom "p1" " B " exampleNow).1
    [.addPlayer ⟨"p2", "P2"⟩, .submitAnswer "p2" "A" exampleNow]).getD answeringRoom

/-- A heap whose only allocated map, at address 0, is the score map of `answeringRoom`. -/
def exampleHeap : ScoreHeap :=
  { cell := fun _ => answeringRoom.Scores.getD ∅, next := 1 }

/-! ## Parts of the Go standard library taken as parameters -/

/-- Go `row`, the local struct of `BuildLeaderboard`. -/
structure Row where
  id : String
  name : String
  score : Int
deriving DecidableEq, Repr

/-- The behaviour of the Go standard library that is not spelled out in this file: the
Unicode case table behind `strings.ToUpper` for code points outside ASCII, and `sort.Slice`,
of which only the contract is known (the result is a permutation of the input and, for a
`less` that is a strict weak ordering, has no two elements in the wrong order; the order of
elements that `less` does not separate is left open). -/
structure StdLib where
  upperNonASCII : Char → Char
  sortSlice : (Row → Row → Bool) → List Row → List Row
  sortSlice_perm : ∀ less rows, (sortSlice less rows).Perm rows
  sortSlice_sorted : ∀ less rows,
    (∀ a b, less a b = true → less b a = false) →
    (∀ a b c, less b a = false → less c b = false → less c a = false) →
    (sortSlice less rows).Pairwise (fun a b => less b a = false)

/-- Upper-casing of an ASCII code point: `a`..`z` become `A`..`Z`, the others stay. -/
def asciiToUpper (c : Char) : Char :=
  if 97 ≤ c.toNat ∧ c.toNat ≤ 122 then Char.ofNat (c.toNat - 32) else c

/-- Go `unicode.ToUpper` on one code point: ASCII code points are upper-cased directly, the
rest is looked up in the case table. -/
def unicodeToUpper (lib : StdLib) (c : Char) : Char :=
  if c.toNat < 128 then asciiToUpper c else lib.upperNonASCII c

/-- Go `strings.ToUpper`. -/
def ToUpper (lib : StdLib) (s : String) : String := ⟨s.data.map (unicodeToUpper lib)⟩

/-- Go `a < b` on strings: lexicographic on the code points (which is the order of the UTF-8
bytes). -/
def stringLess : List Char → List Char → Bool
  | _, [] => false
  | [], _ :: _ => true
  | a :: as, b :: bs =>
    if a.toNat < b.toNat then true
    else if b.toNat < a.toNat then false
    else stringLess as bs

/-! ## Room codes and the room manager (`room_manager.go`) -/

/-- A Go `byte`. -/
abbrev Byte := Fin 256

/-- The alphabet of `base32.StdEncoding`. -/
def base32Alphabet : List Char := "ABCDEFGHIJKLMNOPQRSTUVWXYZ234567".data

/-- Go `base32.StdEncoding.WithPadding(base32.NoPadding).EncodeToString`: the bits of the
input, most significant first, filled up with zero bits to a multiple of 5, in groups of 5,
each group written as the letter of the alphabet with that index. -/
def base32Encode (bs : List Byte) : List Char :=
  let value := bs.foldl (fun acc b => acc * 256 + b.val) 0
  let nchars := (8 * bs.length + 4) / 5
  let padded := value * 2 ^ (5 * nchars - 8 * bs.length)
  (List.range nchars).map
    (fun i => base32Alphabet.getD (padded / 2 ^ (5 * (nchars - 1 - i)) % 32) 'A')

/-- The replacer `strings.NewReplacer("O", "A", "I", "B", "0", "C", "1", "D")` on one
character. -/
def replaceAmbiguous (c : Char) : Char :=
  if c = 'O' then 'A' else if c = 'I' then 'B' else if c = '0' then 'C'
  else if c = '1' then 'D' else c

/-- Go `RoomManager.generateCode(n)`, given the 8 bytes `rand.Read` delivers (`n` is at most
the 13 characters of the encoding; the only call has `n = 4`). -/
def generateCode (lib : StdLib) (b : Fin 8 → Byte) (n : Nat) : String :=
  ToUpper lib ⟨((base32Encode (List.ofFn b)).map replaceAmbiguous).take n⟩

/-- Go `RoomManager` (without its mutex); `rooms` is made by `NewRoomManager`. -/
structure RoomManager where
  rooms : StrMap Room

/-- Go `NewRoomManager`. -/
def NewRoomManager : RoomManager := { rooms := ∅ }

/-- Go `RoomManager.CreateRoom`, given the random bytes; returns the manager after the call
and the room. -/
def CreateRoom (lib : StdLib) (rm : RoomManager) (b : Fin 8 → Byte) : RoomManager × Room :=
  let code := generateCode lib b 4
  let room : Room :=
    { Code := code, Phase := PhaseLobby, Players := some ∅, HostID := "", RoundNumber := 0,
      CurrentQuestion := { Text := "", Options := [], CorrectID := "" },
      AnsweringDeadline := ⟨0⟩, Answers := some ∅, Scores := some ∅ }
  ({ rooms := rm.rooms.insert code room }, room)

/-- What calls on a manager made by `NewRoomManager` can lead to: `CreateRoom` adds rooms, and
the methods of a stored room change that room where it is stored (the map holds pointers). -/
inductive RoomManager.Populated (lib : StdLib) : RoomManager → Prop
  | new : RoomManager.Populated lib NewRoomManager
  | create (rm : RoomManager) (b : Fin 8 → Byte) :
      RoomManager.Populated lib rm → RoomManager.Populated lib (CreateRoom lib rm b).1
  | roomChanged (rm : RoomManager) (code : String) (room : Room) :
      RoomManager.Populated lib rm →
      RoomManager.Populated lib { rooms := rm.rooms.replace code room }

/-- The helper `stringsToLower` of `room_manager_test.go` on one character. -/
def asciiToLower (c : Char) : Char :=
  if 65 ≤ c.toNat ∧ c.toNat ≤ 90 then Char.ofNat (c.toNat + 32) else c

/-- The string `v` is `c` with some (possibly none, possibly all) of its letters `A`..`Z`
lower-cased. -/
def LowerCasedVariant (v c : String) : Prop :=
  List.Forall₂ (fun x y => x = y ∨ x = asciiToLower y) v.data c.data

/-- The shape of a generated room code: 4 characters of the base-32 alphabet other than `O`
and `I`. -/
def IsRoomCode (s : String) : Prop :=
  s.length = 4 ∧ ∀ c ∈ s.data, c ∈ base32Alphabet ∧ c ≠ 'O' ∧ c ≠ 'I'

/-- Go `RoomManager.GetRoom`; the room is `none` for the nil pointer. -/
def GetRoom (lib : StdLib) (rm : RoomManager) (code : String) : Option Room × Bool :=
  match rm.rooms.lookup (ToUpper lib code) with
  | some r => (some r, true)
  | none => (none, false)

/-- A reference implementation of the library parameters: insertion sort, and a case table
that leaves the code points outside ASCII as they are. -/
def refLib : StdLib where
  upperNonASCII := fun c => c
  sortSlice := fun less rows => rows.insertionSort (fun a b => less b a = false)
  sortSlice_perm := fun less rows => List.perm_insertionSort _ rows
  sortSlice_sorted := by
    intro less rows hasymm htrans
    haveI : IsTotal Row (fun a b => less b a = false) :=
      ⟨fun a b => by
        cases h : less b a
        · exact Or.inl rfl
        · exact Or.inr (hasymm b a h)⟩
    haveI : IsTrans Row (fun a b => less b a = false) := ⟨fun a b c => htrans a b c⟩
    exact List.sorted_insertionSort _ rows

/-- Eight random bytes used in the examples. -/
def exampleBytes : Fin 8 → Byte := fun i => ⟨(37 * i.val + 200) % 256, Nat.mod_lt _ (by decide)⟩

/-- The host, when there is one, is a current player, and the player map is not nil. -/
def hostIsPlayer (r : Room) : Prop :=
  r.Players ≠ none ∧ (r.HostID ≠ "" → (r.Players.get? r.HostID).isSome)

/-- The room the example bytes give, after a player joined and left again. -/
def abandonedRoom : Room :=
  (runOps (CreateRoom refLib NewRoomManager exampleBytes).2
    [.addPlayer ⟨"p1", "Host"⟩, .removePlayer "p1"]).getD lobbyRoom

/-! ## The game service (`game_service.go`, `game_service_impl.go`) -/

/-- Go `service.Config`, as held by the service. -/
structure Config where
  AnsweringSeconds : Duration
  ResultsPause : Duration
  MaxRounds : Int
deriving DecidableEq, Repr

/-- Go `LeaderboardEntry`. -/
structure LeaderboardEntry where
  Place : Int
  PlayerID : String
  Name : String
  Score : Int
deriving DecidableEq, Repr

/-- Go `GameOverPayload`. -/
structure GameOverPayload where
  Code : String
  RoundsPlayed : Int
  Leaderboard : List LeaderboardEntry
deriving DecidableEq, Repr

/-- The `less` function `BuildLeaderboard` passes to `sort.Slice`: higher score first, then
the smaller name. -/
def rowLess (a b : Row) : Bool :=
  if a.score ≠ b.score then decide (a.score > b.score)
  else stringLess a.name.data b.name.data

/-- The loop `for i, r := range rows { ... }` of `BuildLeaderboard` from index `i` on, with the
current values of `place` and `prevScore`. -/
def assignPlaces : List Row → Nat → Int → Int → List LeaderboardEntry
  | [], _, _, _ => []
  | r :: rest, i, place, prevScore =>
    let place1 : Int := if i = 0 ∨ r.score ≠ prevScore then (i : Int) + 1 else place
    let prevScore1 : Int := if i = 0 ∨ r.score ≠ prevScore then r.score else prevScore
    { Place := place1, PlayerID := r.id, Name := r.name, Score := r.score } ::
      assignPlaces rest (i + 1) place1 prevScore1

/-- Go `gameService.BuildLeaderboard`. -/
def BuildLeaderboard (lib : StdLib) (room : Room) : GameOverPayload :=
  let snap := Snapshot room
  let rows : List Row := snap.Players.map
    (fun p => { id := p.ID, name := p.Name, score := (snap.Scores.lookup p.ID).getD 0 })
  let rows := lib.sortSlice rowLess rows
  { Code := snap.Code, RoundsPlayed := snap.RoundNumber,
    Leaderboard := assignPlaces rows 0 0 (-1) }

/-- An error returned by `QuestionStore.GetRandomActive`: its message, and whether
`errors.Is(err, storage.ErrNoQuestions)` holds for it. -/
structure StoreError where
  message : String
  isNoQuestions : Bool
deriving DecidableEq, Repr

/-- The errors `gameService.StartRound` returns. -/
inductive StartRoundError where
  | noQuestionsInDb
  | store (e : StoreError)
  | game (e : GameError)
deriving DecidableEq, Repr

/-- Go `err.Error()` for the errors of `errors.go`. -/
def GameError.Error : GameError → String
  | .ErrNotHost => "not host"
  | .ErrBadPhase => "bad phase"
  | .ErrNoPlayers => "no players"
  | .ErrDeadlinePassed => "deadline passed"
  | .ErrAlreadyAnswered => "already answered"
  | .ErrEmptyAnswer => "empty answer"
  | .ErrInvalidOption => "invalid option"
  | .ErrInvalidQuestion => "invalid question"

/-- Go `err.Error()` for the errors of `StartRound`. -/
def StartRoundError.Error : StartRoundError → String
  | .noQuestionsInDb => "no questions in db"
  | .store e => e.message
  | .game e => e.Error

/-- Go `int(d.Seconds())`: the whole seconds of a duration, rounded toward zero (the
`float64` value `Seconds` passes through is taken as exact). -/
def wholeSeconds (d : Duration) : Int := Int.tdiv d Second

/-- Go `gameService.StartRound`, given what `GetRandomActive` returns. -/
def StartRound (cfg : Config) (supplied : Except StoreError Question) (room : Room)
    (hostID : String) (now : Time) : Room × Option StartRoundError :=
  match supplied with
  | .error e =>
    if e.isNoQuestions then (room, some .noQuestionsInDb) else (room, some (.store e))
  | .ok q =>
    let out := StartGame room hostID q (wholeSeconds cfg.AnsweringSeconds) now
    (out.1, out.2.map .game)

/-! ## The hub (`hub.go`, `protocol.go`) -/

/-- Go `Envelope`, by message type; the payload of `error` is its message. -/
inductive Envelope where
  | playerJoined (p : Player)
  | roomState (snap : RoomSnapshot)
  | roundResults (payload : RoundResultsPayload)
  | gameOver (payload : GameOverPayload)
  | answerAccepted
  | error (message : String)
deriving DecidableEq

/-- Go `roomMessage`; `data` stands for the JSON bytes of the envelope. -/
structure roomMessage where
  roomCode : String
  data : Envelope
deriving DecidableEq

/-- Go `*Client`: `addr` is the identity of the pointer; the connection and the `send`
channel are kept outside (the channel in `Hub.send`). -/
structure Client where
  addr : Nat
  roomCode : String
  playerID : String
deriving DecidableEq, Repr

/-- The state of a buffered channel `chan []byte`: the messages waiting, the capacity, and
whether it was closed. -/
structure SendChan where
  buf : List Envelope
  cap : Nat
  closed : Bool
deriving DecidableEq

/-- Go `Hub` (without logger, service and mutexes), together with the state of the `send`
channel of every client, by the client's address. -/
structure Hub where
  clientsByRoom : StrMap (StrMap Client)
  roundGen : StrMap Int
  send : Nat → SendChan

/-- Go `Hub.bumpRoundGen`; returns the hub after the call and the new generation. -/
def Hub.bumpRoundGen (lib : StdLib) (h : Hub) (roomCode : String) : Hub × Int :=
  let rc := ToUpper lib roomCode
  let gen := (h.roundGen.lookup rc).getD 0 + 1
  ({ h with roundGen := h.roundGen.insert rc gen }, gen)

/-- Go `Hub.isCurrentGen`; it only reads the hub. -/
def Hub.isCurrentGen (lib : StdLib) (h : Hub) (roomCode : String) (gen : Int) : Bool :=
  (h.roundGen.lookup (ToUpper lib roomCode)).getD 0 == gen

/-- The hub after `bumpRoundGen` was called for each of the room codes, in order. -/
def Hub.bumpAll (lib : StdLib) (h : Hub) : List String → Hub
  | [] => h
  | code :: rest => Hub.bumpAll lib (h.bumpRoundGen lib code).1 rest

/-- The generation counter of a room: Go `h.roundGen[strings.ToUpper(roomCode)]`. -/
def Hub.generation (lib : StdLib) (h : Hub) (roomCode : String) : Int :=
  (h.roundGen.lookup (ToUpper lib roomCode)).getD 0

/-! ## The scheduler (`scheduler.go`) and the `start_game` dispatch (`client.go`) -/

/-- A goroutine started by a `go` statement of the scheduler. -/
inductive ScheduledTask where
  | answeringDeadline (roomCode : String) (gen : Int)
  | nextRound (roomCode : String) (delay : Duration)
deriving DecidableEq, Repr

/-- What one uninterrupted stretch of a task leaves behind: the room and the hub after it,
the messages passed to `Hub.Broadcast`, the envelopes passed to `Client.sendJSON`, the tasks
started with `go`, and the number of calls of `GetRandomActive`. -/
structure Outcome where
  room : Room
  hub : Hub
  broadcasts : List roomMessage
  replies : List Envelope
  spawned : List ScheduledTask
  supplierCalls : Nat

/-- An outcome without any effect. -/
def Outcome.none (room : Room) (hub : Hub) : Outcome :=
  { room := room, hub := hub, broadcasts := [], replies := [], spawned := [],
    supplierCalls := 0 }

/-- Go `time.UnixMilli`. -/
def Time.ofUnixMilli (ms : Int) : Time := ⟨unixEpochNanos + ms * 1000000⟩

/-- The part of Go `Hub.scheduleAnsweringDeadline` before `time.Sleep`: `none` when it returns
at once (no deadline in the snapshot), otherwise the duration it sleeps. -/
def scheduleAnsweringDeadlineWait (room : Room) (now : Time) : Option Duration :=
  let snap := Snapshot room
  if snap.Deadline = 0 then none
  else
    let wait : Duration := (Time.ofUnixMilli snap.Deadline).nanos - now.nanos
    some (if wait < 0 then 0 else wait)

/-- The part of Go `Hub.scheduleAnsweringDeadline` after `time.Sleep`, run at time `now`. -/
def scheduleAnsweringDeadlineWake (lib : StdLib) (cfg : Config) (hub : Hub) (room : Room)
    (roomCode : String) (gen : Int) (now : Time) : Outcome :=
  if hub.isCurrentGen lib roomCode gen = false then Outcome.none room hub
  else
    let fin := FinishRoundIfDeadlinePassed room now
    match fin.2.1, fin.2.2 with
    | some payload, true =>
      let b1 : roomMessage := ⟨roomCode, .roundResults payload⟩
      let b2 : roomMessage := ⟨roomCode, .roomState (Snapshot fin.1)⟩
      let after := Snapshot fin.1
      if after.RoundNumber ≥ cfg.MaxRounds then
        { Outcome.none fin.1 hub with
          broadcasts := [b1, b2, ⟨roomCode, .gameOver (BuildLeaderboard lib fin.1)⟩] }
      else
        { Outcome.none fin.1 hub with
          broadcasts := [b1, b2], spawned := [.nextRound roomCode cfg.ResultsPause] }
    | _, _ => Outcome.none fin.1 hub

/-- The part of Go `Hub.scheduleNextRound` after `time.Sleep`, run at time `now`, given what
`GetRandomActive` returns when it is called. -/
def scheduleNextRoundWake (lib : StdLib) (cfg : Config) (supplied : Except StoreError Question)
    (hub : Hub) (room : Room) (roomCode : String) (now : Time) : Outcome :=
  let snap := Snapshot room
  if snap.HostID = "" then Outcome.none room hub
  else if snap.RoundNumber ≥ cfg.MaxRounds then
    { Outcome.none room hub with
      broadcasts := [⟨roomCode, .gameOver (BuildLeaderboard lib room)⟩] }
  else
    let started := StartRound cfg supplied room snap.HostID now
    match started.2 with
    | some err =>
      { Outcome.none started.1 hub with
        broadcasts := [⟨roomCode, .error err.Error⟩], supplierCalls := 1 }
    | none =>
      let bumped := hub.bumpRoundGen lib roomCode
      { room := started.1, hub := bumped.1,
        broadcasts := [⟨roomCode, .roomState (Snapshot started.1)⟩], replies := [],
        spawned := [.answeringDeadline roomCode bumped.2], supplierCalls := 1 }

/-- The `start_game` case of Go `Client.readPump` for client `c`, given what
`GetRandomActive` returns when it is called. -/
def startGameDispatch (lib : StdLib) (cfg : Config) (supplied : Except StoreError Question)
    (hub : Hub) (room : Room) (c : Client) (now : Time) : Outcome :=
  let snap := Snapshot room
  if snap.RoundNumber ≥ cfg.MaxRounds then
    { Outcome.none room hub with replies := [.gameOver (BuildLeaderboard lib room)] }
  else
    let started := StartRound cfg supplied room c.playerID now
    match started.2 with
    | some err =>
      { Outcome.none started.1 hub with replies := [.error err.Error], supplierCalls := 1 }
    | none =>
      let bumped := hub.bumpRoundGen lib c.roomCode
      { room := started.1, hub := bumped.1,
        broadcasts := [⟨c.roomCode, .roomState (Snapshot started.1)⟩], replies := [],
        spawned := [.answeringDeadline c.roomCode bumped.2], supplierCalls := 1 }

/-- The configuration `NewGameService` falls back to: 30 s to answer, 5 s pause, 5 rounds. -/
def exampleConfig : Config :=
  { AnsweringSeconds := 30 * Second, ResultsPause := 5 * Second, MaxRounds := 5 }

/-- A hub without connections in which room `ABCD` is at generation 1 (one round started). -/
def exampleHub : Hub :=
  { clientsByRoom := ∅, roundGen := AList.singleton "ABCD" 1,
    send := fun _ => { buf := [], cap := 64, closed := false } }

/-- The connection of the host `p1` of the test room. -/
def hostClient : Client := { addr := 1, roomCode := "ABCD", playerID := "p1" }

/-- The test room with two answers after its round was finished at the deadline. -/
def resultsRoom : Room :=
  (FinishRoundIfDeadlinePassed twoAnswersRoom twoAnswersRoom.AnsweringDeadline).1

/-- The instant one second after the deadline of the first round of the test room. -/
def pauseInstant : Time := twoAnswersRoom.AnsweringDeadline.Add Second

/-- The outcome of the host's `start_game` sent during the pause after the first round. -/
def restartedByHost : Outcome :=
  startGameDispatch refLib exampleConfig (.ok validQuestion) exampleHub resultsRoom hostClient
    pauseInstant

/-- The number of rows with a score strictly above `s`. -/
def scoresAbove (s : Int) (rows : List Row) : Nat :=
  rows.countP (fun x => decide (s < x.score))

/-- A room with the scores of the leaderboard example: Alice 2, Bob 2, Carol 1. -/
def leaderboardRoom : Room :=
  { Code := "ABCD", Phase := PhaseResults,
    Players := some (((AList.singleton "p1" { ID := "p1", Name := "Bob" }).insert "p2"
      { ID := "p2", Name := "Carol" }).insert "p3" { ID := "p3", Name := "Alice" }),
    HostID := "p1", RoundNumber := 2,
    CurrentQuestion := validQuestion,
    AnsweringDeadline := exampleNow, Answers := some ∅,
    Scores := some (((AList.singleton "p1" 2).insert "p2" 1).insert "p3" 2) }

/-! ## The hub loop (`Hub.run`) -/

/-- The `register` case of Go `Hub.run` for the client `c` received. -/
def Hub.register (lib : StdLib) (h : Hub) (c : Client) : Hub :=
  let roomCode := ToUpper lib c.roomCode
  let roomClients : StrMap Client := match h.clientsByRoom.lookup roomCode with
    | none => ∅
    | some m => m
  { h with clientsByRoom := h.clientsByRoom.insert roomCode (roomClients.insert c.playerID c) }

/-- The `unregister` case of Go `Hub.run` for the client `c` received; `none` is the run-time
panic of closing a channel that is already closed. -/
def Hub.unregister (lib : StdLib) (h : Hub) (c : Client) : Option Hub :=
  let roomCode := ToUpper lib c.roomCode
  match h.clientsByRoom.lookup roomCode with
  | none => some h
  | some roomClients =>
    if (roomClients.lookup c.playerID).isSome then
      if (h.send c.addr).closed then none
      else
        let remaining := roomClients.erase c.playerID
        let send := Function.update h.send c.addr { h.send c.addr with closed := true }
        if remaining.entries.length = 0 then
          some { h with clientsByRoom := h.clientsByRoom.erase roomCode, send := send }
        else
          some { h with clientsByRoom := h.clientsByRoom.insert roomCode remaining, send := send }
    else if roomClients.entries.length = 0 then
      some { h with clientsByRoom := h.clientsByRoom.erase roomCode }
    else some h

/-- How the hub loop leaves the body of a `case`: back at its `select` (`done`), stuck in
`h.unregister <- c` (`blocked`), or with a run-time panic.  The channel `h.unregister` is
unbuffered (`make(chan *Client)` in `NewHub`) and the only statement that receives from it is
the `select` of `Hub.run`, the very goroutine that executes the send, so the send never
completes. -/
inductive LoopResult where
  | done (h : Hub)
  | blocked (h : Hub) (c : Client)
  | panicked

/-- The hub after a send `c.send <- data` that went through. -/
def Hub.enqueue (h : Hub) (c : Client) (data : Envelope) : Hub :=
  let queued : SendChan := { h.send c.addr with buf := (h.send c.addr).buf ++ [data] }
  { h with send := Function.update h.send c.addr queued }

/-- The loop `for _, c := range roomClients { select { case c.send <- msg.data: default: ... } }`
of the `broadcast` case of Go `Hub.run`, over the clients still to visit. -/
def broadcastLoop (data : Envelope) : List Client → Hub → LoopResult
  | [], h => .done h
  | c :: rest, h =>
    if (h.send c.addr).closed then .panicked
    else if (h.send c.addr).buf.length < (h.send c.addr).cap then
      broadcastLoop data rest (h.enqueue c data)
    else .blocked h c

/-- The clients a broadcast for `roomCode` ranges over, in iteration order. -/
def Hub.roomClients (lib : StdLib) (h : Hub) (roomCode : String) : List Client :=
  match h.clientsByRoom.lookup (ToUpper lib roomCode) with
  | none => []
  | some m => m.entries.map (fun e => e.2)

/-- The `broadcast` case of Go `Hub.run` for the message `msg` received. -/
def Hub.broadcast (lib : StdLib) (h : Hub) (msg : roomMessage) : LoopResult :=
  broadcastLoop msg.data (h.roomClients lib msg.roomCode) h

/-- An event the hub loop receives on one of its three channels. -/
inductive HubEvent where
  | register (c : Client)
  | unregister (c : Client)
  | broadcast (msg : roomMessage)
deriving DecidableEq

/-- Go `Hub.run` on the events it receives, in order: once the loop is blocked or has
panicked, no further event is processed. -/
def Hub.run (lib : StdLib) : Hub → List HubEvent → LoopResult
  | h, [] => .done h
  | h, .register c :: rest => Hub.run lib (h.register lib c) rest
  | h, .unregister c :: rest =>
    match h.unregister lib c with
    | none => .panicked
    | some h1 => Hub.run lib h1 rest
  | h, .broadcast msg :: rest =>
    match h.broadcast lib msg with
    | .done h1 => Hub.run lib h1 rest
    | .blocked h1 c => .blocked h1 c
    | .panicked => .panicked

/-- Go `NewHub`: no connections and no generation yet; `send` gives the channels of the
clients that will connect. -/
def NewHub (send : Nat → SendChan) : Hub :=
  { clientsByRoom := ∅, roundGen := ∅, send := send }

/-- The client in the slot of player `playerID` of the registry entry `roomKey`, if any. -/
def Hub.slot (h : Hub) (roomKey playerID : String) : Option Client :=
  (h.clientsByRoom.lookup roomKey).bind (fun m => m.lookup playerID)

/-- A connection of room `ABCD` that does not drain its queue. -/
def slowClient : Client := { addr := 1, roomCode := "ABCD", playerID := "p1" }

/-- A connection of room `ABCD` that drains its queue. -/
def fastClient : Client := { addr := 2, roomCode := "ABCD", playerID := "p2" }

/-- A second connection for the player id of `slowClient`, with the room code in lower case. -/
def reconnectClient : Client := { addr := 3, roomCode := "abcd", playerID := "p1" }

/-- Channels of capacity 64 (`make(chan []byte, 64)` in `ServeWS`): the one of address 1 holds
64 messages, the others none. -/
def exampleSend : Nat → SendChan := fun addr =>
  if addr = 1 then { buf := List.replicate 64 Envelope.answerAccepted, cap := 64, closed := false }
  else { buf := [], cap := 64, closed := false }

/-- The hub after `fastClient` and then `slowClient` registered. -/
def crowdedHub : Hub := ((NewHub exampleSend).register refLib fastClient).register refLib slowClient

/-- A broadcast for room `ABCD`. -/
def exampleBroadcast : roomMessage := { roomCode := "ABCD", data := Envelope.error "bad phase" }

/-! ## Invariants of the rooms reachable from `CreateRoom` -/

/-- The call passes a non-empty player id if it is a call of `AddPlayer`. -/
def RoomOp.nonEmptyID : RoomOp → Prop
  | .addPlayer p => p.ID ≠ ""
  | _ => True

/-- The host id is empty exactly when the room has no players and is otherwise the id of a
current player; the player map is not nil and no player is stored under the empty id. -/
def hostInvariant (r : Room) : Prop :=
  r.Players ≠ none ∧ (∀ e ∈ r.Players.range, e.1 ≠ "") ∧
  (r.HostID = "" ↔ r.Players.len = 0) ∧
  (r.HostID ≠ "" → (r.Players.get? r.HostID).isSome)

/-- The number of `StartGame` calls that return nil when the sequence of calls is made on
room `r`. -/
def successfulStarts : Room → List RoomOp → Nat
  | _, [] => 0
  | r, op :: rest =>
    let here : Nat := match op with
      | .startGame requesterID q answeringSeconds now =>
        if (StartGame r requesterID q answeringSeconds now).2 = none then 1 else 0
      | _ => 0
    match op.run r with
    | none => here
    | some r' => here + successfulStarts r' rest

/-- Every recorded answer is the id of an option of the current question, and in the phases
answering and results the current question has 4 options, one of them with the correct id. -/
def answersValid (r : Room) : Prop :=
  (∀ id x, r.Answers.get? id = some x → hasOption r.CurrentQuestion.Options x = true) ∧
  ((r.Phase = PhaseAnswering ∨ r.Phase = PhaseResults) →
    r.CurrentQuestion.Options.length = 4 ∧
    hasOption r.CurrentQuestion.Options r.CurrentQuestion.CorrectID = true)

/-- A game on a new room: `p1` joins, starts a round with `validQuestion` and answers "B";
the round is finished at its deadline; then `p1` leaves. -/
def exampleGame : List RoomOp :=
  [.addPlayer ⟨"p1", "Host"⟩, .startGame "p1" validQuestion 30 exampleNow,
   .submitAnswer "p1" "B" exampleNow, .finishRound (exampleNow.Add (30 * Second)),
   .removePlayer "p1"]

/-- The room the example bytes give, after `exampleGame`. -/
def exampleGameRoom : Room :=
  (runOps (CreateRoom refLib NewRoomManager exampleBytes).2 exampleGame).getD lobbyRoom

/-! ## The game on one room, step by step -/

/-- A step of the server on one room, taken as atomic: a player joins (`ServeWS`) or leaves
(the deferred function of `readPump`), a `submit_answer` or a `start_game` message is handled
(`readPump`), or a scheduler task wakes up from its sleep; `supplied` is what
`GetRandomActive` returns if the step calls it. -/
inductive GameStep where
  | join (p : Player)
  | leave (playerID : String)
  | submitAnswer (playerID optionID : String) (now : Time)
  | startGame (c : Client) (supplied : Except StoreError Question) (now : Time)
  | deadlineWake (roomCode : String) (gen : Int) (now : Time)
  | nextRoundWake (roomCode : String) (supplied : Except StoreError Question) (now : Time)

/-- The room and the hub after one step; `none` when the step panics. -/
def GameStep.run (lib : StdLib) (cfg : Config) (room : Room) (hub : Hub) :
    GameStep → Option (Room × Hub)
  | .join p => (AddPlayer room p).map (fun out => (out.1, hub))
  | .leave playerID => some (RemovePlayer room playerID, hub)
  | .submitAnswer playerID optionID now => some ((SubmitAnswer room playerID optionID now).1, hub)
  | .startGame c supplied now =>
    some ((startGameDispatch lib cfg supplied hub room c now).room,
      (startGameDispatch lib cfg supplied hub room c now).hub)
  | .deadlineWake roomCode gen now =>
    some ((scheduleAnsweringDeadlineWake lib cfg hub room roomCode gen now).room,
      (scheduleAnsweringDeadlineWake lib cfg hub room roomCode gen now).hub)
  | .nextRoundWake roomCode supplied now =>
    some ((scheduleNextRoundWake lib cfg supplied hub room roomCode now).room,
      (scheduleNextRoundWake lib cfg supplied hub room roomCode now).hub)

/-- The test room after its host started a round half a millisecond after `exampleNow`: its
deadline is not a whole number of milliseconds. -/
def offMilliRoom : Room :=
  (StartGame lobbyRoom "p1" validQuestion 30 (exampleNow.Add 500000)).1

/-! ## The admin service (`admin_service.go`) -/

/-- Go `storage.CreateQuestionInput`. -/
structure CreateQuestionInput where
  Text : String
  Options : List AnswerOption
  CorrectID : String
  IsActive : Bool
deriving DecidableEq, Repr

/-- Go `adminService.CreateQuestion` up to its call of the store: `.ok` carries the input
passed to `a.qs.CreateQuestion`, whose result the method returns; `.error` carries the message
of the error returned without a call of the store. -/
def CreateQuestion (input : CreateQuestionInput) : Except String CreateQuestionInput :=
  let input := { input with Text := TrimSpace input.Text }
  let input := { input with CorrectID := TrimSpace input.CorrectID }
  if input.Text = "" ∨ input.CorrectID = "" ∨ input.Options.length ≠ 4 then
    .error "invalid question payload"
  else .ok input

/-- The `game.Question` that `GetRandomActive` builds from the columns `text`, `options` and
`correct_id` of the row `PostgresQuestionStore.CreateQuestion` inserts for the input (the
options pass through JSON unchanged). -/
def CreateQuestionInput.toQuestion (input : CreateQuestionInput) : Question :=
  { Text := input.Text, Options := input.Options, CorrectID := input.CorrectID }

/-- An input with the four options of `validQuestion` and the correct id "Z", which none of
them has. -/
def unmatchedInput : CreateQuestionInput :=
  { Text := "Q?", Options := validQuestion.Options, CorrectID := "Z", IsActive := true }

/-- The hub after `slowClient` registered and `reconnectClient` registered for the same
player in the same room. -/
def replacedHub : Hub :=
  ((NewHub exampleSend).register refLib slowClient).register refLib reconnectClient

/-- No recorded answer is the empty string, and in the answering phase the correct id of the
current question is not the empty string. -/
def answersNonEmpty (r : Room) : Prop :=
  (∀ id x, r.Answers.get? id = some x → x ≠ "") ∧
  (r.Phase = PhaseAnswering → r.CurrentQuestion.CorrectID ≠ "")

/-- A round on a new room: `p1` and `p2` join, `p1` starts a round with `validQuestion`,
`p1` answers " B " and `p2` answers "A". -/
def exampleRound : List RoomOp :=
  [.addPlayer ⟨"p1", "Host"⟩, .addPlayer ⟨"p2", "P2"⟩,
   .startGame "p1" validQuestion 30 exampleNow,
   .submitAnswer "p1" " B " exampleNow, .submitAnswer "p2" "A" exampleNow]

/-- The room the example bytes give, after `exampleRound`. -/
def exampleRoundRoom : Room :=
  (runOps (CreateRoom refLib NewRoomManager exampleBytes).2 exampleRound).getD lobbyRoom

/-! ## Lemmas -/

theorem hasOption_iff (opts : List AnswerOption) (id : String) :
    hasOption opts id = true ↔ ∃ o ∈ opts, o.ID = id := by
  induction opts with
  | nil => simp [hasOption]
  | cons o rest ih =>
    by_cases h : o.ID = id
    · simp [hasOption, h]
    · simp [hasOption, h, ih]

theorem hasOption_eq_false_iff (opts : List AnswerOption) (id : String) :
    hasOption opts id = false ↔ ∀ o ∈ opts, o.ID ≠ id := by
  rw [← Bool.not_eq_true, hasOption_iff]
  simp

theorem ensureScores_lookup (entries : List (Sigma fun _ : String => Player))
    (scores : StrMap Int) (k : String) :
    (ensureScores entries scores).lookup k =
      if (scores.lookup k).isSome then scores.lookup k
      else if k ∈ entries.keys then some 0 else none := by
  induction entries generalizing scores with
  | nil => cases h : scores.lookup k <;> simp [ensureScores, h]
  | cons e rest ih =>
    rw [ensureScores, ih]
    by_cases he : (scores.lookup e.1).isSome
    · rw [if_pos he]
      by_cases hk : k = e.1
      · subst hk
        simp [he]
      · simp only [List.keys_cons, List.mem_cons, hk, false_or]
    · rw [if_neg he]
      by_cases hk : k = e.1
      · subst hk
        simp [AList.lookup_insert, he]
      · simp only [AList.lookup_insert_ne hk, List.keys_cons, List.mem_cons, hk, false_or]

theorem GoMap.get?_isSome_iff_mem_range {β : Type} (m : GoMap β) (k : String) :
    (m.get? k).isSome ↔ k ∈ m.range.keys := by
  cases m with
  | none => simp [GoMap.get?, GoMap.range]
  | some a =>
    simp only [GoMap.get?, GoMap.range]
    rw [AList.lookup_isSome, AList.mem_keys]
    rfl

/-- What `SubmitAnswer` returns once all checks before the answer map are passed. -/
theorem SubmitAnswer_checked (r : Room) (p s : String) (now : Time)
    (h1 : r.Phase = PhaseAnswering)
    (h2 : ¬ (r.AnsweringDeadline.IsZero = false ∧ r.AnsweringDeadline.nanos < now.nanos))
    (h3 : TrimSpace s ≠ "")
    (h4 : hasOption r.CurrentQuestion.Options (TrimSpace s) = true) :
    ((r.Answers.get? p).isSome → SubmitAnswer r p s now = (r, some .ErrAlreadyAnswered)) ∧
    (r.Answers.get? p = none →
      SubmitAnswer r p s now =
        ({ r with Answers := some ((r.Answers.getD ∅).insert p (TrimSpace s)) }, none)) := by
  have h2' : ¬ ((!r.AnsweringDeadline.IsZero && now.After r.AnsweringDeadline) = true) := by
    intro h
    apply h2
    simpa [Time.After] using h
  have h1' : ¬ r.Phase ≠ PhaseAnswering := by simp [h1]
  have h4' : ¬ ¬ hasOption r.CurrentQuestion.Options (TrimSpace s) = true := by simp [h4]
  unfold SubmitAnswer
  rw [if_neg h1', if_neg h2']
  simp only [if_neg h3, if_neg h4']
  cases hA : r.Answers with
  | none => simp [GoMap.get?]
  | some m =>
    constructor
    · intro hp
      have hp' : (AList.lookup p m).isSome = true := by simpa [GoMap.get?] using hp
      simp only [hp', if_true]
      rw [← hA]
    · intro hp
      have hp' : (AList.lookup p m).isSome = false := by
        simp only [GoMap.get?] at hp
        simp [hp]
      simp [hp']

/-- `StartGame` either fails and returns the room as it was, or succeeds from lobby or
results with the round number raised by one. -/
theorem StartGame_cases (r : Room) (requesterID : String) (q : Question) (answeringSeconds : Int)
    (now : Time) :
    (∃ e, StartGame r requesterID q answeringSeconds now = (r, some e) ∧
      (e = .ErrNotHost ∨ e = .ErrBadPhase ∨ e = .ErrNoPlayers ∨ e = .ErrInvalidQuestion)) ∨
    ((r.Phase = PhaseLobby ∨ r.Phase = PhaseResults) ∧
      (StartGame r requesterID q answeringSeconds now).2 = none ∧
      (StartGame r requesterID q answeringSeconds now).1.RoundNumber = r.RoundNumber + 1 ∧
      (StartGame r requesterID q answeringSeconds now).1.Phase = PhaseAnswering) := by
  by_cases h1 : r.HostID = "" ∨ r.HostID ≠ requesterID
  · exact Or.inl ⟨.ErrNotHost, by rw [StartGame, if_pos h1], by simp⟩
  by_cases h2 : r.Phase ≠ PhaseLobby ∧ r.Phase ≠ PhaseResults
  · exact Or.inl ⟨.ErrBadPhase, by rw [StartGame, if_neg h1, if_pos h2], by simp⟩
  by_cases h3 : r.Players.len < 1
  · exact Or.inl ⟨.ErrNoPlayers, by rw [StartGame, if_neg h1, if_neg h2, if_pos h3], by simp⟩
  by_cases h4 : TrimSpace q.Text = "" ∨ q.Options.length ≠ 4 ∨ TrimSpace q.CorrectID = ""
  · exact Or.inl ⟨.ErrInvalidQuestion,
      by rw [StartGame, if_neg h1, if_neg h2, if_neg h3, if_pos h4], by simp⟩
  by_cases h5 : ¬ hasOption q.Options q.CorrectID = true
  · exact Or.inl ⟨.ErrInvalidQuestion,
      by rw [StartGame, if_neg h1, if_neg h2, if_neg h3, if_neg h4, if_pos h5], by simp⟩
  · refine Or.inr ⟨?_, ?_⟩
    · by_contra hc
      exact h2 ⟨fun h => hc (Or.inl h), fun h => hc (Or.inr h)⟩
    · rw [StartGame, if_neg h1, if_neg h2, if_neg h3, if_neg h4, if_neg h5]
      exact ⟨rfl, rfl, rfl⟩

/-- `SubmitAnswer` either fails and returns the room as it was, or records the trimmed
option for a player who had no answer yet. -/
theorem SubmitAnswer_cases (r : Room) (p s : String) (now : Time) :
    (∃ e, SubmitAnswer r p s now = (r, some e) ∧
      (e = .ErrBadPhase ∨ e = .ErrDeadlinePassed ∨ e = .ErrEmptyAnswer ∨
        e = .ErrInvalidOption ∨ e = .ErrAlreadyAnswered)) ∨
    (r.Phase = PhaseAnswering ∧ r.Answers.get? p = none ∧
      SubmitAnswer r p s now =
        ({ r with Answers := some ((r.Answers.getD ∅).insert p (TrimSpace s)) }, none)) := by
  by_cases h1 : r.Phase = PhaseAnswering
  swap
  · exact Or.inl ⟨.ErrBadPhase, by simp [SubmitAnswer, h1], by simp⟩
  by_cases h2 : r.AnsweringDeadline.IsZero = false ∧ r.AnsweringDeadline.nanos < now.nanos
  · refine Or.inl ⟨.ErrDeadlinePassed, ?_, by simp⟩
    have h2' : (!r.AnsweringDeadline.IsZero && now.After r.AnsweringDeadline) = true := by
      simp [Time.After, h2.1, h2.2]
    simp [SubmitAnswer, h1, h2']
  have h2' : ¬ ((!r.AnsweringDeadline.IsZero && now.After r.AnsweringDeadline) = true) := by
    intro h
    apply h2
    simpa [Time.After] using h
  by_cases h3 : TrimSpace s = ""
  · exact Or.inl ⟨.ErrEmptyAnswer, by simp [SubmitAnswer, h1, h2', h3], by simp⟩
  by_cases h4 : hasOption r.CurrentQuestion.Options (TrimSpace s) = true
  swap
  · exact Or.inl ⟨.ErrInvalidOption, by simp [SubmitAnswer, h1, h2', h3, h4], by simp⟩
  have hc := SubmitAnswer_checked r p s now h1 h2 h3 h4
  by_cases hp : r.Answers.get? p = none
  · exact Or.inr ⟨h1, hp, hc.2 hp⟩
  · exact Or.inl ⟨_, hc.1 (Option.ne_none_iff_isSome.mp hp), by simp⟩

/-- `FinishRoundIfDeadlinePassed` either does nothing, or finishes an answering round whose
deadline is not in the future. -/
theorem FinishRound_cases (r : Room) (now : Time) :
    FinishRoundIfDeadlinePassed r now = (r, none, false) ∨
    (r.Phase = PhaseAnswering ∧ r.AnsweringDeadline.nanos ≤ now.nanos ∧
      FinishRoundIfDeadlinePassed r now =
        ({ r with
            Scores := some (finishLoop (r.Answers.getD ∅) r.CurrentQuestion.CorrectID
              r.Players.range (r.Scores.getD ∅) []).1
            Answers := some (r.Answers.getD ∅)
            Phase := PhaseResults },
         some { Code := r.Code, RoundNumber := r.RoundNumber,
                Question := r.CurrentQuestion.Text, Options := r.CurrentQuestion.Options,
                CorrectOptionID := r.CurrentQuestion.CorrectID,
                Results := (finishLoop (r.Answers.getD ∅) r.CurrentQuestion.CorrectID
                  r.Players.range (r.Scores.getD ∅) []).2 },
         true)) := by
  unfold FinishRoundIfDeadlinePassed
  split_ifs with h1 h2
  · exact Or.inl rfl
  · exact Or.inl rfl
  · refine Or.inr ⟨by simpa using h1, ?_, ?_⟩
    · simpa [Time.Before] using h2
    · cases hs : r.Scores <;> cases ha : r.Answers <;> rfl

theorem GoMap.getD_lookup {β : Type} (m : GoMap β) (k : String) :
    (m.getD ∅).lookup k = m.get? k := by
  cases m <;> simp [GoMap.get?]

theorem GoMap.get?_insert {β : Type} (m : StrMap β) (p k : String) (v : β) :
    GoMap.get? (some (m.insert p v)) k = if k = p then some v else m.lookup k := by
  by_cases h : k = p
  · subst h
    simp [GoMap.get?, AList.lookup_insert]
  · simp [GoMap.get?, AList.lookup_insert_ne h, h]

/-- `AddPlayer` touches only `Players`, `Scores` and `HostID`. -/
theorem AddPlayer_frame (r r' : Room) (pl : Player) (isHost : Bool)
    (h : AddPlayer r pl = some (r', isHost)) :
    r'.Code = r.Code ∧ r'.Phase = r.Phase ∧ r'.RoundNumber = r.RoundNumber ∧
    r'.CurrentQuestion = r.CurrentQuestion ∧ r'.AnsweringDeadline = r.AnsweringDeadline ∧
    r'.Answers = r.Answers := by
  unfold AddPlayer at h
  cases hP : r.Players with
  | none => simp [hP] at h
  | some players =>
    cases hS : r.Scores with
    | none =>
      simp only [hP, hS] at h
      split_ifs at h <;> (simp at h; obtain ⟨h, _⟩ := h; subst h; simp)
    | some scores =>
      simp only [hP, hS] at h
      split_ifs at h <;> (simp at h; obtain ⟨h, _⟩ := h; subst h; simp)

/-- `RemovePlayer` touches only `Players` and `HostID`. -/
theorem RemovePlayer_frame (r : Room) (playerID : String) :
    (RemovePlayer r playerID).Code = r.Code ∧ (RemovePlayer r playerID).Phase = r.Phase ∧
    (RemovePlayer r playerID).RoundNumber = r.RoundNumber ∧
    (RemovePlayer r playerID).CurrentQuestion = r.CurrentQuestion ∧
    (RemovePlayer r playerID).AnsweringDeadline = r.AnsweringDeadline ∧
    (RemovePlayer r playerID).Answers = r.Answers ∧
    (RemovePlayer r playerID).Scores = r.Scores := by
  unfold RemovePlayer
  simp only
  split_ifs
  · split <;> simp
  · simp

theorem answeredInRound_step (n : Int) (q : Question) (p x : String) (r r' : Room)
    (op : RoomOp) (hr : answeredInRound n q p x r) (hop : op.run r = some r') :
    answeredInRound n q p x r' := by
  obtain ⟨hn, hround⟩ := hr
  cases op with
  | addPlayer pl =>
    simp only [RoomOp.run, Option.map_eq_some'] at hop
    obtain ⟨⟨r'', b⟩, hadd, hr''⟩ := hop
    simp only at hr''
    subst hr''
    obtain ⟨_, h2, h3, h4, _, h6⟩ := AddPlayer_frame r r'' pl b hadd
    unfold answeredInRound
    rw [h2, h3, h4, h6]
    exact ⟨hn, hround⟩
  | removePlayer playerID =>
    simp only [RoomOp.run, Option.some.injEq] at hop
    subst hop
    obtain ⟨_, h2, h3, h4, _, h6, _⟩ := RemovePlayer_frame r playerID
    unfold answeredInRound
    rw [h2, h3, h4, h6]
    exact ⟨hn, hround⟩
  | startGame requesterID q2 secs now =>
    simp only [RoomOp.run, Option.some.injEq] at hop
    subst hop
    rcases StartGame_cases r requesterID q2 secs now with ⟨e, h, _⟩ | ⟨_, _, h, _⟩
    · rw [h]
      exact ⟨hn, hround⟩
    · refine ⟨by rw [h]; omega, fun hc => ?_⟩
      rw [h] at hc
      omega
  | submitAnswer playerID optionID now =>
    simp only [RoomOp.run, Option.some.injEq] at hop
    subst hop
    rcases SubmitAnswer_cases r playerID optionID now with ⟨e, h, _⟩ | ⟨hph, hnone, h⟩
    · rw [h]
      exact ⟨hn, hround⟩
    · rw [h]
      refine ⟨hn, fun hc => ?_⟩
      rcases hround hc with hres | ⟨_, hq, hans⟩
      · rw [hph] at hres
        simp [PhaseAnswering, PhaseResults] at hres
      · refine Or.inr ⟨hph, hq, ?_⟩
        show GoMap.get? (some ((r.Answers.getD ∅).insert playerID (TrimSpace optionID))) p = _
        rw [GoMap.get?_insert, GoMap.getD_lookup]
        have hne : p ≠ playerID := by
          intro heq
          rw [heq, hnone] at hans
          simp at hans
        rw [if_neg hne, hans]
  | finishRound now =>
    simp only [RoomOp.run, Option.some.injEq] at hop
    subst hop
    rcases FinishRound_cases r now with h | ⟨_, _, h⟩
    · rw [h]
      exact ⟨hn, hround⟩
    · rw [h]
      exact ⟨hn, fun _ => Or.inl rfl⟩

theorem answeredInRound_runOps (n : Int) (q : Question) (p x : String) (ops : List RoomOp)
    (r r' : Room) (hr : answeredInRound n q p x r) (hops : runOps r ops = some r') :
    answeredInRound n q p x r' := by
  induction ops generalizing r with
  | nil =>
    simp only [runOps, Option.some.injEq] at hops
    subst hops
    exact hr
  | cons op rest ih =>
    simp only [runOps] at hops
    cases hop : op.run r with
    | none => simp [hop] at hops
    | some r1 =>
      rw [hop] at hops
      exact ih r1 (answeredInRound_step n q p x r r1 op hr hop) hops

theorem answeredCorrectly_iff (answers : StrMap String) (correctID id : String) :
    answeredCorrectly answers correctID id = true ↔
      ∃ a, answers.lookup id = some a ∧ a ≠ "" ∧ a = correctID := by
  unfold answeredCorrectly
  cases h : answers.lookup id with
  | none => simp
  | some a => simp

/-- The score map after the scoring loop: one more point for each visited player whose answer
passes the test, everything else as before. -/
theorem finishLoop_scores_lookup (answers : StrMap String) (correctID : String)
    (entries : List (Sigma fun _ : String => Player)) (hnd : entries.NodupKeys)
    (scores : StrMap Int) (results : List RoundResult) (k : String) :
    (finishLoop answers correctID entries scores results).1.lookup k =
      if k ∈ entries.keys ∧ answeredCorrectly answers correctID k = true then
        some ((scores.lookup k).getD 0 + 1)
      else scores.lookup k := by
  induction entries generalizing scores results with
  | nil => simp [finishLoop]
  | cons e rest ih =>
    obtain ⟨hnot, hrest⟩ := List.nodupKeys_cons.mp hnd
    simp only [finishLoop]
    rw [ih hrest]
    by_cases hk : k = e.1
    · subst hk
      have h1 : ¬ (e.1 ∈ rest.keys ∧ answeredCorrectly answers correctID e.1 = true) :=
        fun h => hnot h.1
      rw [if_neg h1]
      by_cases hc : answeredCorrectly answers correctID e.1 = true
      · have hc' := hc
        unfold answeredCorrectly at hc'
        simp only [hc', if_true, AList.lookup_insert, List.keys_cons, List.mem_cons, true_or,
          hc, and_self]
      · have hc' := hc
        unfold answeredCorrectly at hc'
        simp only [hc', hc, and_false, if_false]
        simp
    · have hlook : AList.lookup k
          (if ((answers.lookup e.1).getD "" != "" && (answers.lookup e.1).getD "" == correctID)
              = true then
            scores.insert e.1 ((scores.lookup e.1).getD 0 + 1) else scores) =
          AList.lookup k scores := by
        split_ifs
        · exact AList.lookup_insert_ne hk
        · rfl
      rw [hlook]
      simp only [List.keys_cons, List.mem_cons, hk, false_or]

/-- The result slice after the scoring loop: one entry per visited player, in order, carrying
the final score of that player. -/
theorem finishLoop_results (answers : StrMap String) (correctID : String)
    (entries : List (Sigma fun _ : String => Player)) (hnd : entries.NodupKeys)
    (scores : StrMap Int) (results : List RoundResult) :
    (finishLoop answers correctID entries scores results).2 =
      results ++ entries.map (fun e =>
        { PlayerID := e.1, Name := e.2.Name,
          SelectedOptionID := (answers.lookup e.1).getD "",
          Correct := answeredCorrectly answers correctID e.1,
          Score := ((finishLoop answers correctID entries scores results).1.lookup e.1).getD 0 })
    := by
  induction entries generalizing scores results with
  | nil => simp [finishLoop]
  | cons e rest ih =>
    obtain ⟨hnot, hrest⟩ := List.nodupKeys_cons.mp hnd
    simp only [finishLoop]
    rw [ih hrest]
    rw [List.append_assoc, List.map_cons, List.singleton_append]
    congr 2
    rw [finishLoop_scores_lookup answers correctID rest hrest]
    have h1 : ¬ (e.1 ∈ rest.keys ∧ answeredCorrectly answers correctID e.1 = true) :=
      fun h => hnot h.1
    rw [if_neg h1]
    rfl

theorem GoMap.range_nodupKeys {β : Type} (m : GoMap β) : m.range.NodupKeys := by
  cases m with
  | none => exact List.nodupKeys_nil
  | some a => exact a.nodupKeys

theorem GoMap.mem_range_iff {β : Type} (m : GoMap β) (k : String) (v : β) :
    (⟨k, v⟩ : Sigma fun _ : String => β) ∈ m.range ↔ m.get? k = some v := by
  cases m with
  | none => simp [GoMap.get?, GoMap.range]
  | some a =>
    simp only [GoMap.get?, GoMap.range]
    rw [← AList.mem_lookup_iff]
    simp [Option.mem_def]

/-- What `FinishRoundIfDeadlinePassed` returns in the answering phase once the deadline is
reached. -/
theorem FinishRound_due (r : Room) (now : Time)
    (hphase : r.Phase = PhaseAnswering) (hnow : r.AnsweringDeadline.nanos ≤ now.nanos) :
    FinishRoundIfDeadlinePassed r now =
      ({ r with
          Scores := some (finishLoop (r.Answers.getD ∅) r.CurrentQuestion.CorrectID
            r.Players.range (r.Scores.getD ∅) []).1
          Answers := some (r.Answers.getD ∅)
          Phase := PhaseResults },
       some { Code := r.Code, RoundNumber := r.RoundNumber,
              Question := r.CurrentQuestion.Text, Options := r.CurrentQuestion.Options,
              CorrectOptionID := r.CurrentQuestion.CorrectID,
              Results := (finishLoop (r.Answers.getD ∅) r.CurrentQuestion.CorrectID
                r.Players.range (r.Scores.getD ∅) []).2 },
       true) := by
  rcases FinishRound_cases r now with h | ⟨_, _, h⟩
  · exfalso
    unfold FinishRoundIfDeadlinePassed at h
    have h2 : ¬ now.Before r.AnsweringDeadline = true := by
      simp [Time.Before, hnow]
    rw [if_neg (by simp [hphase]), if_neg h2] at h
    simp at h
  · exact h

/-- The copy loop of `Snapshot` yields a map with the entries it ranged over, on top of the
entries the target had. -/
theorem copyScores_lookup (entries : List (Sigma fun _ : String => Int))
    (hnd : entries.NodupKeys) (acc : StrMap Int) (k : String) :
    (copyScores entries acc).lookup k =
      if k ∈ entries.keys then entries.dlookup k else acc.lookup k := by
  induction entries generalizing acc with
  | nil => simp [copyScores]
  | cons e rest ih =>
    obtain ⟨hnot, hrest⟩ := List.nodupKeys_cons.mp hnd
    obtain ⟨k', v⟩ := e
    simp only [copyScores]
    rw [ih hrest]
    by_cases hk : k = k'
    · subst hk
      rw [if_neg hnot]
      simp [AList.lookup_insert, List.dlookup_cons_eq]
    · have hlk : List.dlookup k (⟨k', v⟩ :: rest) = List.dlookup k rest :=
        List.dlookup_cons_ne rest ⟨k', v⟩ hk
      rw [hlk, AList.lookup_insert_ne hk]
      simp only [List.keys_cons, List.mem_cons, hk, false_or]

/-- The score copy of `Snapshot` has exactly the entries of the room's score map. -/
theorem copyScores_self_lookup (m : StrMap Int) (k : String) :
    (copyScores m.entries ∅).lookup k = m.lookup k := by
  rw [copyScores_lookup m.entries m.nodupKeys]
  by_cases hk : k ∈ m.entries.keys
  · rw [if_pos hk]
    rfl
  · rw [if_neg hk, AList.lookup_empty]
    exact (AList.lookup_eq_none.mpr hk).symm

theorem copyScoresRef_cell (entries : List (Sigma fun _ : String => Int)) (dst : Nat)
    (h : ScoreHeap) :
    (copyScoresRef entries dst h).next = h.next ∧
    (copyScoresRef entries dst h).cell dst = copyScores entries (h.cell dst) ∧
    ∀ a, a ≠ dst → (copyScoresRef entries dst h).cell a = h.cell a := by
  induction entries generalizing h with
  | nil => simp [copyScoresRef, copyScores]
  | cons e rest ih =>
    obtain ⟨h1, h2, h3⟩ := ih (h.store dst e.1 e.2)
    simp only [copyScoresRef, copyScores]
    refine ⟨by rw [h1]; rfl, ?_, ?_⟩
    · rw [h2]
      simp [ScoreHeap.store]
    · intro a ha
      rw [h3 a ha]
      simp [ScoreHeap.store, Function.update_noteq ha]

/-- On the heap, `Snapshot` puts the copy of the room's scores into a map at a fresh address
and leaves every map allocated before the call as it was. -/
theorem snapshotScoresRef_spec (h : ScoreHeap) (ref : Option Nat)
    (hvalid : ∀ a, ref = some a → a < h.next) :
    h.next ≤ (snapshotScoresRef h ref).2 ∧
    (snapshotScoresRef h ref).2 < (snapshotScoresRef h ref).1.next ∧
    (∀ a, a < h.next → (snapshotScoresRef h ref).1.cell a = h.cell a) ∧
    (snapshotScoresRef h ref).1.cell (snapshotScoresRef h ref).2 =
      (match h.deref ref with
        | none => ∅
        | some m => copyScores m.entries ∅) := by
  cases ref with
  | none =>
    simp only [snapshotScoresRef, ScoreHeap.make, ScoreHeap.deref, Option.map_none']
    refine ⟨le_refl _, Nat.lt_succ_self _, ?_, ?_⟩
    · intro a ha
      exact Function.update_noteq (by omega) _ _
    · simp
  | some a =>
    have ha : a < h.next := hvalid a rfl
    obtain ⟨h1, h2, h3⟩ := copyScoresRef_cell
      ((h.make.1.make.1).cell a).entries h.make.1.make.2 h.make.1.make.1
    have hcell : (h.make.1.make.1).cell a = h.cell a := by
      simp only [ScoreHeap.make]
      rw [Function.update_noteq (by omega), Function.update_noteq (by omega)]
    simp only [snapshotScoresRef, ScoreHeap.deref, Option.map_some']
    refine ⟨?_, ?_, ?_, ?_⟩
    · simp [ScoreHeap.make]
    · rw [h1]
      simp [ScoreHeap.make]
    · intro a' ha'
      rw [h3 a' (by simp only [ScoreHeap.make]; omega)]
      simp only [ScoreHeap.make]
      rw [Function.update_noteq (by omega), Function.update_noteq (by omega)]
    · rw [h2, hcell]
      simp [ScoreHeap.make]

/-- The fields of the value `Snapshot` returns. -/
theorem Snapshot_fields (r : Room) :
    (Snapshot r).Code = r.Code ∧ (Snapshot r).Phase = r.Phase ∧
    (Snapshot r).HostID = r.HostID ∧ (Snapshot r).RoundNumber = r.RoundNumber ∧
    (Snapshot r).Players = r.Players.range.map (fun e => e.2) ∧
    (Snapshot r).Scores =
      (match r.Scores with
        | none => ∅
        | some m => copyScores m.entries ∅) ∧
    (Snapshot r).Question =
      (if r.Phase = PhaseAnswering ∨ r.Phase = PhaseResults then r.CurrentQuestion.Text
        else "") ∧
    (Snapshot r).Options =
      (if r.Phase = PhaseAnswering ∨ r.Phase = PhaseResults then r.CurrentQuestion.Options
        else []) ∧
    (Snapshot r).Deadline =
      (if r.Phase = PhaseAnswering ∧ r.AnsweringDeadline.IsZero = false then
        r.AnsweringDeadline.UnixMilli else 0) := by
  unfold Snapshot
  simp only
  split_ifs <;> simp_all

/-! ## Lemmas on room codes -/

theorem ToUpper_length (lib : StdLib) (s : String) : (ToUpper lib s).length = s.length := by
  obtain ⟨cs⟩ := s
  exact List.length_map _ _

theorem base32Encode_length (bs : List Byte) :
    (base32Encode bs).length = (8 * bs.length + 4) / 5 := by
  simp [base32Encode]

theorem base32Encode_mem (bs : List Byte) (c : Char) (hc : c ∈ base32Encode bs) :
    c ∈ base32Alphabet := by
  simp only [base32Encode, List.mem_map] at hc
  obtain ⟨i, _, hi⟩ := hc
  rw [← hi]
  have hlt : ∀ k, k < 32 → base32Alphabet.getD k 'A' ∈ base32Alphabet := by decide
  exact hlt _ (Nat.mod_lt _ (by decide))

theorem replaceAmbiguous_code_char :
    ∀ c ∈ base32Alphabet,
      replaceAmbiguous c ∈ base32Alphabet ∧ replaceAmbiguous c ≠ 'O' ∧
      replaceAmbiguous c ≠ 'I' := by
  decide

theorem code_char_ascii :
    ∀ c ∈ base32Alphabet,
      c.toNat < 128 ∧ asciiToUpper c = c ∧
      (asciiToLower c).toNat < 128 ∧ asciiToUpper (asciiToLower c) = c ∧
      c ≠ '0' ∧ c ≠ '1' := by
  decide

theorem unicodeToUpper_code_char (lib : StdLib) (c : Char) (hc : c ∈ base32Alphabet) :
    unicodeToUpper lib c = c ∧ unicodeToUpper lib (asciiToLower c) = c := by
  obtain ⟨h1, h2, h3, h4, _⟩ := code_char_ascii c hc
  simp [unicodeToUpper, h1, h2, h3, h4]

/-- Upper-casing leaves a string of base-32 letters as it is. -/
theorem ToUpper_code_chars (lib : StdLib) (cs : List Char)
    (hcs : ∀ c ∈ cs, c ∈ base32Alphabet) : ToUpper lib ⟨cs⟩ = ⟨cs⟩ := by
  unfold ToUpper
  congr 1
  show cs.map (unicodeToUpper lib) = cs
  conv_rhs => rw [← List.map_id cs]
  apply List.map_congr_left
  intro c hc
  exact (unicodeToUpper_code_char lib c (hcs c hc)).1

/-- The code `generateCode` returns: the first `n` letters of the encoding with `O` and `I`
replaced. -/
theorem generateCode_eq (lib : StdLib) (b : Fin 8 → Byte) (n : Nat) :
    generateCode lib b n = ⟨((base32Encode (List.ofFn b)).map replaceAmbiguous).take n⟩ ∧
    ∀ c ∈ (generateCode lib b n).data, c ∈ base32Alphabet ∧ c ≠ 'O' ∧ c ≠ 'I' := by
  have hmem : ∀ c ∈ ((base32Encode (List.ofFn b)).map replaceAmbiguous).take n,
      c ∈ base32Alphabet ∧ c ≠ 'O' ∧ c ≠ 'I' := by
    intro c hc
    have hc' := List.mem_of_mem_take hc
    rw [List.mem_map] at hc'
    obtain ⟨x, hx, hxc⟩ := hc'
    rw [← hxc]
    exact replaceAmbiguous_code_char x (base32Encode_mem _ x hx)
  have heq : generateCode lib b n =
      ⟨((base32Encode (List.ofFn b)).map replaceAmbiguous).take n⟩ :=
    ToUpper_code_chars lib _ (fun c hc => (hmem c hc).1)
  refine ⟨heq, ?_⟩
  rw [heq]
  exact hmem

theorem generateCode_isRoomCode (lib : StdLib) (b : Fin 8 → Byte) :
    IsRoomCode (generateCode lib b 4) := by
  obtain ⟨heq, hmem⟩ := generateCode_eq lib b 4
  refine ⟨?_, hmem⟩
  rw [heq]
  simp [String.length, base32Encode_length]

/-- Every key of a manager populated by `CreateRoom` has the shape of a room code. -/
theorem Populated_keys (lib : StdLib) (rm : RoomManager) (hrm : RoomManager.Populated lib rm) :
    ∀ k, k ∈ rm.rooms → IsRoomCode k := by
  induction hrm with
  | new =>
    intro k hk
    exact absurd hk (AList.not_mem_empty k)
  | create rm b _ ih =>
    intro k hk
    simp only [CreateRoom, AList.mem_insert] at hk
    rcases hk with hk | hk
    · rw [hk]
      exact generateCode_isRoomCode lib b
    · exact ih k hk
  | roomChanged rm code room _ ih =>
    intro k hk
    exact ih k (AList.mem_replace.mp hk)

theorem ToUpper_lowerCasedVariant (lib : StdLib) (v c : String)
    (hc : ∀ x ∈ c.data, x ∈ base32Alphabet) (hv : LowerCasedVariant v c) :
    ToUpper lib v = c := by
  obtain ⟨vd⟩ := v
  obtain ⟨cd⟩ := c
  unfold ToUpper
  congr 1
  show vd.map (unicodeToUpper lib) = cd
  change List.Forall₂ _ vd cd at hv
  change ∀ x ∈ cd, x ∈ base32Alphabet at hc
  induction hv with
  | nil => rfl
  | @cons x y xs ys hxy _ ih =>
    have hy := unicodeToUpper_code_char lib y (hc y (List.mem_cons_self _ _))
    rw [List.map_cons, ih (fun z hz => hc z (List.mem_cons_of_mem _ hz))]
    rcases hxy with h | h
    · rw [h, hy.1]
    · rw [h, hy.2]

theorem GetRoom_of_lookup (lib : StdLib) (rm : RoomManager) (code : String) :
    GetRoom lib rm code =
      match rm.rooms.lookup (ToUpper lib code) with
      | some r => (some r, true)
      | none => (none, false) := rfl

/-- `StartGame` never touches `Code`, `Players` and `HostID`. -/
theorem StartGame_frame (r : Room) (requesterID : String) (q : Question)
    (answeringSeconds : Int) (now : Time) :
    (StartGame r requesterID q answeringSeconds now).1.Code = r.Code ∧
    (StartGame r requesterID q answeringSeconds now).1.Players = r.Players ∧
    (StartGame r requesterID q answeringSeconds now).1.HostID = r.HostID := by
  unfold StartGame
  split_ifs <;> exact ⟨rfl, rfl, rfl⟩

/-- `SubmitAnswer` never touches `Code`, `Players`, `HostID` and `Scores`. -/
theorem SubmitAnswer_frame (r : Room) (p s : String) (now : Time) :
    (SubmitAnswer r p s now).1.Code = r.Code ∧
    (SubmitAnswer r p s now).1.Players = r.Players ∧
    (SubmitAnswer r p s now).1.HostID = r.HostID ∧
    (SubmitAnswer r p s now).1.Scores = r.Scores := by
  rcases SubmitAnswer_cases r p s now with ⟨e, h, _⟩ | ⟨_, _, h⟩ <;> rw [h] <;>
    exact ⟨rfl, rfl, rfl, rfl⟩

/-- `FinishRoundIfDeadlinePassed` never touches `Code`, `Players` and `HostID`. -/
theorem FinishRound_frame (r : Room) (now : Time) :
    (FinishRoundIfDeadlinePassed r now).1.Code = r.Code ∧
    (FinishRoundIfDeadlinePassed r now).1.Players = r.Players ∧
    (FinishRoundIfDeadlinePassed r now).1.HostID = r.HostID := by
  rcases FinishRound_cases r now with h | ⟨_, _, h⟩ <;> rw [h] <;> exact ⟨rfl, rfl, rfl⟩

theorem hostIsPlayer_AddPlayer (r r' : Room) (pl : Player) (isHost : Bool)
    (hr : hostIsPlayer r) (h : AddPlayer r pl = some (r', isHost)) : hostIsPlayer r' := by
  obtain ⟨hne, hhost⟩ := hr
  unfold AddPlayer at h
  cases hP : r.Players with
  | none => exact absurd hP hne
  | some players =>
    have hin : ∀ k, (GoMap.get? (some players) k).isSome →
        (GoMap.get? (some (players.insert pl.ID pl)) k).isSome := by
      intro k hk
      rw [GoMap.get?_insert]
      split_ifs
      · rfl
      · exact hk
    have hself : (GoMap.get? (some (players.insert pl.ID pl)) pl.ID).isSome := by
      rw [GoMap.get?_insert, if_pos rfl]
      rfl
    rw [hP] at hhost
    cases hS : r.Scores with
    | none =>
      simp only [hP, hS] at h
      split_ifs at h with hh <;> (simp at h; obtain ⟨h, _⟩ := h; subst h)
      · exact ⟨by simp, fun _ => hself⟩
      · exact ⟨by simp, fun _ => hin _ (hhost hh)⟩
    | some scores =>
      simp only [hP, hS] at h
      split_ifs at h with hs hh hh <;> (simp at h; obtain ⟨h, _⟩ := h; subst h)
      · exact ⟨by simp, fun _ => hself⟩
      · exact ⟨by simp, fun _ => hin _ (hhost hh)⟩
      · exact ⟨by simp, fun _ => hself⟩
      · exact ⟨by simp, fun _ => hin _ (hhost hh)⟩

theorem hostIsPlayer_RemovePlayer (r : Room) (playerID : String) (hr : hostIsPlayer r) :
    hostIsPlayer (RemovePlayer r playerID) := by
  obtain ⟨hne, hhost⟩ := hr
  cases hP : r.Players with
  | none => exact absurd hP hne
  | some players =>
    rw [hP] at hhost
    unfold RemovePlayer
    simp only [hP, Option.map_some']
    split_ifs with hh
    · cases he : (players.erase playerID).entries with
      | nil =>
        simp only [GoMap.range, he]
        exact ⟨by simp, fun h => absurd rfl h⟩
      | cons e rest =>
        simp only [GoMap.range, he]
        refine ⟨by simp, fun _ => ?_⟩
        show (AList.lookup e.1 (players.erase playerID)).isSome
        rw [AList.lookup_isSome, AList.mem_keys, AList.keys, he]
        exact List.mem_cons_self _ _
    · refine ⟨by simp, fun hne' => ?_⟩
      show (AList.lookup r.HostID (players.erase playerID)).isSome
      rw [AList.lookup_erase_ne hh]
      exact hhost hne'

theorem hostIsPlayer_step (r r' : Room) (op : RoomOp) (hr : hostIsPlayer r)
    (hop : op.run r = some r') : hostIsPlayer r' := by
  cases op with
  | addPlayer pl =>
    simp only [RoomOp.run, Option.map_eq_some'] at hop
    obtain ⟨⟨r'', b⟩, hadd, hr''⟩ := hop
    simp only at hr''
    subst hr''
    exact hostIsPlayer_AddPlayer r r'' pl b hr hadd
  | removePlayer playerID =>
    simp only [RoomOp.run, Option.some.injEq] at hop
    subst hop
    exact hostIsPlayer_RemovePlayer r playerID hr
  | startGame requesterID q secs now =>
    simp only [RoomOp.run, Option.some.injEq] at hop
    subst hop
    obtain ⟨_, h2, h3⟩ := StartGame_frame r requesterID q secs now
    unfold hostIsPlayer
    rw [h2, h3]
    exact hr
  | submitAnswer playerID optionID now =>
    simp only [RoomOp.run, Option.some.injEq] at hop
    subst hop
    obtain ⟨_, h2, h3, _⟩ := SubmitAnswer_frame r playerID optionID now
    unfold hostIsPlayer
    rw [h2, h3]
    exact hr
  | finishRound now =>
    simp only [RoomOp.run, Option.some.injEq] at hop
    subst hop
    obtain ⟨_, h2, h3⟩ := FinishRound_frame r now
    unfold hostIsPlayer
    rw [h2, h3]
    exact hr

theorem hostIsPlayer_runOps (ops : List RoomOp) (r r' : Room) (hr : hostIsPlayer r)
    (hops : runOps r ops = some r') : hostIsPlayer r' := by
  induction ops generalizing r with
  | nil =>
    simp only [runOps, Option.some.injEq] at hops
    subst hops
    exact hr
  | cons op rest ih =>
    simp only [runOps] at hops
    cases hop : op.run r with
    | none => simp [hop] at hops
    | some r1 =>
      rw [hop] at hops
      exact ih r1 (hostIsPlayer_step r r1 op hr hop) hops

theorem hostIsPlayer_CreateRoom (lib : StdLib) (rm : RoomManager) (b : Fin 8 → Byte) :
    hostIsPlayer (CreateRoom lib rm b).2 :=
  ⟨by simp [CreateRoom], fun h => absurd rfl h⟩

/-! ## Lemmas on the generation counter -/

theorem Hub.bumpRoundGen_snd (lib : StdLib) (h : Hub) (code : String) :
    (h.bumpRoundGen lib code).2 = h.generation lib code + 1 := rfl

theorem Hub.generation_bumpRoundGen (lib : StdLib) (h : Hub) (code code' : String) :
    (h.bumpRoundGen lib code).1.generation lib code' =
      if ToUpper lib code' = ToUpper lib code then h.generation lib code + 1
      else h.generation lib code' := by
  unfold Hub.generation Hub.bumpRoundGen
  by_cases hc : ToUpper lib code' = ToUpper lib code
  · rw [if_pos hc, hc]
    simp only [AList.lookup_insert, Option.getD_some]
  · rw [if_neg hc]
    simp only [AList.lookup_insert_ne hc]

theorem Hub.isCurrentGen_iff (lib : StdLib) (h : Hub) (code : String) (gen : Int) :
    h.isCurrentGen lib code gen = true ↔ gen = h.generation lib code := by
  unfold Hub.isCurrentGen Hub.generation
  rw [beq_iff_eq]
  exact eq_comm

theorem Hub.generation_bumpAll (lib : StdLib) (later : List String) (h : Hub) (code : String) :
    (h.bumpAll lib later).generation lib code =
      h.generation lib code +
        ((later.filter (fun c => ToUpper lib c = ToUpper lib code)).length : Int) := by
  induction later generalizing h with
  | nil => simp [Hub.bumpAll]
  | cons c rest ih =>
    rw [Hub.bumpAll, ih, Hub.generation_bumpRoundGen]
    by_cases hc : ToUpper lib c = ToUpper lib code
    · have hg : h.generation lib c = h.generation lib code := by
        unfold Hub.generation
        rw [hc]
      simp [hc, hg]
      ring
    · have hc' : ¬ ToUpper lib code = ToUpper lib c := fun h' => hc h'.symm
      simp [hc, hc']

/-- A generation issued by `bumpRoundGen` is current after further bumps exactly when none of
them was for the same room. -/
theorem Hub.isCurrentGen_after_bumps (lib : StdLib) (h : Hub) (code : String)
    (later : List String) :
    ((h.bumpRoundGen lib code).1.bumpAll lib later).isCurrentGen lib code
        (h.bumpRoundGen lib code).2 = true ↔
      ∀ c ∈ later, ToUpper lib c ≠ ToUpper lib code := by
  rw [Hub.isCurrentGen_iff, Hub.generation_bumpAll, Hub.generation_bumpRoundGen, if_pos rfl,
    Hub.bumpRoundGen_snd]
  constructor
  · intro hg c hc heq
    have hpos : 0 < (later.filter (fun c => ToUpper lib c = ToUpper lib code)).length := by
      apply List.length_pos_of_mem (a := c)
      simp [List.mem_filter, hc, heq]
    omega
  · intro hall
    have hnil : later.filter (fun c => ToUpper lib c = ToUpper lib code) = [] := by
      rw [List.filter_eq_nil_iff]
      intro c hc
      simpa using hall c hc
    rw [hnil]
    simp

theorem Snapshot_host_round (r : Room) :
    (Snapshot r).HostID = r.HostID ∧ (Snapshot r).RoundNumber = r.RoundNumber := by
  obtain ⟨_, _, h3, h4, _⟩ := Snapshot_fields r
  exact ⟨h3, h4⟩

/-- In the answering phase `StartRound` by the host fails without changing the room. -/
theorem StartRound_answering (cfg : Config) (supplied : Except StoreError Question)
    (room : Room) (now : Time) (hphase : room.Phase = PhaseAnswering)
    (hhost : room.HostID ≠ "") :
    ∃ err, StartRound cfg supplied room room.HostID now = (room, some err) ∧
      ∀ q, supplied = .ok q → err = .game .ErrBadPhase := by
  cases supplied with
  | error e =>
    by_cases hn : e.isNoQuestions = true
    · exact ⟨.noQuestionsInDb, by simp [StartRound, hn], fun q hq => by cases hq⟩
    · exact ⟨.store e, by simp [StartRound, hn], fun q hq => by cases hq⟩
  | ok q =>
    refine ⟨.game .ErrBadPhase, ?_, fun _ _ => rfl⟩
    have h1 : ¬ (room.HostID = "" ∨ room.HostID ≠ room.HostID) := by simp [hhost]
    have h2 : room.Phase ≠ PhaseLobby ∧ room.Phase ≠ PhaseResults := by
      rw [hphase]
      decide
    simp only [StartRound]
    rw [StartGame, if_neg h1, if_pos h2]
    rfl

/-! ## Lemmas on the leaderboard -/

theorem stringLess_asymm : ∀ a b : List Char, stringLess a b = true → stringLess b a = false
  | _, [], h => by simp [stringLess] at h
  | [], _ :: _, _ => by simp [stringLess]
  | x :: as, y :: bs, h => by
    simp only [stringLess] at h ⊢
    split_ifs at h ⊢ <;> first
      | omega
      | rfl
      | exact stringLess_asymm as bs h

theorem stringLess_negTrans : ∀ a b c : List Char,
    stringLess b a = false → stringLess c b = false → stringLess c a = false
  | [], _, _, _, _ => by simp [stringLess]
  | _ :: _, [], _, h1, _ => by simp [stringLess] at h1
  | _ :: _, _ :: _, [], _, h2 => by simp [stringLess] at h2
  | x :: as, y :: bs, z :: cs, h1, h2 => by
    simp only [stringLess] at h1 h2 ⊢
    split_ifs at h1 h2 ⊢ <;> first
      | omega
      | rfl
      | exact stringLess_negTrans as bs cs h1 h2

theorem rowLess_eq_false_iff (a b : Row) :
    rowLess b a = false ↔
      b.score < a.score ∨ (a.score = b.score ∧ stringLess b.name.data a.name.data = false) := by
  unfold rowLess
  by_cases h : b.score = a.score
  · simp [h]
  · simp only [ne_eq, h, not_false_eq_true, if_true, decide_eq_false_iff_not, not_lt]
    constructor
    · intro hle
      exact Or.inl (lt_of_le_of_ne hle h)
    · rintro (hlt | ⟨heq, _⟩)
      · exact le_of_lt hlt
      · exact absurd heq.symm h

theorem rowLess_asymm (a b : Row) (h : rowLess a b = true) : rowLess b a = false := by
  rw [rowLess_eq_false_iff]
  unfold rowLess at h
  by_cases hs : a.score = b.score
  · simp only [hs, ne_eq, not_true_eq_false, if_false] at h
    exact Or.inr ⟨hs.symm ▸ rfl, stringLess_asymm _ _ h⟩
  · simp only [ne_eq, hs, not_false_eq_true, if_true, decide_eq_true_eq] at h
    exact Or.inl h

theorem rowLess_negTrans (a b c : Row) (h1 : rowLess b a = false) (h2 : rowLess c b = false) :
    rowLess c a = false := by
  rw [rowLess_eq_false_iff] at h1 h2 ⊢
  rcases h1 with h1 | ⟨h1, h1'⟩ <;> rcases h2 with h2 | ⟨h2, h2'⟩
  · exact Or.inl (by omega)
  · exact Or.inl (by omega)
  · exact Or.inl (by omega)
  · exact Or.inr ⟨by omega, stringLess_negTrans _ _ _ h1' h2'⟩

theorem scoresAbove_append (s : Int) (l1 l2 : List Row) :
    scoresAbove s (l1 ++ l2) = scoresAbove s l1 + scoresAbove s l2 := by
  simp [scoresAbove, List.countP_append]

theorem scoresAbove_eq_zero (s : Int) (l : List Row) (h : ∀ x ∈ l, x.score ≤ s) :
    scoresAbove s l = 0 := by
  rw [scoresAbove, List.countP_eq_zero]
  intro x hx
  simpa using h x hx

theorem scoresAbove_eq_length (s : Int) (l : List Row) (h : ∀ x ∈ l, s < x.score) :
    scoresAbove s l = l.length := by
  rw [scoresAbove, List.countP_eq_length]
  intro x hx
  simpa using h x hx

/-- The places the loop of `BuildLeaderboard` assigns on a list sorted by descending score:
each row gets 1 + the number of rows with a strictly greater score. -/
theorem assignPlaces_spec (all : List Row)
    (hsorted : all.Pairwise (fun a b => b.score ≤ a.score)) :
    ∀ (rows pre : List Row) (place prevScore : Int), pre ++ rows = all →
      (pre ≠ [] → (∀ x ∈ pre, prevScore ≤ x.score) ∧ (∀ x ∈ rows, x.score ≤ prevScore) ∧
        place = 1 + (scoresAbove prevScore pre : Int)) →
      assignPlaces rows pre.length place prevScore =
        rows.map (fun r =>
          { Place := 1 + (scoresAbove r.score all : Int), PlayerID := r.id, Name := r.name,
            Score := r.score }) := by
  intro rows
  induction rows with
  | nil => intro pre place prevScore _ _; rfl
  | cons r rest ih =>
    intro pre place prevScore hall hinv
    have hs := hsorted
    rw [← hall, List.pairwise_append] at hs
    obtain ⟨_, hrest, hcross⟩ := hs
    have hpre : ∀ x ∈ pre, r.score ≤ x.score := fun x hx => hcross x hx r (List.mem_cons_self _ _)
    have hafter : ∀ y ∈ rest, y.score ≤ r.score := fun y hy => (List.pairwise_cons.mp hrest).1 y hy
    have hcount : scoresAbove r.score all = scoresAbove r.score pre := by
      rw [← hall, scoresAbove_append, scoresAbove_eq_zero r.score (r :: rest)]
      · rfl
      · intro x hx
        rcases List.mem_cons.mp hx with h | h
        · rw [h]
        · exact hafter x h
    have hplace : (if pre.length = 0 ∨ r.score ≠ prevScore then (pre.length : Int) + 1
        else place) = 1 + (scoresAbove r.score pre : Int) := by
      by_cases hnil : pre = []
      · subst hnil
        simp [scoresAbove]
      · obtain ⟨h1, h2, h3⟩ := hinv hnil
        have hlen : pre.length ≠ 0 := fun h => hnil (List.length_eq_zero.mp h)
        by_cases hne : r.score = prevScore
        · rw [if_neg (by simp [hlen, hne]), h3, hne]
        · rw [if_pos (Or.inr hne)]
          have hlt : r.score < prevScore :=
            lt_of_le_of_ne (h2 r (List.mem_cons_self _ _)) hne
          rw [scoresAbove_eq_length r.score pre (fun x hx => lt_of_lt_of_le hlt (h1 x hx))]
          ring
    have hprev : (if pre.length = 0 ∨ r.score ≠ prevScore then r.score else prevScore) =
        r.score := by
      split_ifs with h
      · rfl
      · simp only [not_or, not_not] at h
        exact h.2.symm
    simp only [assignPlaces, hplace, hprev, List.map_cons, hcount]
    congr 1
    have hlen' : pre.length + 1 = (pre ++ [r]).length := by simp
    rw [hlen']
    apply ih (pre ++ [r]) _ _ (by rw [List.append_assoc]; exact hall)
    intro _
    refine ⟨?_, hafter, ?_⟩
    · intro x hx
      rcases List.mem_append.mp hx with h | h
      · exact hpre x h
      · rw [List.mem_singleton.mp h]
    · rw [scoresAbove_append, scoresAbove_eq_zero r.score [r] (by simp)]
      simp

/-- The leaderboard `BuildLeaderboard` returns, written out: the rows of the players in the
order `sort.Slice` leaves them, each with place 1 + the number of rows with a greater
score. -/
theorem BuildLeaderboard_eq (lib : StdLib) (r : Room) :
    ∃ sorted : List Row,
      sorted.Perm (r.Players.range.map
        (fun p => { id := p.2.ID, name := p.2.Name, score := r.score p.2.ID })) ∧
      sorted.Pairwise (fun a b => rowLess b a = false) ∧
      (BuildLeaderboard lib r).Leaderboard = sorted.map (fun row =>
        { Place := 1 + (scoresAbove row.score sorted : Int), PlayerID := row.id,
          Name := row.name, Score := row.score }) := by
  obtain ⟨_, _, _, _, hplayers, hscores, _⟩ := Snapshot_fields r
  have hlook : ∀ k, ((Snapshot r).Scores.lookup k).getD 0 = r.score k := by
    intro k
    rw [hscores, Room.score]
    cases hs : r.Scores with
    | none => simp [GoMap.get?]
    | some m => simp [GoMap.get?, copyScores_self_lookup]
  have hrows : (Snapshot r).Players.map
      (fun p => ({ id := p.ID, name := p.Name,
                   score := ((Snapshot r).Scores.lookup p.ID).getD 0 } : Row)) =
      r.Players.range.map
        (fun p => { id := p.2.ID, name := p.2.Name, score := r.score p.2.ID }) := by
    rw [hplayers, List.map_map]
    apply List.map_congr_left
    intro p _
    simp only [Function.comp, hlook]
  refine ⟨lib.sortSlice rowLess (r.Players.range.map
      (fun p => { id := p.2.ID, name := p.2.Name, score := r.score p.2.ID })),
    lib.sortSlice_perm _ _, lib.sortSlice_sorted _ _ rowLess_asymm rowLess_negTrans, ?_⟩
  have hsorted := lib.sortSlice_sorted rowLess (r.Players.range.map
      (fun p => { id := p.2.ID, name := p.2.Name, score := r.score p.2.ID }))
      rowLess_asymm rowLess_negTrans
  have hdesc : (lib.sortSlice rowLess (r.Players.range.map
      (fun p => { id := p.2.ID, name := p.2.Name, score := r.score p.2.ID }))).Pairwise
      (fun a b => b.score ≤ a.score) := by
    apply hsorted.imp
    intro a b hab
    rcases (rowLess_eq_false_iff a b).mp hab with h | ⟨h, _⟩
    · exact le_of_lt h
    · exact le_of_eq h.symm
  have hspec := assignPlaces_spec _ hdesc _ [] 0 (-1) (List.nil_append _)
    (fun h => absurd rfl h)
  simp only [BuildLeaderboard, hrows]
  exact hspec

theorem countP_score_split (l : List LeaderboardEntry) (sa sb : Int) (hlt : sb < sa)
    (hgap : ∀ x ∈ l, ¬ (sb < x.Score ∧ x.Score < sa)) :
    l.countP (fun x => decide (sb < x.Score)) =
      l.countP (fun x => decide (sa < x.Score)) + l.countP (fun x => decide (x.Score = sa)) := by
  induction l with
  | nil => rfl
  | cons x rest ih =>
    have hx := hgap x (List.mem_cons_self _ _)
    rw [List.countP_cons, List.countP_cons, List.countP_cons,
      ih (fun y hy => hgap y (List.mem_cons_of_mem _ hy))]
    by_cases h1 : sa < x.Score
    · have h2 : sb < x.Score := by omega
      have h3 : ¬ x.Score = sa := by omega
      simp [h1, h2, h3]
      omega
    · by_cases h3 : x.Score = sa
      · have h2 : sb < x.Score := by omega
        simp [h1, h2, h3, hlt]
        omega
      · have h2 : ¬ sb < x.Score := by omega
        simp [h1, h2, h3]

/-! ## Lemmas on the hub registry -/

theorem StrMap.entries_eq_nil_iff {β : Type} (m : StrMap β) :
    m.entries = [] ↔ ∀ k, m.lookup k = none := by
  constructor
  · intro h k
    rw [AList.lookup_eq_none, AList.mem_keys, AList.keys, h]
    simp [List.keys]
  · intro h
    cases he : m.entries with
    | nil => rfl
    | cons e rest =>
      exfalso
      have hmem : e.1 ∈ m := by
        rw [AList.mem_keys, AList.keys, he]
        exact List.mem_cons_self _ _
      exact (AList.lookup_eq_none.mp (h e.1)) hmem

/-- The registry after `register`: the room of the client holds the client in the slot of its
player id, on top of what the room held; the other rooms, the generations and the channels are
as before. -/
theorem Hub.register_spec (lib : StdLib) (h : Hub) (c : Client) :
    (h.register lib c).clientsByRoom.lookup (ToUpper lib c.roomCode) =
      some (((h.clientsByRoom.lookup (ToUpper lib c.roomCode)).getD ∅).insert c.playerID c) ∧
    (∀ code, code ≠ ToUpper lib c.roomCode →
      (h.register lib c).clientsByRoom.lookup code = h.clientsByRoom.lookup code) ∧
    (h.register lib c).send = h.send ∧ (h.register lib c).roundGen = h.roundGen := by
  refine ⟨?_, ?_, rfl, rfl⟩
  · unfold Hub.register
    simp only [AList.lookup_insert]
    cases h.clientsByRoom.lookup (ToUpper lib c.roomCode) <;> rfl
  · intro code hne
    unfold Hub.register
    simp only [AList.lookup_insert_ne hne]

/-- `unregister` of a client whose player id has a slot: a panic when the client's channel is
closed already; otherwise the slot is deleted, the room entry too when nothing is left in it,
and the client's channel is closed. -/
theorem Hub.unregister_slot (lib : StdLib) (h : Hub) (c : Client) (rc : StrMap Client)
    (hrc : h.clientsByRoom.lookup (ToUpper lib c.roomCode) = some rc)
    (hslot : (rc.lookup c.playerID).isSome) :
    ((h.send c.addr).closed = true → h.unregister lib c = none) ∧
    ((h.send c.addr).closed = false →
      ∃ h1, h.unregister lib c = some h1 ∧
        h1.send = Function.update h.send c.addr { h.send c.addr with closed := true } ∧
        h1.roundGen = h.roundGen ∧
        (∀ code, code ≠ ToUpper lib c.roomCode →
          h1.clientsByRoom.lookup code = h.clientsByRoom.lookup code) ∧
        h1.clientsByRoom.lookup (ToUpper lib c.roomCode) =
          (if (rc.erase c.playerID).entries = [] then none
            else some (rc.erase c.playerID))) := by
  constructor
  · intro hclosed
    unfold Hub.unregister
    simp only [hrc, hslot, hclosed, if_true]
  · intro hopen
    unfold Hub.unregister
    simp only [hrc, hslot, hopen, if_true]
    by_cases hlast : (rc.erase c.playerID).entries = []
    · have hlen : (rc.erase c.playerID).entries.length = 0 := by rw [hlast]; rfl
      simp only [hlen, hlast, if_true]
      refine ⟨_, rfl, rfl, rfl, ?_, ?_⟩
      · intro code hne
        exact AList.lookup_erase_ne hne
      · exact AList.lookup_erase _ _
    · have hlen : ¬ (rc.erase c.playerID).entries.length = 0 := by
        rw [List.length_eq_zero]
        exact hlast
      simp only [hlen, hlast, if_false]
      refine ⟨_, rfl, rfl, rfl, ?_, ?_⟩
      · intro code hne
        exact AList.lookup_insert_ne hne
      · exact AList.lookup_insert _

/-- A broadcast over clients with open channels, one of them full, ends blocked in the send on
`h.unregister`, with the registry as it was. -/
theorem broadcastLoop_blocks (data : Envelope) (clients : List Client) (h : Hub)
    (hopen : ∀ c ∈ clients, (h.send c.addr).closed = false)
    (hfull : ∃ c ∈ clients, (h.send c.addr).cap ≤ (h.send c.addr).buf.length) :
    ∃ h1 c1, broadcastLoop data clients h = .blocked h1 c1 ∧ c1 ∈ clients ∧
      (h1.send c1.addr).cap ≤ (h1.send c1.addr).buf.length ∧
      (h1.send c1.addr).closed = false ∧
      h1.clientsByRoom = h.clientsByRoom ∧ h1.roundGen = h.roundGen := by
  induction clients generalizing h with
  | nil =>
    obtain ⟨c, hc, _⟩ := hfull
    cases hc
  | cons c rest ih =>
    have hc : (h.send c.addr).closed = false := hopen c (List.mem_cons_self _ _)
    unfold broadcastLoop
    rw [if_neg (by rw [hc]; decide)]
    by_cases hspace : (h.send c.addr).buf.length < (h.send c.addr).cap
    · rw [if_pos hspace]
      have hopen1 : ∀ c1 ∈ rest, ((h.enqueue c data).send c1.addr).closed = false := by
        intro c1 hc1
        unfold Hub.enqueue
        by_cases ha : c1.addr = c.addr
        · rw [ha]
          simp only [Function.update_same]
          exact hc
        · simp only [Function.update_noteq ha]
          exact hopen c1 (List.mem_cons_of_mem _ hc1)
      have hfull1 : ∃ c1 ∈ rest, ((h.enqueue c data).send c1.addr).cap ≤
          ((h.enqueue c data).send c1.addr).buf.length := by
        obtain ⟨c0, hc0, hlen⟩ := hfull
        have ha : c0.addr ≠ c.addr := by
          intro ha
          rw [ha] at hlen
          omega
        rcases List.mem_cons.mp hc0 with heq | hmem
        · exact absurd (by rw [heq]) ha
        · refine ⟨c0, hmem, ?_⟩
          unfold Hub.enqueue
          simp only [Function.update_noteq ha]
          exact hlen
      obtain ⟨h1, c1, hb, hmem, hlen, hcl, hreg, hgen⟩ := ih (h.enqueue c data) hopen1 hfull1
      exact ⟨h1, c1, hb, List.mem_cons_of_mem _ hmem, hlen, hcl, hreg, hgen⟩
    · rw [if_neg hspace]
      exact ⟨h, c, rfl, List.mem_cons_self _ _, by omega, hc, rfl, rfl⟩

theorem StrMap.count_keys_of_lookup {β : Type} (m : StrMap β) (k : String) (v : β)
    (h : m.lookup k = some v) : m.keys.count k = 1 := by
  apply List.count_eq_one_of_mem m.keys_nodup
  rw [← AList.mem_keys, ← AList.lookup_isSome, h]
  rfl

/-! ## Lemmas on players and the host -/

/-- The room `AddPlayer` leaves and the flag it returns, for a room with a player map. -/
theorem AddPlayer_eq (r : Room) (p : Player) (players : StrMap Player)
    (hP : r.Players = some players) :
    AddPlayer r p =
      some ({ r with
          Players := some (players.insert p.ID p)
          Scores := (match r.Scores with
            | none => none
            | some scores =>
              if (scores.lookup p.ID).isSome then some scores else some (scores.insert p.ID 0))
          HostID := if r.HostID = "" then p.ID else r.HostID },
        decide (r.HostID = "")) := by
  unfold AddPlayer
  rw [hP]
  cases hS : r.Scores with
  | none =>
    by_cases hh : r.HostID = ""
    · simp [hS, hh]
    · simp [hS, hh]
  | some scores =>
    by_cases hl : (scores.lookup p.ID).isSome = true
    · by_cases hh : r.HostID = ""
      · simp [hS, hh, hl]
      · simp [hS, hh, hl]
    · by_cases hh : r.HostID = ""
      · simp [hS, hh, hl]
      · simp [hS, hh, hl]

theorem GoMap.len_eq_zero_iff {β : Type} (m : GoMap β) : m.len = 0 ↔ m.range = [] := by
  cases m with
  | none => simp [GoMap.len, GoMap.range]
  | some a => simp [GoMap.len, GoMap.range, List.length_eq_zero]

theorem GoMap.get?_erase {β : Type} (m : GoMap β) (id k : String) :
    GoMap.get? (m.map (fun a => a.erase id)) k = if k = id then none else m.get? k := by
  cases m with
  | none => simp [GoMap.get?]
  | some a =>
    by_cases hk : k = id
    · subst hk
      simp [GoMap.get?, AList.lookup_erase]
    · simp [GoMap.get?, hk, AList.lookup_erase_ne hk]

theorem StrMap.erase_entries {β : Type} (m : StrMap β) (id : String) :
    (m.erase id).entries = List.kerase id m.entries := rfl

/-- What `RemovePlayer` does, for every room. -/
theorem RemovePlayer_spec (r : Room) (id : String) :
    (RemovePlayer r id).Players.get? id = none ∧
    (∀ k, k ≠ id → (RemovePlayer r id).Players.get? k = r.Players.get? k) ∧
    (r.HostID = id →
      ((RemovePlayer r id).Players.len = 0 → (RemovePlayer r id).HostID = "") ∧
      ((RemovePlayer r id).Players.len ≠ 0 →
        (RemovePlayer r id).HostID ∈ (RemovePlayer r id).Players.range.keys)) ∧
    (r.HostID ≠ id → (RemovePlayer r id).HostID = r.HostID) ∧
    (RemovePlayer r id).Players = r.Players.map (fun a => a.erase id) := by
  have hP : (RemovePlayer r id).Players = r.Players.map (fun a => a.erase id) := by
    unfold RemovePlayer
    simp only
    split_ifs
    · split <;> rfl
    · rfl
  refine ⟨?_, ?_, ?_, ?_, hP⟩
  · rw [hP, GoMap.get?_erase, if_pos rfl]
  · intro k hk
    rw [hP, GoMap.get?_erase, if_neg hk]
  · intro hh
    rw [hP]
    cases hrange : GoMap.range (r.Players.map (fun a => a.erase id)) with
    | nil =>
      have hH : (RemovePlayer r id).HostID = "" := by
        unfold RemovePlayer
        simp only [hh, if_true, hrange]
      exact ⟨fun _ => hH, fun hlen => absurd ((GoMap.len_eq_zero_iff _).mpr hrange) hlen⟩
    | cons e rest =>
      have hH : (RemovePlayer r id).HostID = e.1 := by
        unfold RemovePlayer
        simp only [hh, if_true, hrange]
      refine ⟨fun hlen => ?_, fun _ => ?_⟩
      · rw [GoMap.len_eq_zero_iff, hrange] at hlen
        cases hlen
      · rw [hH]
        simp [List.keys]
  · intro hh
    unfold RemovePlayer
    simp only [hh, if_false]

theorem hostInvariant_AddPlayer (r r' : Room) (pl : Player) (isHost : Bool)
    (hid : pl.ID ≠ "") (hr : hostInvariant r) (h : AddPlayer r pl = some (r', isHost)) :
    hostInvariant r' := by
  obtain ⟨hne, hkeys, hempty, hhost⟩ := hr
  cases hP : r.Players with
  | none => exact absurd hP hne
  | some players =>
    rw [AddPlayer_eq r pl players hP] at h
    simp only [Option.some.injEq, Prod.mk.injEq] at h
    obtain ⟨h1, _⟩ := h
    subst h1
    rw [hP] at hkeys hempty hhost
    refine ⟨by simp, ?_, ?_, ?_⟩
    · intro e he
      simp only [GoMap.range, AList.insert_entries, List.mem_cons] at he
      rcases he with he | he
      · rw [he]
        exact hid
      · exact hkeys e ((List.kerase_sublist _ _).subset he)
    · simp only [GoMap.len, AList.insert_entries, List.length_cons]
      by_cases hh : r.HostID = ""
      · rw [if_pos hh]
        exact ⟨fun h => absurd h hid, fun h => by omega⟩
      · rw [if_neg hh]
        exact ⟨fun h => absurd h hh, fun h => by omega⟩
    · intro _
      show (GoMap.get? (some (players.insert pl.ID pl))
        (if r.HostID = "" then pl.ID else r.HostID)).isSome = true
      simp only [GoMap.get?]
      by_cases hh : r.HostID = ""
      · rw [if_pos hh, AList.lookup_insert]
        rfl
      · rw [if_neg hh]
        by_cases heq : r.HostID = pl.ID
        · rw [heq, AList.lookup_insert]
          rfl
        · rw [AList.lookup_insert_ne heq]
          exact hhost hh

theorem hostInvariant_RemovePlayer (r : Room) (id : String) (hr : hostInvariant r) :
    hostInvariant (RemovePlayer r id) := by
  obtain ⟨hne, hkeys, hempty, hhost⟩ := hr
  obtain ⟨hgone, hother, hwas, hnot, hP⟩ := RemovePlayer_spec r id
  have hkeys1 : ∀ e ∈ (RemovePlayer r id).Players.range, e.1 ≠ "" := by
    intro e he
    rw [hP] at he
    cases hPl : r.Players with
    | none => rw [hPl] at he; simp [GoMap.range] at he
    | some players =>
      rw [hPl] at he hkeys
      simp only [Option.map_some', GoMap.range, StrMap.erase_entries] at he
      exact hkeys e ((List.kerase_sublist _ _).subset he)
  have hmem : ∀ k, k ∈ (RemovePlayer r id).Players.range.keys → k ≠ "" := by
    intro k hk
    obtain ⟨v, hv⟩ := List.exists_of_mem_keys hk
    exact hkeys1 ⟨k, v⟩ hv
  refine ⟨?_, hkeys1, ?_, ?_⟩
  · rw [hP]
    cases hPl : r.Players with
    | none => exact absurd hPl hne
    | some players => simp
  · by_cases hh : r.HostID = id
    · obtain ⟨h0, h1⟩ := hwas hh
      constructor
      · intro hhost0
        by_contra hlen
        exact hmem _ (h1 hlen) hhost0
      · exact h0
    · rw [hnot hh]
      constructor
      · intro h0
        have hlen := hempty.mp h0
        rw [GoMap.len_eq_zero_iff] at hlen ⊢
        rw [hP]
        cases hPl : r.Players with
        | none => rfl
        | some players =>
          rw [hPl] at hlen
          simp only [GoMap.range] at hlen
          simp only [Option.map_some', GoMap.range, StrMap.erase_entries, hlen]
          rfl
      · intro hlen
        by_contra h0
        have hsome := hhost h0
        have : ((RemovePlayer r id).Players.get? r.HostID).isSome := by
          rw [hother _ hh]
          exact hsome
        rw [GoMap.get?_isSome_iff_mem_range] at this
        rw [GoMap.len_eq_zero_iff] at hlen
        rw [hlen] at this
        simp [List.keys] at this
  · intro h0
    by_cases hh : r.HostID = id
    · obtain ⟨hz, h1⟩ := hwas hh
      rw [GoMap.get?_isSome_iff_mem_range]
      apply h1
      intro hlen
      exact h0 (hz hlen)
    · rw [hnot hh] at h0 ⊢
      rw [hother _ hh]
      exact hhost h0

theorem hostInvariant_step (r r' : Room) (op : RoomOp) (hid : op.nonEmptyID)
    (hr : hostInvariant r) (hop : op.run r = some r') : hostInvariant r' := by
  cases op with
  | addPlayer p =>
    simp only [RoomOp.run, Option.map_eq_some'] at hop
    obtain ⟨out, hout, hr'⟩ := hop
    subst hr'
    exact hostInvariant_AddPlayer r out.1 p out.2 hid hr hout
  | removePlayer playerID =>
    simp only [RoomOp.run, Option.some.injEq] at hop
    subst hop
    exact hostInvariant_RemovePlayer r playerID hr
  | startGame requesterID q answeringSeconds now =>
    simp only [RoomOp.run, Option.some.injEq] at hop
    subst hop
    obtain ⟨_, hP, hH⟩ := StartGame_frame r requesterID q answeringSeconds now
    unfold hostInvariant
    rw [hP, hH]
    exact hr
  | submitAnswer playerID optionID now =>
    simp only [RoomOp.run, Option.some.injEq] at hop
    subst hop
    obtain ⟨_, hP, hH, _⟩ := SubmitAnswer_frame r playerID optionID now
    unfold hostInvariant
    rw [hP, hH]
    exact hr
  | finishRound now =>
    simp only [RoomOp.run, Option.some.injEq] at hop
    subst hop
    obtain ⟨_, hP, hH⟩ := FinishRound_frame r now
    unfold hostInvariant
    rw [hP, hH]
    exact hr

theorem hostInvariant_runOps (ops : List RoomOp) (r r' : Room)
    (hids : ∀ op ∈ ops, op.nonEmptyID) (hr : hostInvariant r)
    (hops : runOps r ops = some r') : hostInvariant r' := by
  induction ops generalizing r with
  | nil =>
    simp only [runOps, Option.some.injEq] at hops
    rw [← hops]
    exact hr
  | cons op rest ih =>
    simp only [runOps] at hops
    cases hop : op.run r with
    | none => simp [hop] at hops
    | some r1 =>
      rw [hop] at hops
      exact ih r1 (fun o ho => hids o (List.mem_cons_of_mem _ ho))
        (hostInvariant_step r r1 op (hids op (List.mem_cons_self _ _)) hr hop) hops

theorem hostInvariant_CreateRoom (lib : StdLib) (rm : RoomManager) (b : Fin 8 → Byte) :
    hostInvariant (CreateRoom lib rm b).2 := by
  refine ⟨by simp [CreateRoom], ?_, ?_, ?_⟩
  · intro e he
    simp [CreateRoom, GoMap.range] at he
  · simp [CreateRoom, GoMap.len]
  · intro h
    simp [CreateRoom] at h

/-! ## Lemmas on the phases, the scores and the answers of reachable rooms -/

/-- `StartGame` either fails and returns the room as it was, or it found a valid question in
phase lobby or results and leaves the room of the new round. -/
theorem StartGame_result (r : Room) (requesterID : String) (q : Question)
    (answeringSeconds : Int) (now : Time) :
    (∃ e, StartGame r requesterID q answeringSeconds now = (r, some e)) ∨
    ((r.Phase = PhaseLobby ∨ r.Phase = PhaseResults) ∧ q.Options.length = 4 ∧
      hasOption q.Options q.CorrectID = true ∧
      StartGame r requesterID q answeringSeconds now =
        ({ r with
            RoundNumber := r.RoundNumber + 1
            CurrentQuestion := q
            Answers := some ∅
            Scores := some (ensureScores r.Players.range (r.Scores.getD ∅))
            Phase := PhaseAnswering
            AnsweringDeadline := now.Add (answeringSeconds * Second) }, none)) := by
  by_cases h1 : r.HostID = "" ∨ r.HostID ≠ requesterID
  · exact Or.inl ⟨.ErrNotHost, by rw [StartGame, if_pos h1]⟩
  by_cases h2 : r.Phase ≠ PhaseLobby ∧ r.Phase ≠ PhaseResults
  · exact Or.inl ⟨.ErrBadPhase, by rw [StartGame, if_neg h1, if_pos h2]⟩
  by_cases h3 : r.Players.len < 1
  · exact Or.inl ⟨.ErrNoPlayers, by rw [StartGame, if_neg h1, if_neg h2, if_pos h3]⟩
  by_cases h4 : TrimSpace q.Text = "" ∨ q.Options.length ≠ 4 ∨ TrimSpace q.CorrectID = ""
  · exact Or.inl ⟨.ErrInvalidQuestion,
      by rw [StartGame, if_neg h1, if_neg h2, if_neg h3, if_pos h4]⟩
  by_cases h5 : ¬ hasOption q.Options q.CorrectID = true
  · exact Or.inl ⟨.ErrInvalidQuestion,
      by rw [StartGame, if_neg h1, if_neg h2, if_neg h3, if_neg h4, if_pos h5]⟩
  · refine Or.inr ⟨?_, ?_, ?_, ?_⟩
    · by_contra hc
      exact h2 ⟨fun h => hc (Or.inl h), fun h => hc (Or.inr h)⟩
    · by_contra hc
      exact h4 (Or.inr (Or.inl hc))
    · by_contra hc
      exact h5 hc
    · rw [StartGame, if_neg h1, if_neg h2, if_neg h3, if_neg h4, if_neg h5]
      cases r.Scores <;> rfl

/-- `SubmitAnswer` either fails and returns the room as it was, or records the trimmed option
id, which is the id of an option of the current question, for a player without an answer. -/
theorem SubmitAnswer_result (r : Room) (p s : String) (now : Time) :
    (∃ e, SubmitAnswer r p s now = (r, some e)) ∨
    (r.Phase = PhaseAnswering ∧ r.Answers.get? p = none ∧
      hasOption r.CurrentQuestion.Options (TrimSpace s) = true ∧
      SubmitAnswer r p s now =
        ({ r with Answers := some ((r.Answers.getD ∅).insert p (TrimSpace s)) }, none)) := by
  rcases SubmitAnswer_cases r p s now with ⟨e, he, _⟩ | ⟨hphase, hnone, hres⟩
  · exact Or.inl ⟨e, he⟩
  · by_cases hopt : hasOption r.CurrentQuestion.Options (TrimSpace s) = true
    · exact Or.inr ⟨hphase, hnone, hopt, hres⟩
    · exfalso
      have hphase' : ¬ r.Phase ≠ PhaseAnswering := fun h => h hphase
      have herr : (SubmitAnswer r p s now).2 ≠ none := by
        have hfalse : hasOption r.CurrentQuestion.Options (TrimSpace s) = false := by
          simpa using hopt
        unfold SubmitAnswer
        rw [if_neg hphase']
        by_cases hd : (!r.AnsweringDeadline.IsZero && now.After r.AnsweringDeadline) = true
        · rw [if_pos hd]
          simp
        · rw [if_neg hd]
          by_cases he : TrimSpace s = ""
          · simp [he]
          · simp [he, hfalse]
      rw [hres] at herr
      exact herr rfl

/-- One call changes the phase and the round number in one of two ways only. -/
theorem phase_step (r r' : Room) (op : RoomOp) (hop : op.run r = some r') :
    (r'.Phase = r.Phase ∧ r'.RoundNumber = r.RoundNumber) ∨
    (∃ requesterID q answeringSeconds now, op = .startGame requesterID q answeringSeconds now ∧
      (StartGame r requesterID q answeringSeconds now).2 = none ∧
      (r.Phase = PhaseLobby ∨ r.Phase = PhaseResults) ∧
      r'.Phase = PhaseAnswering ∧ r'.RoundNumber = r.RoundNumber + 1) ∨
    (∃ now, op = .finishRound now ∧ (FinishRoundIfDeadlinePassed r now).2.2 = true ∧
      r.Phase = PhaseAnswering ∧ r'.Phase = PhaseResults ∧
      r'.RoundNumber = r.RoundNumber) := by
  cases op with
  | addPlayer p =>
    simp only [RoomOp.run, Option.map_eq_some'] at hop
    obtain ⟨out, hout, hr'⟩ := hop
    subst hr'
    obtain ⟨_, h1, h2, _⟩ := AddPlayer_frame r out.1 p out.2 hout
    exact Or.inl ⟨h1, h2⟩
  | removePlayer playerID =>
    simp only [RoomOp.run, Option.some.injEq] at hop
    subst hop
    obtain ⟨_, h1, h2, _⟩ := RemovePlayer_frame r playerID
    exact Or.inl ⟨h1, h2⟩
  | startGame requesterID q answeringSeconds now =>
    simp only [RoomOp.run, Option.some.injEq] at hop
    subst hop
    rcases StartGame_result r requesterID q answeringSeconds now with ⟨e, he⟩ | ⟨hph, _, _, hres⟩
    · rw [he]
      exact Or.inl ⟨rfl, rfl⟩
    · refine Or.inr (Or.inl ⟨requesterID, q, answeringSeconds, now, rfl, ?_, hph, ?_, ?_⟩)
      · rw [hres]
      · rw [hres]
      · rw [hres]
  | submitAnswer playerID optionID now =>
    simp only [RoomOp.run, Option.some.injEq] at hop
    subst hop
    rcases SubmitAnswer_result r playerID optionID now with ⟨e, he⟩ | ⟨_, _, _, hres⟩
    · rw [he]
      exact Or.inl ⟨rfl, rfl⟩
    · rw [hres]
      exact Or.inl ⟨rfl, rfl⟩
  | finishRound now =>
    simp only [RoomOp.run, Option.some.injEq] at hop
    subst hop
    rcases FinishRound_cases r now with he | ⟨hph, _, hres⟩
    · rw [he]
      exact Or.inl ⟨rfl, rfl⟩
    · refine Or.inr (Or.inr ⟨now, rfl, ?_, hph, ?_, ?_⟩)
      · rw [hres]
      · rw [hres]
      · rw [hres]

theorem phase_runOps (ops : List RoomOp) (r r' : Room) (hops : runOps r ops = some r') :
    r.RoundNumber ≤ r'.RoundNumber ∧ (r.Phase ≠ PhaseLobby → r'.Phase ≠ PhaseLobby) ∧
    ((r.Phase = PhaseLobby ∨ r.Phase = PhaseAnswering ∨ r.Phase = PhaseResults) →
      (r'.Phase = PhaseLobby ∨ r'.Phase = PhaseAnswering ∨ r'.Phase = PhaseResults)) ∧
    r'.RoundNumber = r.RoundNumber + (successfulStarts r ops : Int) := by
  induction ops generalizing r with
  | nil =>
    simp only [runOps, Option.some.injEq] at hops
    subst hops
    exact ⟨le_refl _, fun h => h, fun h => h, by simp [successfulStarts]⟩
  | cons op rest ih =>
    simp only [runOps] at hops
    cases hop : op.run r with
    | none => simp [hop] at hops
    | some r1 =>
      rw [hop] at hops
      obtain ⟨h1, h2, h3, h4⟩ := ih r1 hops
      have hcount : (successfulStarts r (op :: rest) : Int) =
          (r1.RoundNumber - r.RoundNumber) + (successfulStarts r1 rest : Int) := by
        simp only [successfulStarts, hop]
        push_cast
        congr 1
        rcases phase_step r r1 op hop with ⟨_, hr⟩ | ⟨req, q, s, now, hop', hok, _, _, hr⟩ |
          ⟨now, hop', _, _, _, hr⟩
        · rw [hr, sub_self]
          cases op with
          | startGame requesterID q answeringSeconds now =>
            simp only [RoomOp.run, Option.some.injEq] at hop
            have hne : (StartGame r requesterID q answeringSeconds now).2 ≠ none := by
              intro hnone
              rcases StartGame_cases r requesterID q answeringSeconds now with
                ⟨e, he, _⟩ | ⟨_, _, hrn, _⟩
              · rw [he] at hnone
                cases hnone
              · rw [hop] at hrn
                omega
            simp [hne]
          | addPlayer p => rfl
          | removePlayer playerID => rfl
          | submitAnswer playerID optionID now => rfl
          | finishRound now => rfl
        · subst hop'
          simp [hok, hr]
        · subst hop'
          simp [hr]
      have hstep := phase_step r r1 op hop
      have hle : r.RoundNumber ≤ r1.RoundNumber := by
        rcases hstep with ⟨_, hr⟩ | ⟨_, _, _, _, _, _, _, _, hr⟩ | ⟨_, _, _, _, _, hr⟩ <;> omega
      refine ⟨le_trans hle h1, ?_, ?_, ?_⟩
      · intro hl
        apply h2
        rcases hstep with ⟨hp, _⟩ | ⟨_, _, _, _, _, _, _, hp, _⟩ | ⟨_, _, _, _, hp, _⟩
        · rw [hp]
          exact hl
        · rw [hp]
          decide
        · rw [hp]
          decide
      · intro hv
        apply h3
        rcases hstep with ⟨hp, _⟩ | ⟨_, _, _, _, _, _, _, hp, _⟩ | ⟨_, _, _, _, hp, _⟩
        · rw [hp]
          exact hv
        · exact Or.inr (Or.inl hp)
        · exact Or.inr (Or.inr hp)
      · rw [h4, hcount]
        ring

/-- How one call changes the score entry of a player id: not at all, or from absent to 0, or
(only `FinishRoundIfDeadlinePassed`) from the score read to the score read plus 1. -/
theorem scores_step (r r' : Room) (op : RoomOp) (hop : op.run r = some r') (id : String) :
    (r'.Scores.get? id = r.Scores.get? id ∨
      (r.Scores.get? id = none ∧ r'.Scores.get? id = some 0) ∨
      ((∃ now, op = .finishRound now) ∧ r'.Scores.get? id = some (r.score id + 1))) ∧
    (r.Scores ≠ none → r'.Scores ≠ none) ∧
    (∀ p, op = .addPlayer p → r.Scores ≠ none → (r'.Scores.get? p.ID).isSome) := by
  cases op with
  | addPlayer p =>
    cases hP : r.Players with
    | none => simp [RoomOp.run, AddPlayer, hP] at hop
    | some players =>
      simp only [RoomOp.run, AddPlayer_eq r p players hP, Option.map_some',
        Option.some.injEq] at hop
      subst hop
      cases hS : r.Scores with
      | none => exact ⟨Or.inl (by simp [hS]), fun h => absurd rfl h, fun _ _ h => absurd rfl h⟩
      | some scores =>
        by_cases hl : (scores.lookup p.ID).isSome = true
        · refine ⟨Or.inl (by simp [hS, hl]), by simp [hS, hl], ?_⟩
          intro p' hp' _
          cases hp'
          simp [hS, hl, GoMap.get?]
        · refine ⟨?_, by simp [hS, hl], ?_⟩
          · by_cases hid : id = p.ID
            · refine Or.inr (Or.inl ⟨?_, ?_⟩)
              · rw [hid]
                simpa [GoMap.get?] using hl
              · subst hid
                simp [hS, hl, GoMap.get?]
            · exact Or.inl (by simp [hS, hl, GoMap.get?, AList.lookup_insert_ne hid])
          · intro p' hp' _
            cases hp'
            simp [hS, hl, GoMap.get?]
  | removePlayer playerID =>
    simp only [RoomOp.run, Option.some.injEq] at hop
    subst hop
    have hS := (RemovePlayer_frame r playerID).2.2.2.2.2.2
    rw [hS]
    exact ⟨Or.inl rfl, fun h => h, fun _ h => by cases h⟩
  | startGame requesterID q answeringSeconds now =>
    simp only [RoomOp.run, Option.some.injEq] at hop
    subst hop
    rcases StartGame_result r requesterID q answeringSeconds now with ⟨e, he⟩ | ⟨_, _, _, hres⟩
    · rw [he]
      exact ⟨Or.inl rfl, fun h => h, fun _ h => by cases h⟩
    · rw [hres]
      refine ⟨?_, by simp, fun _ h => by cases h⟩
      have hlk : GoMap.get? (some (ensureScores r.Players.range (r.Scores.getD ∅))) id =
          if (r.Scores.get? id).isSome then r.Scores.get? id
          else if id ∈ r.Players.range.keys then some 0 else none := by
        show (ensureScores _ _).lookup id = _
        rw [ensureScores_lookup, GoMap.getD_lookup]
      dsimp only
      rw [hlk]
      cases hk : r.Scores.get? id with
      | some v => exact Or.inl (by simp)
      | none =>
        by_cases hmem : id ∈ r.Players.range.keys
        · exact Or.inr (Or.inl ⟨rfl, by simp [hmem]⟩)
        · exact Or.inl (by simp [hmem])
  | submitAnswer playerID optionID now =>
    simp only [RoomOp.run, Option.some.injEq] at hop
    subst hop
    have hS := (SubmitAnswer_frame r playerID optionID now).2.2.2
    rw [hS]
    exact ⟨Or.inl rfl, fun h => h, fun _ h => by cases h⟩
  | finishRound now =>
    simp only [RoomOp.run, Option.some.injEq] at hop
    subst hop
    rcases FinishRound_cases r now with he | ⟨_, _, hres⟩
    · rw [he]
      exact ⟨Or.inl rfl, fun h => h, fun _ h => by cases h⟩
    · rw [hres]
      refine ⟨?_, by simp, fun _ h => by cases h⟩
      have hlk : GoMap.get? (some (finishLoop (r.Answers.getD ∅) r.CurrentQuestion.CorrectID
            r.Players.range (r.Scores.getD ∅) []).1) id =
          if id ∈ r.Players.range.keys ∧
              answeredCorrectly (r.Answers.getD ∅) r.CurrentQuestion.CorrectID id = true then
            some ((r.Scores.get? id).getD 0 + 1)
          else r.Scores.get? id := by
        show (finishLoop _ _ _ _ _).1.lookup id = _
        rw [finishLoop_scores_lookup _ _ _ (GoMap.range_nodupKeys _), GoMap.getD_lookup]
      dsimp only
      rw [hlk]
      split_ifs
      · exact Or.inr (Or.inr ⟨⟨now, rfl⟩, rfl⟩)
      · exact Or.inl rfl

/-- One call never lowers or deletes a score, raises it by at most 1, and raises it only if
it is `FinishRoundIfDeadlinePassed`. -/
theorem score_step (r r' : Room) (op : RoomOp) (hop : op.run r = some r') (id : String) :
    ((r.Scores.get? id).isSome → (r'.Scores.get? id).isSome) ∧
    r.score id ≤ r'.score id ∧ r'.score id ≤ r.score id + 1 ∧
    ((∀ now, op ≠ .finishRound now) → r'.score id = r.score id) := by
  rcases (scores_step r r' op hop id).1 with h | ⟨h0, h1⟩ | ⟨⟨now, hnow⟩, h1⟩
  · unfold Room.score
    rw [h]
    exact ⟨fun h => h, le_refl _, by omega, fun _ => rfl⟩
  · unfold Room.score
    rw [h0, h1]
    refine ⟨fun _ => rfl, ?_, ?_, fun _ => ?_⟩ <;> simp
  · have hs : r'.score id = r.score id + 1 := by
      unfold Room.score
      rw [h1]
      rfl
    rw [hs, h1]
    exact ⟨fun _ => rfl, by omega, le_refl _, fun hno => absurd hnow (hno now)⟩

theorem score_runOps (ops : List RoomOp) (r r' : Room) (hops : runOps r ops = some r')
    (id : String) :
    ((r.Scores.get? id).isSome → (r'.Scores.get? id).isSome) ∧ r.score id ≤ r'.score id ∧
    (r.Scores ≠ none → r'.Scores ≠ none) := by
  induction ops generalizing r with
  | nil =>
    simp only [runOps, Option.some.injEq] at hops
    subst hops
    exact ⟨fun h => h, le_refl _, fun h => h⟩
  | cons op rest ih =>
    simp only [runOps] at hops
    cases hop : op.run r with
    | none => simp [hop] at hops
    | some r1 =>
      rw [hop] at hops
      obtain ⟨h1, h2, h3⟩ := ih r1 hops
      obtain ⟨g1, g2, _, _⟩ := score_step r r1 op hop id
      exact ⟨fun h => h1 (g1 h), le_trans g2 h2, fun h => h3 ((scores_step r r1 op hop id).2.1 h)⟩

/-- A player id passed to `AddPlayer` somewhere in a sequence of calls has a score entry at
the end of the sequence, when the score map is not nil at the start. -/
theorem score_entry_runOps (ops : List RoomOp) (r r' : Room) (hS : r.Scores ≠ none)
    (hops : runOps r ops = some r') (p : Player) (hp : RoomOp.addPlayer p ∈ ops) :
    (r'.Scores.get? p.ID).isSome := by
  induction ops generalizing r with
  | nil => cases hp
  | cons op rest ih =>
    simp only [runOps] at hops
    cases hop : op.run r with
    | none => simp [hop] at hops
    | some r1 =>
      rw [hop] at hops
      have hS1 := (scores_step r r1 op hop p.ID).2.1 hS
      rcases List.mem_cons.mp hp with heq | hmem
      · exact (score_runOps rest r1 r' hops p.ID).1
          ((scores_step r r1 op hop p.ID).2.2 p heq.symm hS)
      · exact ih r1 hS1 hops hmem

theorem answersValid_step (r r' : Room) (op : RoomOp) (hr : answersValid r)
    (hop : op.run r = some r') : answersValid r' := by
  obtain ⟨hans, hq⟩ := hr
  cases op with
  | addPlayer p =>
    simp only [RoomOp.run, Option.map_eq_some'] at hop
    obtain ⟨out, hout, hr'⟩ := hop
    subst hr'
    obtain ⟨_, h1, _, h2, _, h3⟩ := AddPlayer_frame r out.1 p out.2 hout
    unfold answersValid
    rw [h1, h2, h3]
    exact ⟨hans, hq⟩
  | removePlayer playerID =>
    simp only [RoomOp.run, Option.some.injEq] at hop
    subst hop
    obtain ⟨_, h1, _, h2, _, h3, _⟩ := RemovePlayer_frame r playerID
    unfold answersValid
    rw [h1, h2, h3]
    exact ⟨hans, hq⟩
  | startGame requesterID q answeringSeconds now =>
    simp only [RoomOp.run, Option.some.injEq] at hop
    subst hop
    rcases StartGame_result r requesterID q answeringSeconds now with ⟨e, he⟩ | ⟨_, h4, hopt, hres⟩
    · rw [he]
      exact ⟨hans, hq⟩
    · rw [hres]
      refine ⟨?_, fun _ => ⟨h4, hopt⟩⟩
      intro id x hx
      simp [GoMap.get?] at hx
  | submitAnswer playerID optionID now =>
    simp only [RoomOp.run, Option.some.injEq] at hop
    subst hop
    rcases SubmitAnswer_result r playerID optionID now with ⟨e, he⟩ | ⟨_, _, hopt, hres⟩
    · rw [he]
      exact ⟨hans, hq⟩
    · rw [hres]
      refine ⟨?_, hq⟩
      intro id x hx
      rw [GoMap.get?_insert] at hx
      by_cases hid : id = playerID
      · rw [if_pos hid] at hx
        cases hx
        exact hopt
      · rw [if_neg hid, GoMap.getD_lookup] at hx
        exact hans id x hx
  | finishRound now =>
    simp only [RoomOp.run, Option.some.injEq] at hop
    subst hop
    rcases FinishRound_cases r now with he | ⟨hph, _, hres⟩
    · rw [he]
      exact ⟨hans, hq⟩
    · rw [hres]
      refine ⟨?_, fun _ => hq (Or.inl hph)⟩
      intro id x hx
      simp only [GoMap.get?, GoMap.getD_lookup] at hx
      exact hans id x hx

theorem answersValid_runOps (ops : List RoomOp) (r r' : Room) (hr : answersValid r)
    (hops : runOps r ops = some r') : answersValid r' := by
  induction ops generalizing r with
  | nil =>
    simp only [runOps, Option.some.injEq] at hops
    rw [← hops]
    exact hr
  | cons op rest ih =>
    simp only [runOps] at hops
    cases hop : op.run r with
    | none => simp [hop] at hops
    | some r1 =>
      rw [hop] at hops
      exact ih r1 (answersValid_step r r1 op hr hop) hops

theorem answersValid_CreateRoom (lib : StdLib) (rm : RoomManager) (b : Fin 8 → Byte) :
    answersValid (CreateRoom lib rm b).2 := by
  constructor
  · intro id x hx
    simp [CreateRoom, GoMap.get?] at hx
  · intro h
    have hphase : (CreateRoom lib rm b).2.Phase = PhaseLobby := rfl
    rw [hphase] at h
    rcases h with h | h <;> exact absurd h (by decide)

/-! ## Lemmas on the rounds of a game -/

theorem wholeSeconds_eq (n frac : Int) (hn : 0 ≤ n) (h0 : 0 ≤ frac) (h1 : frac < Second) :
    wholeSeconds (n * Second + frac) = n := by
  unfold wholeSeconds
  have hS : (0 : Int) < Second := by decide
  rw [Int.tdiv_eq_ediv (by positivity) (le_of_lt hS)]
  rw [Int.add_comm, Int.add_mul_ediv_right _ _ (ne_of_gt hS), Int.ediv_eq_zero_of_lt h0 h1,
    zero_add]

/-- The wake-up step of the deadline task when it holds a stale generation or
`FinishRoundIfDeadlinePassed` does not finish the round. -/
theorem scheduleAnsweringDeadlineWake_idle (lib : StdLib) (cfg : Config) (hub : Hub)
    (room : Room) (roomCode : String) (gen : Int) (now : Time)
    (h : hub.isCurrentGen lib roomCode gen = false ∨
      FinishRoundIfDeadlinePassed room now = (room, none, false)) :
    scheduleAnsweringDeadlineWake lib cfg hub room roomCode gen now = Outcome.none room hub := by
  unfold scheduleAnsweringDeadlineWake
  by_cases hgen : hub.isCurrentGen lib roomCode gen = false
  · rw [if_pos hgen]
  · rcases h with h | h
    · exact absurd h hgen
    · rw [if_neg hgen, h]

theorem dropWhile_eq_self_of_initial (p : Char → Bool) (s t : List Char)
    (hpre : t <+: s.dropWhile p) : t.dropWhile p = t := by
  cases t with
  | nil => rfl
  | cons c rest =>
    obtain ⟨u, hu⟩ := hpre
    have hne : s.dropWhile p ≠ [] := by
      rw [← hu]
      simp
    have hhead := List.head_dropWhile_not p s hne
    have hc : (s.dropWhile p).head hne = c := by
      simp only [← hu]
      rfl
    rw [hc] at hhead
    simp [List.dropWhile, hhead]

/-- Trimming a trimmed string changes nothing. -/
theorem TrimSpace_idem (s : String) : TrimSpace (TrimSpace s) = TrimSpace s := by
  unfold TrimSpace
  simp only
  congr 1
  have hpre : ((s.data.dropWhile isSpace).reverse.dropWhile isSpace).reverse <+:
      s.data.dropWhile isSpace := by
    rw [← List.reverse_suffix, List.reverse_reverse]
    exact List.dropWhile_suffix _
  rw [dropWhile_eq_self_of_initial isSpace s.data _ hpre, List.reverse_reverse,
    List.dropWhile_idempotent]

/-- The two outcomes of `CreateQuestion`. -/
theorem CreateQuestion_eq (input : CreateQuestionInput) :
    CreateQuestion input =
      if TrimSpace input.Text = "" ∨ TrimSpace input.CorrectID = "" ∨ input.Options.length ≠ 4
      then .error "invalid question payload"
      else .ok { input with
        Text := TrimSpace input.Text, CorrectID := TrimSpace input.CorrectID } := rfl

/-- The slots `unregister` leaves, when the player id of the connection has a slot and the
channel of the connection is open. -/
theorem Hub.unregister_slots (lib : StdLib) (h : Hub) (c c2 : Client)
    (hslot : h.slot (ToUpper lib c.roomCode) c.playerID = some c2)
    (hopen : (h.send c.addr).closed = false) :
    ∃ h1, h.unregister lib c = some h1 ∧
      h1.slot (ToUpper lib c.roomCode) c.playerID = none ∧
      (∀ roomKey playerID, (roomKey ≠ ToUpper lib c.roomCode ∨ playerID ≠ c.playerID) →
        h1.slot roomKey playerID = h.slot roomKey playerID) ∧
      h1.send = Function.update h.send c.addr { h.send c.addr with closed := true } := by
  unfold Hub.slot at hslot
  cases hrc : h.clientsByRoom.lookup (ToUpper lib c.roomCode) with
  | none =>
    rw [hrc] at hslot
    cases hslot
  | some rc =>
    rw [hrc, Option.some_bind] at hslot
    obtain ⟨h1, hun, hsend, _, hother, hroom⟩ :=
      (Hub.unregister_slot lib h c rc hrc (by rw [hslot]; rfl)).2 hopen
    refine ⟨h1, hun, ?_, ?_, hsend⟩
    · unfold Hub.slot
      rw [hroom]
      split_ifs
      · rfl
      · exact AList.lookup_erase _ _
    · intro roomKey playerID hne
      unfold Hub.slot
      by_cases hkey : roomKey = ToUpper lib c.roomCode
      · have hpid : playerID ≠ c.playerID := by
          rcases hne with hne | hne
          · exact absurd hkey hne
          · exact hne
        rw [hkey, hroom, hrc, Option.some_bind]
        split_ifs with hnil
        · have := (StrMap.entries_eq_nil_iff _).mp hnil playerID
          rw [AList.lookup_erase_ne hpid] at this
          rw [this]
          rfl
        · exact AList.lookup_erase_ne hpid
      · rw [hother roomKey hkey]

/-! ## Lemmas on the recorded answers of reachable rooms -/

/-- A `StartGame` that returns nil was given a question that passes both validity guards. -/
theorem StartGame_nil_question (r : Room) (requesterID : String) (q : Question)
    (answeringSeconds : Int) (now : Time)
    (hnil : (StartGame r requesterID q answeringSeconds now).2 = none) :
    TrimSpace q.Text ≠ "" ∧ q.Options.length = 4 ∧ TrimSpace q.CorrectID ≠ "" ∧
    hasOption q.Options q.CorrectID = true := by
  by_cases h1 : r.HostID = "" ∨ r.HostID ≠ requesterID
  · rw [StartGame, if_pos h1] at hnil
    cases hnil
  by_cases h2 : r.Phase ≠ PhaseLobby ∧ r.Phase ≠ PhaseResults
  · rw [StartGame, if_neg h1, if_pos h2] at hnil
    cases hnil
  by_cases h3 : r.Players.len < 1
  · rw [StartGame, if_neg h1, if_neg h2, if_pos h3] at hnil
    cases hnil
  by_cases h4 : TrimSpace q.Text = "" ∨ q.Options.length ≠ 4 ∨ TrimSpace q.CorrectID = ""
  · rw [StartGame, if_neg h1, if_neg h2, if_neg h3, if_pos h4] at hnil
    cases hnil
  by_cases h5 : ¬ hasOption q.Options q.CorrectID = true
  · rw [StartGame, if_neg h1, if_neg h2, if_neg h3, if_neg h4, if_pos h5] at hnil
    cases hnil
  · refine ⟨fun h => h4 (Or.inl h), ?_, fun h => h4 (Or.inr (Or.inr h)), ?_⟩
    · by_contra h
      exact h4 (Or.inr (Or.inl h))
    · by_contra h
      exact h5 h

/-- `SubmitAnswer` with an option id that is blank returns an error. -/
theorem SubmitAnswer_blank (r : Room) (p s : String) (now : Time) (hblank : TrimSpace s = "") :
    (SubmitAnswer r p s now).2 ≠ none := by
  unfold SubmitAnswer
  by_cases h1 : r.Phase ≠ PhaseAnswering
  · rw [if_pos h1]
    simp
  · rw [if_neg h1]
    by_cases hd : (!r.AnsweringDeadline.IsZero && now.After r.AnsweringDeadline) = true
    · rw [if_pos hd]
      simp
    · rw [if_neg hd]
      simp [hblank]

theorem answersNonEmpty_step (r r' : Room) (op : RoomOp) (hr : answersNonEmpty r)
    (hop : op.run r = some r') : answersNonEmpty r' := by
  obtain ⟨hans, hq⟩ := hr
  cases op with
  | addPlayer p =>
    simp only [RoomOp.run, Option.map_eq_some'] at hop
    obtain ⟨out, hout, hr'⟩ := hop
    subst hr'
    obtain ⟨_, h1, _, h2, _, h3⟩ := AddPlayer_frame r out.1 p out.2 hout
    unfold answersNonEmpty
    rw [h1, h2, h3]
    exact ⟨hans, hq⟩
  | removePlayer playerID =>
    simp only [RoomOp.run, Option.some.injEq] at hop
    subst hop
    obtain ⟨_, h1, _, h2, _, h3, _⟩ := RemovePlayer_frame r playerID
    unfold answersNonEmpty
    rw [h1, h2, h3]
    exact ⟨hans, hq⟩
  | startGame requesterID q answeringSeconds now =>
    simp only [RoomOp.run, Option.some.injEq] at hop
    subst hop
    rcases StartGame_result r requesterID q answeringSeconds now with ⟨e, he⟩ | ⟨_, _, _, hres⟩
    · rw [he]
      exact ⟨hans, hq⟩
    · have hvalid := StartGame_nil_question r requesterID q answeringSeconds now (by rw [hres])
      rw [hres]
      refine ⟨?_, fun _ => ?_⟩
      · intro id x hx
        simp [GoMap.get?] at hx
      · intro hempty
        apply hvalid.2.2.1
        show TrimSpace q.CorrectID = ""
        rw [show q.CorrectID = "" from hempty]
        rfl
  | submitAnswer playerID optionID now =>
    simp only [RoomOp.run, Option.some.injEq] at hop
    subst hop
    rcases SubmitAnswer_result r playerID optionID now with ⟨e, he⟩ | ⟨_, _, _, hres⟩
    · rw [he]
      exact ⟨hans, hq⟩
    · have hne : TrimSpace optionID ≠ "" := by
        intro hblank
        exact SubmitAnswer_blank r playerID optionID now hblank (by rw [hres])
      rw [hres]
      refine ⟨?_, hq⟩
      intro id x hx
      rw [GoMap.get?_insert] at hx
      by_cases hid : id = playerID
      · rw [if_pos hid] at hx
        cases hx
        exact hne
      · rw [if_neg hid, GoMap.getD_lookup] at hx
        exact hans id x hx
  | finishRound now =>
    simp only [RoomOp.run, Option.some.injEq] at hop
    subst hop
    rcases FinishRound_cases r now with he | ⟨_, _, hres⟩
    · rw [he]
      exact ⟨hans, hq⟩
    · rw [hres]
      refine ⟨?_, fun h => ?_⟩
      swap
      · have hne : PhaseResults ≠ PhaseAnswering := by decide
        exact absurd h hne
      intro id x hx
      simp only [GoMap.get?, GoMap.getD_lookup] at hx
      exact hans id x hx

theorem answersNonEmpty_runOps (ops : List RoomOp) (r r' : Room) (hr : answersNonEmpty r)
    (hops : runOps r ops = some r') : answersNonEmpty r' := by
  induction ops generalizing r with
  | nil =>
    simp only [runOps, Option.some.injEq] at hops
    rw [← hops]
    exact hr
  | cons op rest ih =>
    simp only [runOps] at hops
    cases hop : op.run r with
    | none => simp [hop] at hops
    | some r1 =>
      rw [hop] at hops
      exact ih r1 (answersNonEmpty_step r r1 op hr hop) hops

theorem answersNonEmpty_CreateRoom (lib : StdLib) (rm : RoomManager) (b : Fin 8 → Byte) :
    answersNonEmpty (CreateRoom lib rm b).2 := by
  constructor
  · intro id x hx
    simp [CreateRoom, GoMap.get?] at hx
  · intro h
    have hphase : (CreateRoom lib rm b).2.Phase = PhaseLobby := rfl
    rw [hphase] at h
    exact absurd h (by decide)

/-- With no empty answer recorded and a non-empty correct id, the scoring test
`selected != "" && selected == correctID` for a player says that the answer recorded for the
player is the correct id. -/
theorem answeredCorrectly_of_nonEmpty (r : Room) (hne : answersNonEmpty r)
    (hphase : r.Phase = PhaseAnswering) (p : String) :
    ((∃ a, r.Answers.get? p = some a ∧ a ≠ "" ∧ a = r.CurrentQuestion.CorrectID) ↔
      r.Answers.get? p = some r.CurrentQuestion.CorrectID) ∧
    (r.Answers.get? p = some r.CurrentQuestion.CorrectID ↔
      r.answer p = r.CurrentQuestion.CorrectID) := by
  obtain ⟨hans, hq⟩ := hne
  constructor
  · constructor
    · rintro ⟨a, ha, _, heq⟩
      rw [ha, heq]
    · intro h
      exact ⟨_, h, hans p _ h, rfl⟩
  · unfold Room.answer
    constructor
    · intro h
      rw [h]
      rfl
    · intro h
      cases hget : r.Answers.get? p with
      | none =>
        rw [hget] at h
        exact absurd h.symm (hq hphase)
      | some a =>
        rw [hget] at h
        rw [show a = r.CurrentQuestion.CorrectID from h]

/-- The scores after a round is finished, in every room: a player gets one point exactly when
the scoring test `selected != "" && selected == correctID` holds for the answer recorded, and
the entry of an id that is no player is untouched. -/
theorem FinishRound_scores_spec (r : Room) (now : Time)
    (hphase : r.Phase = PhaseAnswering)
    (hnow : r.AnsweringDeadline.nanos ≤ now.nanos) :
    (∀ p, (r.Players.get? p).isSome →
      (((FinishRoundIfDeadlinePassed r now).1.score p = r.score p + 1 ↔
        ∃ a, r.Answers.get? p = some a ∧ a ≠ "" ∧ a = r.CurrentQuestion.CorrectID) ∧
       ((¬ ∃ a, r.Answers.get? p = some a ∧ a ≠ "" ∧ a = r.CurrentQuestion.CorrectID) →
        (FinishRoundIfDeadlinePassed r now).1.score p = r.score p))) ∧
    (∀ p, r.Players.get? p = none →
      (FinishRoundIfDeadlinePassed r now).1.Scores.get? p = r.Scores.get? p) := by
  have hfin := FinishRound_due r now hphase hnow
  have hlook : ∀ k, (FinishRoundIfDeadlinePassed r now).1.Scores.get? k =
      if (r.Players.get? k).isSome ∧
          answeredCorrectly (r.Answers.getD ∅) r.CurrentQuestion.CorrectID k = true then
        some (r.score k + 1)
      else r.Scores.get? k := by
    intro k
    rw [hfin]
    show AList.lookup k (finishLoop _ _ _ _ _).1 = _
    rw [finishLoop_scores_lookup _ _ _ (GoMap.range_nodupKeys _), GoMap.getD_lookup]
    simp only [GoMap.get?_isSome_iff_mem_range, Room.score]
  have hcorr : ∀ k, answeredCorrectly (r.Answers.getD ∅) r.CurrentQuestion.CorrectID k = true ↔
      ∃ a, r.Answers.get? k = some a ∧ a ≠ "" ∧ a = r.CurrentQuestion.CorrectID := by
    intro k
    rw [answeredCorrectly_iff, GoMap.getD_lookup]
  constructor
  · intro p hp
    unfold Room.score
    rw [hlook p, ← hcorr p]
    by_cases hc : answeredCorrectly (r.Answers.getD ∅) r.CurrentQuestion.CorrectID p = true
    · simp [hp, hc, Room.score]
    · simp [hc]
  · intro p hp
    rw [hlook p]
    simp [hp]

/-- The payload of a finished round, in every room; `correct` is the scoring test
`selected != "" && selected == correctID`. -/
theorem FinishRound_results_spec (r : Room) (now : Time)
    (hhappened : (FinishRoundIfDeadlinePassed r now).2.2 = true) :
    r.Phase = PhaseAnswering ∧
    ∃ payload : RoundResultsPayload,
      (FinishRoundIfDeadlinePassed r now).2.1 = some payload ∧
      (FinishRoundIfDeadlinePassed r now).1.Phase = PhaseResults ∧
      payload.Code = r.Code ∧
      payload.RoundNumber = r.RoundNumber ∧
      payload.Question = r.CurrentQuestion.Text ∧
      payload.Options = r.CurrentQuestion.Options ∧
      payload.CorrectOptionID = r.CurrentQuestion.CorrectID ∧
      payload.Results.length = r.Players.len ∧
      (payload.Results.map (fun res => res.PlayerID)).Nodup ∧
      (∀ id, id ∈ payload.Results.map (fun res => res.PlayerID) ↔ (r.Players.get? id).isSome) ∧
      ∀ res ∈ payload.Results, ∃ pl : Player,
        r.Players.get? res.PlayerID = some pl ∧
        res.Name = pl.Name ∧
        res.SelectedOptionID = r.answer res.PlayerID ∧
        (res.Correct = true ↔
          ∃ a, r.Answers.get? res.PlayerID = some a ∧ a ≠ "" ∧
            a = r.CurrentQuestion.CorrectID) ∧
        res.Score = (FinishRoundIfDeadlinePassed r now).1.score res.PlayerID := by
  rcases FinishRound_cases r now with h | ⟨hphase, _, h⟩
  · rw [h] at hhappened
    simp at hhappened
  refine ⟨hphase, ?_⟩
  have hres := finishLoop_results (r.Answers.getD ∅) r.CurrentQuestion.CorrectID
    r.Players.range (GoMap.range_nodupKeys _) (r.Scores.getD ∅) []
  rw [List.nil_append] at hres
  have hids : ((finishLoop (r.Answers.getD ∅) r.CurrentQuestion.CorrectID
      r.Players.range (r.Scores.getD ∅) []).2.map (fun res => res.PlayerID)) =
      r.Players.range.keys := by
    rw [hres, List.map_map]
    rfl
  rw [h]
  refine ⟨_, rfl, rfl, rfl, rfl, rfl, rfl, rfl, ?_, ?_, ?_, ?_⟩
  · show (finishLoop _ _ _ _ _).2.length = _
    rw [hres, List.length_map]
    cases r.Players <;> rfl
  · show ((finishLoop _ _ _ _ _).2.map _).Nodup
    rw [hids]
    exact GoMap.range_nodupKeys _
  · intro id
    show id ∈ (finishLoop _ _ _ _ _).2.map _ ↔ _
    rw [hids, GoMap.get?_isSome_iff_mem_range]
  · intro res hmem
    change res ∈ (finishLoop _ _ _ _ _).2 at hmem
    rw [hres, List.mem_map] at hmem
    obtain ⟨⟨k, pl⟩, he, hres'⟩ := hmem
    subst hres'
    refine ⟨pl, (GoMap.mem_range_iff _ _ _).mp he, rfl, ?_, ?_, rfl⟩
    · show _ = (r.Answers.get? k).getD ""
      rw [← GoMap.getD_lookup]
    · show answeredCorrectly _ _ k = true ↔ _
      rw [answeredCorrectly_iff, GoMap.getD_lookup]

/-! ## Claims -/

/-- C1: `StartGame` reports `ErrNotHost` when the host id is empty or differs from the
requester; otherwise `ErrBadPhase` when the phase is neither lobby nor results; otherwise
`ErrNoPlayers` when the player map is empty; otherwise `ErrInvalidQuestion` when the trimmed
text is empty, the number of options is not 4, the trimmed correct id is empty or the correct
id is the id of no option; and it returns nil exactly when none of these applies. -/
theorem StartGame_error_order (r : Room) (requesterID : String) (q : Question)
    (answeringSeconds : Int) (now : Time) :
    ((r.HostID = "" ∨ r.HostID ≠ requesterID) →
      (StartGame r requesterID q answeringSeconds now).2 = some .ErrNotHost) ∧
    (¬ (r.HostID = "" ∨ r.HostID ≠ requesterID) →
      (r.Phase ≠ PhaseLobby ∧ r.Phase ≠ PhaseResults) →
      (StartGame r requesterID q answeringSeconds now).2 = some .ErrBadPhase) ∧
    (¬ (r.HostID = "" ∨ r.HostID ≠ requesterID) →
      ¬ (r.Phase ≠ PhaseLobby ∧ r.Phase ≠ PhaseResults) →
      r.Players.len = 0 →
      (StartGame r requesterID q answeringSeconds now).2 = some .ErrNoPlayers) ∧
    (¬ (r.HostID = "" ∨ r.HostID ≠ requesterID) →
      ¬ (r.Phase ≠ PhaseLobby ∧ r.Phase ≠ PhaseResults) →
      r.Players.len ≠ 0 →
      (TrimSpace q.Text = "" ∨ q.Options.length ≠ 4 ∨ TrimSpace q.CorrectID = "" ∨
        ∀ o ∈ q.Options, o.ID ≠ q.CorrectID) →
      (StartGame r requesterID q answeringSeconds now).2 = some .ErrInvalidQuestion) ∧
    ((StartGame r requesterID q answeringSeconds now).2 = none ↔
      ¬ (r.HostID = "" ∨ r.HostID ≠ requesterID) ∧
      ¬ (r.Phase ≠ PhaseLobby ∧ r.Phase ≠ PhaseResults) ∧
      r.Players.len ≠ 0 ∧
      ¬ (TrimSpace q.Text = "" ∨ q.Options.length ≠ 4 ∨ TrimSpace q.CorrectID = "" ∨
        ∀ o ∈ q.Options, o.ID ≠ q.CorrectID)) := by
  have hopt := hasOption_eq_false_iff q.Options q.CorrectID
  unfold StartGame
  refine ⟨?_, ?_, ?_, ?_, ?_⟩
  · intro h
    simp [h]
  · intro h1 h2
    simp [h1, h2]
  · intro h1 h2 h3
    simp [h1, h2, h3]
  · intro h1 h2 h3 h4
    have h3' : ¬ r.Players.len < 1 := by omega
    rw [if_neg h1, if_neg h2, if_neg h3']
    by_cases h5 : TrimSpace q.Text = "" ∨ q.Options.length ≠ 4 ∨ TrimSpace q.CorrectID = ""
    · rw [if_pos h5]
    · rw [if_neg h5]
      have h6 : ∀ o ∈ q.Options, o.ID ≠ q.CorrectID := by tauto
      have h7 : hasOption q.Options q.CorrectID = false := hopt.mpr h6
      simp [h7]
  · constructor
    · intro h
      split_ifs at h with h1 h2 h3 h5 h6
      refine ⟨h1, h2, by omega, ?_⟩
      rintro (h7 | h7 | h7 | h7)
      · exact h5 (Or.inl h7)
      · exact h5 (Or.inr (Or.inl h7))
      · exact h5 (Or.inr (Or.inr h7))
      · have := hopt.mpr h7
        simp [this] at h6
    · rintro ⟨h1, h2, h3, h4⟩
      have h3' : ¬ r.Players.len < 1 := by omega
      have h5 : ¬ (TrimSpace q.Text = "" ∨ q.Options.length ≠ 4 ∨ TrimSpace q.CorrectID = "") := by
        tauto
      have h6 : hasOption q.Options q.CorrectID = true := by
        by_contra hc
        rw [Bool.not_eq_true] at hc
        exact h4 (Or.inr (Or.inr (Or.inr (hopt.mp hc))))
      rw [if_neg h1, if_neg h2, if_neg h3', if_neg h5]
      simp [h6]

/-- Witness of `StartGame_error_order`: in the test room a requester other than the host gets
`ErrNotHost`. -/
theorem StartGame_error_order_witness :
    (StartGame lobbyRoom "someone_else" validQuestion 30 exampleNow).2 = some .ErrNotHost :=
  (StartGame_error_order lobbyRoom "someone_else" validQuestion 30 exampleNow).1 (by decide)

/-- C2 (as stated, refuted): a question with non-empty text, exactly 4 options and its
correct id among them is rejected with `ErrInvalidQuestion` when its text is blank
(one space), and also when its correct id is the empty id of one of its options. -/
theorem StartGame_valid_question_counterexample :
    (lobbyRoom.Phase = PhaseLobby ∧ 1 ≤ lobbyRoom.Players.len ∧ lobbyRoom.HostID = "p1") ∧
    (blankTextQuestion.Text ≠ "" ∧ blankTextQuestion.Options.length = 4 ∧
      (∃ o ∈ blankTextQuestion.Options, o.ID = blankTextQuestion.CorrectID) ∧
      (StartGame lobbyRoom "p1" blankTextQuestion 30 exampleNow).2 = some .ErrInvalidQuestion) ∧
    (emptyIdQuestion.Text ≠ "" ∧ emptyIdQuestion.Options.length = 4 ∧
      (∃ o ∈ emptyIdQuestion.Options, o.ID = emptyIdQuestion.CorrectID) ∧
      (StartGame lobbyRoom "p1" emptyIdQuestion 30 exampleNow).2 = some .ErrInvalidQuestion) := by
  decide

/-- C2 (amended): in phase lobby or results with at least one player, for every question
whose trimmed text is non-empty, that has exactly 4 options and whose correct id is non-empty
after trimming and is the id of one of the options, `StartGame` by the current host at time
`now` returns nil and leaves roundNumber = old + 1, currentQuestion = q, answers empty,
phase = answering, deadline = now + answeringSeconds seconds, every stored score unchanged,
a score entry (0 if new) for every current player and no other new entry, and players, hostId
and code unchanged; any further `StartGame` by the host on the resulting room returns
`ErrBadPhase` and leaves it unchanged.  This is for answeringSeconds from -9223372036 to
9223372036, for which the duration `time.Duration(answeringSeconds) * time.Second` is within
the 64 bits of a `time.Duration`; beyond, the product wraps around in Go. -/
theorem StartGame_success_state (r : Room) (q : Question) (answeringSeconds : Int) (now : Time)
    (hsecs : -9223372036 ≤ answeringSeconds ∧ answeringSeconds ≤ 9223372036)
    (hphase : r.Phase = PhaseLobby ∨ r.Phase = PhaseResults)
    (hplayers : 1 ≤ r.Players.len)
    (hhost : r.HostID ≠ "")
    (htext : TrimSpace q.Text ≠ "")
    (hopts : q.Options.length = 4)
    (hcid : TrimSpace q.CorrectID ≠ "")
    (hcorrect : ∃ o ∈ q.Options, o.ID = q.CorrectID) :
    ∃ r' : Room, StartGame r r.HostID q answeringSeconds now = (r', none) ∧
      r'.RoundNumber = r.RoundNumber + 1 ∧
      r'.CurrentQuestion = q ∧
      r'.Answers.len = 0 ∧ (∀ k, r'.Answers.get? k = none) ∧
      r'.Phase = PhaseAnswering ∧
      r'.AnsweringDeadline.nanos = now.nanos + answeringSeconds * 1000000000 ∧
      (-9223372036854775808 ≤ answeringSeconds * 1000000000 ∧
        answeringSeconds * 1000000000 ≤ 9223372036854775807) ∧
      (∀ k v, r.Scores.get? k = some v → r'.Scores.get? k = some v) ∧
      (∀ k, (r.Players.get? k).isSome →
        ∃ v, r'.Scores.get? k = some v ∧ (r.Scores.get? k = none → v = 0)) ∧
      (∀ k, r.Scores.get? k = none → r.Players.get? k = none → r'.Scores.get? k = none) ∧
      r'.Players = r.Players ∧ r'.HostID = r.HostID ∧ r'.Code = r.Code ∧
      ∀ (q2 : Question) (secs2 : Int) (now2 : Time),
        StartGame r' r.HostID q2 secs2 now2 = (r', some .ErrBadPhase) := by
  have h1 : ¬ (r.HostID = "" ∨ r.HostID ≠ r.HostID) := by simp [hhost]
  have h2 : ¬ (r.Phase ≠ PhaseLobby ∧ r.Phase ≠ PhaseResults) := by tauto
  have h3 : ¬ r.Players.len < 1 := by omega
  have h4 : ¬ (TrimSpace q.Text = "" ∨ q.Options.length ≠ 4 ∨ TrimSpace q.CorrectID = "") := by
    tauto
  have h5 : ¬ ¬ hasOption q.Options q.CorrectID = true := by
    rw [not_not]
    exact (hasOption_iff _ _).mpr hcorrect
  have hscore : ∀ k, GoMap.get? (some (ensureScores r.Players.range
        (match r.Scores with
          | none => ∅
          | some m => m))) k =
      if (r.Scores.get? k).isSome then r.Scores.get? k
      else if (r.Players.get? k).isSome then some 0 else none := by
    intro k
    have hm := GoMap.get?_isSome_iff_mem_range r.Players k
    simp only [GoMap.get?, ensureScores_lookup]
    cases hs : r.Scores with
    | none => simp [GoMap.get?, hs, ← hm]
    | some m => simp [GoMap.get?, hs, ← hm]
  have hres : StartGame r r.HostID q answeringSeconds now =
      ({ r with
          RoundNumber := r.RoundNumber + 1
          CurrentQuestion := q
          Answers := some ∅
          Scores := some (ensureScores r.Players.range
            (match r.Scores with
              | none => ∅
              | some m => m))
          Phase := PhaseAnswering
          AnsweringDeadline := now.Add (answeringSeconds * Second) }, none) := by
    rw [StartGame, if_neg h1, if_neg h2, if_neg h3, if_neg h4, if_neg h5]
  refine ⟨_, hres, rfl, rfl, rfl, fun _ => rfl, rfl, ?_, ?_, ?_, ?_, ?_, rfl, rfl, rfl, ?_⟩
  · simp [Time.Add, Second]
  · omega
  · intro k v hk
    simp only [hscore, hk]
    simp
  · intro k hk
    simp only [hscore, hk]
    cases hs : r.Scores.get? k <;> simp
  · intro k hs hp
    simp only [hscore, hs, hp]
    simp
  · intro q2 secs2 now2
    simp [StartGame, hhost, PhaseAnswering, PhaseLobby, PhaseResults]

/-- Witness of `StartGame_success_state`: the host of the test room starts the test question. -/
theorem StartGame_success_state_witness :
    ∃ r' : Room, StartGame lobbyRoom lobbyRoom.HostID validQuestion 30 exampleNow = (r', none) ∧
      r'.RoundNumber = lobbyRoom.RoundNumber + 1 ∧
      r'.CurrentQuestion = validQuestion ∧
      r'.Answers.len = 0 ∧ (∀ k, r'.Answers.get? k = none) ∧
      r'.Phase = PhaseAnswering ∧
      r'.AnsweringDeadline.nanos = exampleNow.nanos + 30 * 1000000000 ∧
      (-9223372036854775808 ≤ (30 : Int) * 1000000000 ∧
        (30 : Int) * 1000000000 ≤ 9223372036854775807) ∧
      (∀ k v, lobbyRoom.Scores.get? k = some v → r'.Scores.get? k = some v) ∧
      (∀ k, (lobbyRoom.Players.get? k).isSome →
        ∃ v, r'.Scores.get? k = some v ∧ (lobbyRoom.Scores.get? k = none → v = 0)) ∧
      (∀ k, lobbyRoom.Scores.get? k = none → lobbyRoom.Players.get? k = none →
        r'.Scores.get? k = none) ∧
      r'.Players = lobbyRoom.Players ∧ r'.HostID = lobbyRoom.HostID ∧ r'.Code = lobbyRoom.Code ∧
      ∀ (q2 : Question) (secs2 : Int) (now2 : Time),
        StartGame r' lobbyRoom.HostID q2 secs2 now2 = (r', some .ErrBadPhase) :=
  StartGame_success_state lobbyRoom validQuestion 30 exampleNow
    (by decide) (by decide) (by decide) (by decide) (by decide) (by decide) (by decide)
    (by decide)

/-- C3 (as stated, refuted): in the test room started with a question whose first option id
is " A", the host first answers "B" (accepted) and then submits the option " A" of the current
question, before the deadline: the second call fails with `ErrInvalidOption`, not
`ErrAlreadyAnswered`. -/
theorem SubmitAnswer_second_option_counterexample :
    paddedIdRoom.Phase = PhaseAnswering ∧
    exampleNow.nanos < paddedIdRoom.AnsweringDeadline.nanos ∧
    (SubmitAnswer paddedIdRoom "p1" "B" exampleNow).2 = none ∧
    (∃ o ∈ paddedIdRoom.CurrentQuestion.Options, o.ID = " A") ∧
    (SubmitAnswer (SubmitAnswer paddedIdRoom "p1" "B" exampleNow).1 "p1" " A" exampleNow).2 =
      some .ErrInvalidOption := by
  decide

/-- C3 (amended): if `SubmitAnswer(p, a)` succeeds, then after any further calls of the room's
methods that leave the room in the answering phase of the same round, every
`SubmitAnswer(p, b)` made while the deadline has not passed, with b a string whose trimmed
form is non-empty and is the id of an option of the current question, fails with
`ErrAlreadyAnswered` and leaves the room as it was; the answer recorded for p is still the
first one (trimmed) and the question is still the same. -/
theorem SubmitAnswer_second_rejected (r : Room) (p a : String) (now1 : Time)
    (hfirst : (SubmitAnswer r p a now1).2 = none)
    (ops : List RoomOp) (r2 : Room)
    (hlater : runOps (SubmitAnswer r p a now1).1 ops = some r2)
    (hsame : r2.Phase = PhaseAnswering ∧ r2.RoundNumber = r.RoundNumber)
    (b : String) (now2 : Time)
    (hdeadline : ¬ (r2.AnsweringDeadline.IsZero = false ∧
      r2.AnsweringDeadline.nanos < now2.nanos))
    (hb : TrimSpace b ≠ "")
    (hoption : ∃ o ∈ r2.CurrentQuestion.Options, o.ID = TrimSpace b) :
    SubmitAnswer r2 p b now2 = (r2, some .ErrAlreadyAnswered) ∧
    r2.Answers.get? p = some (TrimSpace a) ∧
    r2.CurrentQuestion = r.CurrentQuestion := by
  have hinit : answeredInRound r.RoundNumber r.CurrentQuestion p (TrimSpace a)
      (SubmitAnswer r p a now1).1 := by
    rcases SubmitAnswer_cases r p a now1 with ⟨e, h, _⟩ | ⟨hph, _, h⟩
    · rw [h] at hfirst
      simp at hfirst
    · rw [h]
      refine ⟨le_refl _, fun _ => Or.inr ⟨hph, rfl, ?_⟩⟩
      show GoMap.get? (some ((r.Answers.getD ∅).insert p (TrimSpace a))) p = _
      rw [GoMap.get?_insert, if_pos rfl]
  obtain ⟨_, hround⟩ := answeredInRound_runOps _ _ _ _ ops _ r2 hinit hlater
  rcases hround hsame.2 with hres | ⟨_, hq, hans⟩
  · rw [hsame.1] at hres
    simp [PhaseAnswering, PhaseResults] at hres
  · refine ⟨?_, hans, hq⟩
    exact (SubmitAnswer_checked r2 p b now2 hsame.1 hdeadline hb
      ((hasOption_iff _ _).mpr hoption)).1 (by simp [hans])

/-- Witness of `SubmitAnswer_second_rejected`: in the test room the host answers " B ", a
second player joins and answers "A", and the host then submits "A". -/
theorem SubmitAnswer_second_rejected_witness :
    SubmitAnswer twoAnswersRoom "p1" "A" exampleNow =
      (twoAnswersRoom, some .ErrAlreadyAnswered) ∧
    twoAnswersRoom.Answers.get? "p1" = some (TrimSpace " B ") ∧
    twoAnswersRoom.CurrentQuestion = answeringRoom.CurrentQuestion :=
  SubmitAnswer_second_rejected answeringRoom "p1" " B " exampleNow (by decide)
    [.addPlayer ⟨"p2", "P2"⟩, .submitAnswer "p2" "A" exampleNow] twoAnswersRoom rfl
    ⟨by decide, by decide⟩ "A" exampleNow (by decide) (by decide) (by decide)

/-- C4 (as stated, refuted): in the test room, whose deadline is non-zero, an answer submitted
exactly at the deadline is accepted and recorded instead of failing with
`ErrDeadlinePassed`. -/
theorem SubmitAnswer_at_deadline_counterexample :
    answeringRoom.Phase = PhaseAnswering ∧
    answeringRoom.AnsweringDeadline.IsZero = false ∧
    (SubmitAnswer answeringRoom "p1" "A" answeringRoom.AnsweringDeadline).2 = none ∧
    (SubmitAnswer answeringRoom "p1" "A" answeringRoom.AnsweringDeadline).1.Answers.get? "p1" =
      some "A" := by
  decide

/-- C4 (amended): in the answering phase with a non-zero deadline d, `SubmitAnswer` called at
any time strictly after d fails with `ErrDeadlinePassed` and leaves the room as it was, for
every player id and every option id. -/
theorem SubmitAnswer_after_deadline (r : Room) (p s : String) (now : Time)
    (hphase : r.Phase = PhaseAnswering)
    (hnonzero : r.AnsweringDeadline.IsZero = false)
    (hlate : r.AnsweringDeadline.nanos < now.nanos) :
    SubmitAnswer r p s now = (r, some .ErrDeadlinePassed) := by
  have h : (!r.AnsweringDeadline.IsZero && now.After r.AnsweringDeadline) = true := by
    simp [Time.After, hnonzero, hlate]
  simp [SubmitAnswer, hphase, h]

/-- Witness of `SubmitAnswer_after_deadline`: one nanosecond after the deadline of the test
room. -/
theorem SubmitAnswer_after_deadline_witness :
    SubmitAnswer answeringRoom "p1" "A" (answeringRoom.AnsweringDeadline.Add 1) =
      (answeringRoom, some .ErrDeadlinePassed) :=
  SubmitAnswer_after_deadline answeringRoom "p1" "A" (answeringRoom.AnsweringDeadline.Add 1)
    (by decide) (by decide) (by decide)

/-- C5: the outcome of `SubmitAnswer` is decided in this order: `ErrBadPhase` unless the phase
is answering; else `ErrDeadlinePassed` if the (non-zero) deadline has passed; else
`ErrEmptyAnswer` if the trimmed option is empty; else `ErrInvalidOption` unless the trimmed
option is the id of an option of the current question; else `ErrAlreadyAnswered` if the player
has a recorded answer; else success, which sets answers[player] to the trimmed option and
changes nothing else.  The first four outcomes do not depend on whether the player has
answered, so a player who has answered and sends a blank or unknown option gets
`ErrEmptyAnswer` or `ErrInvalidOption`. -/
theorem SubmitAnswer_outcome_order (r : Room) (p s : String) (now : Time) :
    (r.Phase ≠ PhaseAnswering → SubmitAnswer r p s now = (r, some .ErrBadPhase)) ∧
    (r.Phase = PhaseAnswering →
      (r.AnsweringDeadline.IsZero = false ∧ r.AnsweringDeadline.nanos < now.nanos) →
      SubmitAnswer r p s now = (r, some .ErrDeadlinePassed)) ∧
    (r.Phase = PhaseAnswering →
      ¬ (r.AnsweringDeadline.IsZero = false ∧ r.AnsweringDeadline.nanos < now.nanos) →
      TrimSpace s = "" →
      SubmitAnswer r p s now = (r, some .ErrEmptyAnswer)) ∧
    (r.Phase = PhaseAnswering →
      ¬ (r.AnsweringDeadline.IsZero = false ∧ r.AnsweringDeadline.nanos < now.nanos) →
      TrimSpace s ≠ "" →
      (∀ o ∈ r.CurrentQuestion.Options, o.ID ≠ TrimSpace s) →
      SubmitAnswer r p s now = (r, some .ErrInvalidOption)) ∧
    (r.Phase = PhaseAnswering →
      ¬ (r.AnsweringDeadline.IsZero = false ∧ r.AnsweringDeadline.nanos < now.nanos) →
      TrimSpace s ≠ "" →
      (∃ o ∈ r.CurrentQuestion.Options, o.ID = TrimSpace s) →
      (r.Answers.get? p).isSome →
      SubmitAnswer r p s now = (r, some .ErrAlreadyAnswered)) ∧
    (r.Phase = PhaseAnswering →
      ¬ (r.AnsweringDeadline.IsZero = false ∧ r.AnsweringDeadline.nanos < now.nanos) →
      TrimSpace s ≠ "" →
      (∃ o ∈ r.CurrentQuestion.Options, o.ID = TrimSpace s) →
      r.Answers.get? p = none →
      ∃ r' : Room, SubmitAnswer r p s now = (r', none) ∧
        r' = { r with Answers := r'.Answers } ∧
        ∀ k, r'.Answers.get? k = if k = p then some (TrimSpace s) else r.Answers.get? k) := by
  have hpass : (r.AnsweringDeadline.IsZero = false ∧ r.AnsweringDeadline.nanos < now.nanos) ↔
      (!r.AnsweringDeadline.IsZero && now.After r.AnsweringDeadline) = true := by
    simp [Time.After]
  refine ⟨?_, ?_, ?_, ?_, ?_, ?_⟩
  · intro h1
    simp [SubmitAnswer, h1]
  · intro h1 h2
    simp [SubmitAnswer, h1, hpass.mp h2]
  · intro h1 h2 h3
    rw [hpass] at h2
    simp [SubmitAnswer, h1, h2, h3]
  · intro h1 h2 h3 h4
    rw [hpass] at h2
    have h4' := (hasOption_eq_false_iff _ _).mpr h4
    simp [SubmitAnswer, h1, h2, h3, h4']
  · intro h1 h2 h3 h4 h5
    exact (SubmitAnswer_checked r p s now h1 h2 h3 ((hasOption_iff _ _).mpr h4)).1 h5
  · intro h1 h2 h3 h4 h5
    refine ⟨_, (SubmitAnswer_checked r p s now h1 h2 h3 ((hasOption_iff _ _).mpr h4)).2 h5,
      rfl, ?_⟩
    intro k
    show GoMap.get? (some ((r.Answers.getD ∅).insert p (TrimSpace s))) k = _
    rw [GoMap.get?_insert, GoMap.getD_lookup]

/-- Witness of `SubmitAnswer_outcome_order`: in the test room, the first answer " B " of the
host is recorded as "B". -/
theorem SubmitAnswer_outcome_order_witness :
    ∃ r' : Room, SubmitAnswer answeringRoom "p1" " B " exampleNow = (r', none) ∧
      r' = { answeringRoom with Answers := r'.Answers } ∧
      ∀ k, r'.Answers.get? k =
        if k = "p1" then some (TrimSpace " B ") else answeringRoom.Answers.get? k :=
  (SubmitAnswer_outcome_order answeringRoom "p1" " B " exampleNow).2.2.2.2.2
    (by decide) (by decide) (by decide) (by decide) (by decide)

/-- C6: for every room reachable from `CreateRoom` through the Room operations that is in the
answering phase, at a time now >= deadline, after `FinishRoundIfDeadlinePassed`: for every
current player p, scores[p] = old scores[p] + 1 if and only if the answer recorded for p is the
correct option id of the current question, and scores[p] = old scores[p] otherwise (no answer
or another answer); the score entry of every id that is not a current player is unchanged.
Reading the answer as `answers[p]`, the empty string without an entry, gives the same
condition. -/
theorem FinishRound_scoring (lib : StdLib) (rm : RoomManager) (b : Fin 8 → Byte)
    (ops : List RoomOp) (r : Room) (now : Time)
    (hreach : runOps (CreateRoom lib rm b).2 ops = some r)
    (hphase : r.Phase = PhaseAnswering)
    (hnow : r.AnsweringDeadline.nanos ≤ now.nanos) :
    (∀ p, (r.Players.get? p).isSome →
      ((FinishRoundIfDeadlinePassed r now).1.score p = r.score p + 1 ↔
        r.Answers.get? p = some r.CurrentQuestion.CorrectID) ∧
      (r.Answers.get? p ≠ some r.CurrentQuestion.CorrectID →
        (FinishRoundIfDeadlinePassed r now).1.score p = r.score p) ∧
      (r.Answers.get? p = some r.CurrentQuestion.CorrectID ↔
        r.answer p = r.CurrentQuestion.CorrectID)) ∧
    (∀ p, r.Players.get? p = none →
      (FinishRoundIfDeadlinePassed r now).1.Scores.get? p = r.Scores.get? p) := by
  have hne := answersNonEmpty_runOps ops _ r (answersNonEmpty_CreateRoom lib rm b) hreach
  obtain ⟨hplayers, hothers⟩ := FinishRound_scores_spec r now hphase hnow
  refine ⟨?_, hothers⟩
  intro p hp
  obtain ⟨hiff, hreading⟩ := answeredCorrectly_of_nonEmpty r hne hphase p
  obtain ⟨hplus, hsame⟩ := hplayers p hp
  refine ⟨hplus.trans hiff, ?_, hreading⟩
  intro hno
  exact hsame (fun h => hno (hiff.mp h))

/-- Witness of `FinishRound_scoring`: after `exampleRound`, finished at its deadline, `p1`, who
answered "B", has one point more and `p2`, who answered "A", has the score of before. -/
theorem FinishRound_scoring_witness :
    runOps (CreateRoom refLib NewRoomManager exampleBytes).2 exampleRound
      = some exampleRoundRoom ∧
    exampleRoundRoom.Answers.get? "p1" = some exampleRoundRoom.CurrentQuestion.CorrectID ∧
    (FinishRoundIfDeadlinePassed exampleRoundRoom (exampleNow.Add (30 * Second))).1.score "p1"
      = exampleRoundRoom.score "p1" + 1 ∧
    (FinishRoundIfDeadlinePassed exampleRoundRoom (exampleNow.Add (30 * Second))).1.score "p2"
      = exampleRoundRoom.score "p2" :=
  ⟨rfl, by decide,
    ((FinishRound_scoring refLib NewRoomManager exampleBytes exampleRound exampleRoundRoom
      (exampleNow.Add (30 * Second)) rfl (by decide) (by decide)).1 "p1" (by decide)).1.mpr
      (by decide),
    ((FinishRound_scoring refLib NewRoomManager exampleBytes exampleRound exampleRoundRoom
      (exampleNow.Add (30 * Second)) rfl (by decide) (by decide)).1 "p2" (by decide)).2.1
      (by decide)⟩

/-- C7: `FinishRoundIfDeadlinePassed` returns (nil, false) and leaves the room exactly as it
was unless the phase is answering and now >= deadline, in which case it returns true; and a
second call right after a call that returned true returns (nil, false) and leaves the room,
its scores included, as the first call left it. -/
theorem FinishRound_noop_unless_due :
    (∀ (r : Room) (now : Time),
      ¬ (r.Phase = PhaseAnswering ∧ r.AnsweringDeadline.nanos ≤ now.nanos) →
      FinishRoundIfDeadlinePassed r now = (r, none, false)) ∧
    (∀ (r : Room) (now : Time),
      (r.Phase = PhaseAnswering ∧ r.AnsweringDeadline.nanos ≤ now.nanos) →
      (FinishRoundIfDeadlinePassed r now).2.2 = true) ∧
    (∀ (r : Room) (now now2 : Time),
      (FinishRoundIfDeadlinePassed r now).2.2 = true →
      FinishRoundIfDeadlinePassed (FinishRoundIfDeadlinePassed r now).1 now2 =
        ((FinishRoundIfDeadlinePassed r now).1, none, false)) := by
  refine ⟨?_, ?_, ?_⟩
  · intro r now h
    rcases FinishRound_cases r now with h1 | ⟨h1, h2, _⟩
    · exact h1
    · exact absurd ⟨h1, h2⟩ h
  · intro r now h
    unfold FinishRoundIfDeadlinePassed
    have h2 : ¬ now.Before r.AnsweringDeadline = true := by
      simp [Time.Before, h.2]
    rw [if_neg (by simp [h.1]), if_neg h2]
  · intro r now now2 h
    rcases FinishRound_cases r now with h1 | ⟨_, _, h1⟩
    · rw [h1] at h
      simp at h
    · rw [h1]
      simp [FinishRoundIfDeadlinePassed, PhaseResults, PhaseAnswering]

/-- Witness of `FinishRound_noop_unless_due`: the test room with two answers is finished at its
deadline, and a second call one second later does nothing. -/
theorem FinishRound_noop_unless_due_witness :
    FinishRoundIfDeadlinePassed
        (FinishRoundIfDeadlinePassed twoAnswersRoom twoAnswersRoom.AnsweringDeadline).1
        (twoAnswersRoom.AnsweringDeadline.Add Second) =
      ((FinishRoundIfDeadlinePassed twoAnswersRoom twoAnswersRoom.AnsweringDeadline).1,
        none, false) :=
  FinishRound_noop_unless_due.2.2 twoAnswersRoom twoAnswersRoom.AnsweringDeadline
    (twoAnswersRoom.AnsweringDeadline.Add Second) (by decide)

/-- C8: for every room reachable from `CreateRoom` through the Room operations, whenever
`FinishRoundIfDeadlinePassed` returns true, the phase becomes results and the payload carries
the room code, the round number, the question text and options, the correct id of the
question, and exactly one result entry per current player (as many entries as players, no two
with the same player id, every entry that of a current player) holding the player's id and
name, the option recorded for the player (empty if none), correct = (the answer recorded for
the player is the correct id, which is the same as: the option in the entry is the correct
id), and score = the player's score in the room after the call. -/
theorem FinishRound_payload (lib : StdLib) (rm : RoomManager) (b : Fin 8 → Byte)
    (ops : List RoomOp) (r : Room) (now : Time)
    (hreach : runOps (CreateRoom lib rm b).2 ops = some r)
    (hhappened : (FinishRoundIfDeadlinePassed r now).2.2 = true) :
    ∃ payload : RoundResultsPayload,
      (FinishRoundIfDeadlinePassed r now).2.1 = some payload ∧
      (FinishRoundIfDeadlinePassed r now).1.Phase = PhaseResults ∧
      payload.Code = r.Code ∧
      payload.RoundNumber = r.RoundNumber ∧
      payload.Question = r.CurrentQuestion.Text ∧
      payload.Options = r.CurrentQuestion.Options ∧
      payload.CorrectOptionID = r.CurrentQuestion.CorrectID ∧
      payload.Results.length = r.Players.len ∧
      (payload.Results.map (fun res => res.PlayerID)).Nodup ∧
      (∀ id, id ∈ payload.Results.map (fun res => res.PlayerID) ↔ (r.Players.get? id).isSome) ∧
      ∀ res ∈ payload.Results, ∃ pl : Player,
        r.Players.get? res.PlayerID = some pl ∧
        res.Name = pl.Name ∧
        res.SelectedOptionID = r.answer res.PlayerID ∧
        (res.Correct = true ↔
          r.Answers.get? res.PlayerID = some r.CurrentQuestion.CorrectID) ∧
        (res.Correct = true ↔ res.SelectedOptionID = payload.CorrectOptionID) ∧
        res.Score = (FinishRoundIfDeadlinePassed r now).1.score res.PlayerID := by
  have hne := answersNonEmpty_runOps ops _ r (answersNonEmpty_CreateRoom lib rm b) hreach
  obtain ⟨hphase, payload, h1, h2, h3, h4, h5, h6, h7, h8, h9, h10, hres⟩ :=
    FinishRound_results_spec r now hhappened
  refine ⟨payload, h1, h2, h3, h4, h5, h6, h7, h8, h9, h10, ?_⟩
  intro res hmem
  obtain ⟨pl, hpl, hname, hsel, hcorrect, hscore⟩ := hres res hmem
  obtain ⟨hiff, hreading⟩ := answeredCorrectly_of_nonEmpty r hne hphase res.PlayerID
  refine ⟨pl, hpl, hname, hsel, hcorrect.trans hiff, ?_, hscore⟩
  rw [hsel, h7]
  exact (hcorrect.trans hiff).trans hreading

/-- Witness of `FinishRound_payload`: after `exampleRound`, finished at its deadline, the
payload has the entry of `p2` with option "A", not correct, score 0, and the entry of `p1`
with option "B", correct, score 1. -/
theorem FinishRound_payload_witness :
    (FinishRoundIfDeadlinePassed exampleRoundRoom (exampleNow.Add (30 * Second))).2.1.map
        (fun payload => payload.Results.map
          (fun res => (res.PlayerID, res.SelectedOptionID, res.Correct, res.Score))) =
      some [("p2", "A", false, 0), ("p1", "B", true, 1)] ∧
    ∃ payload : RoundResultsPayload,
      (FinishRoundIfDeadlinePassed exampleRoundRoom (exampleNow.Add (30 * Second))).2.1 =
        some payload ∧
      (FinishRoundIfDeadlinePassed exampleRoundRoom (exampleNow.Add (30 * Second))).1.Phase =
        PhaseResults ∧
      payload.CorrectOptionID = exampleRoundRoom.CurrentQuestion.CorrectID ∧
      payload.Results.length = exampleRoundRoom.Players.len := by
  obtain ⟨payload, h1, h2, _, _, _, _, h7, h8, _⟩ :=
    FinishRound_payload refLib NewRoomManager exampleBytes exampleRound exampleRoundRoom
      (exampleNow.Add (30 * Second)) rfl (by decide)
  exact ⟨by decide, payload, h1, h2, h7, h8⟩

/-- C9: a `StartGame` or `SubmitAnswer` call that returns an error returns the room exactly as
it was before the call, and the error is one of the validation errors of that method. -/
theorem validation_errors_keep_room :
    (∀ (r : Room) (requesterID : String) (q : Question) (answeringSeconds : Int) (now : Time)
        (e : GameError), (StartGame r requesterID q answeringSeconds now).2 = some e →
      (StartGame r requesterID q answeringSeconds now).1 = r ∧
      (e = .ErrNotHost ∨ e = .ErrBadPhase ∨ e = .ErrNoPlayers ∨ e = .ErrInvalidQuestion)) ∧
    (∀ (r : Room) (p s : String) (now : Time) (e : GameError),
      (SubmitAnswer r p s now).2 = some e →
      (SubmitAnswer r p s now).1 = r ∧
      (e = .ErrBadPhase ∨ e = .ErrDeadlinePassed ∨ e = .ErrEmptyAnswer ∨
        e = .ErrInvalidOption ∨ e = .ErrAlreadyAnswered)) := by
  constructor
  · intro r requesterID q answeringSeconds now e he
    rcases StartGame_cases r requesterID q answeringSeconds now with ⟨e', h, hmem⟩ | ⟨_, h, _⟩
    · rw [h] at he
      have hee : e' = e := by simpa using he
      subst hee
      exact ⟨by rw [h], hmem⟩
    · rw [h] at he
      simp at he
  · intro r p s now e he
    rcases SubmitAnswer_cases r p s now with ⟨e', h, hmem⟩ | ⟨_, _, h⟩
    · rw [h] at he
      have hee : e' = e := by simpa using he
      subst hee
      exact ⟨by rw [h], hmem⟩
    · rw [h] at he
      simp at he

/-- Witness of `validation_errors_keep_room`: a second answer of the host of the test room is
refused with `ErrAlreadyAnswered` and the room keeps the first answer. -/
theorem validation_errors_keep_room_witness :
    (SubmitAnswer (SubmitAnswer answeringRoom "p1" "A" exampleNow).1 "p1" "B" exampleNow).1 =
      (SubmitAnswer answeringRoom "p1" "A" exampleNow).1 ∧
    (GameError.ErrAlreadyAnswered = .ErrBadPhase ∨
      GameError.ErrAlreadyAnswered = .ErrDeadlinePassed ∨
      GameError.ErrAlreadyAnswered = .ErrEmptyAnswer ∨
      GameError.ErrAlreadyAnswered = .ErrInvalidOption ∨
      GameError.ErrAlreadyAnswered = .ErrAlreadyAnswered) :=
  validation_errors_keep_room.2 (SubmitAnswer answeringRoom "p1" "A" exampleNow).1 "p1" "B"
    exampleNow .ErrAlreadyAnswered (by decide)

/-- C10: `Snapshot` returns the room's code, phase, host id and round number, the list of the
current players, and a score map with exactly the room's score entries; the question text and
options are those of the current question when the phase is answering or results and empty
otherwise; the deadline is the room's deadline in Unix milliseconds when the phase is
answering and the deadline is non-zero, and 0 otherwise.  The score map of the snapshot is a
fresh map: overwriting one of its entries changes neither the room's score map nor the score
map of a snapshot taken afterwards. -/
theorem Snapshot_contents_and_isolation :
    (∀ r : Room,
      (Snapshot r).Code = r.Code ∧ (Snapshot r).Phase = r.Phase ∧
      (Snapshot r).HostID = r.HostID ∧ (Snapshot r).RoundNumber = r.RoundNumber ∧
      (Snapshot r).Players.length = r.Players.len ∧
      (∀ pl, pl ∈ (Snapshot r).Players ↔ ∃ id, r.Players.get? id = some pl) ∧
      (∀ k, (Snapshot r).Scores.lookup k = r.Scores.get? k) ∧
      ((r.Phase = PhaseAnswering ∨ r.Phase = PhaseResults) →
        (Snapshot r).Question = r.CurrentQuestion.Text ∧
        (Snapshot r).Options = r.CurrentQuestion.Options) ∧
      (¬ (r.Phase = PhaseAnswering ∨ r.Phase = PhaseResults) →
        (Snapshot r).Question = "" ∧ (Snapshot r).Options = []) ∧
      ((r.Phase = PhaseAnswering ∧ r.AnsweringDeadline.IsZero = false) →
        (Snapshot r).Deadline = r.AnsweringDeadline.UnixMilli) ∧
      (¬ (r.Phase = PhaseAnswering ∧ r.AnsweringDeadline.IsZero = false) →
        (Snapshot r).Deadline = 0)) ∧
    (∀ (r : Room) (h : ScoreHeap) (ref : Option Nat),
      (∀ a, ref = some a → a < h.next) → h.deref ref = r.Scores →
      (snapshotScoresRef h ref).1.cell (snapshotScoresRef h ref).2 = (Snapshot r).Scores ∧
      (snapshotScoresRef h ref).1.deref ref = r.Scores ∧
      ∀ (k : String) (v : Int),
        ((snapshotScoresRef h ref).1.store (snapshotScoresRef h ref).2 k v).deref ref =
          r.Scores ∧
        (snapshotScoresRef
            ((snapshotScoresRef h ref).1.store (snapshotScoresRef h ref).2 k v) ref).1.cell
          (snapshotScoresRef
            ((snapshotScoresRef h ref).1.store (snapshotScoresRef h ref).2 k v) ref).2 =
          (Snapshot r).Scores) := by
  constructor
  · intro r
    obtain ⟨h1, h2, h3, h4, h5, h6, h7, h8, h9⟩ := Snapshot_fields r
    refine ⟨h1, h2, h3, h4, ?_, ?_, ?_, ?_, ?_, ?_, ?_⟩
    · rw [h5, List.length_map]
      cases r.Players <;> rfl
    · intro pl
      rw [h5, List.mem_map]
      constructor
      · rintro ⟨⟨id, pl'⟩, he, hpl⟩
        simp only at hpl
        subst hpl
        exact ⟨id, (GoMap.mem_range_iff _ _ _).mp he⟩
      · rintro ⟨id, hid⟩
        exact ⟨⟨id, pl⟩, (GoMap.mem_range_iff _ _ _).mpr hid, rfl⟩
    · intro k
      rw [h6]
      cases hs : r.Scores with
      | none => simp [GoMap.get?]
      | some m => simp [GoMap.get?, copyScores_self_lookup]
    · intro hp
      rw [h7, h8, if_pos hp, if_pos hp]
      exact ⟨rfl, rfl⟩
    · intro hp
      rw [h7, h8, if_neg hp, if_neg hp]
      exact ⟨rfl, rfl⟩
    · intro hp
      rw [h9, if_pos hp]
    · intro hp
      rw [h9, if_neg hp]
  · intro r h ref hvalid href
    obtain ⟨_, _, _, _, _, hscores, _⟩ := Snapshot_fields r
    obtain ⟨hfresh, hnext, hkeep, hcopy⟩ := snapshotScoresRef_spec h ref hvalid
    have hderef : ∀ h' : ScoreHeap, (∀ a, a < h.next → h'.cell a = h.cell a) →
        h'.deref ref = r.Scores := by
      intro h' hh'
      rw [← href]
      cases ref with
      | none => rfl
      | some a =>
        simp only [ScoreHeap.deref, Option.map_some']
        rw [hh' a (hvalid a rfl)]
    have hstore : ∀ (k : String) (v : Int) (a : Nat), a < h.next →
        ((snapshotScoresRef h ref).1.store (snapshotScoresRef h ref).2 k v).cell a =
          h.cell a := by
      intro k v a ha
      simp only [ScoreHeap.store]
      rw [Function.update_noteq (by omega), hkeep a ha]
    refine ⟨?_, hderef _ hkeep, fun k v => ⟨hderef _ (hstore k v), ?_⟩⟩
    · rw [hcopy, href, hscores]
    · have hvalid2 : ∀ a, ref = some a →
          a < ((snapshotScoresRef h ref).1.store (snapshotScoresRef h ref).2 k v).next := by
        intro a ha
        have := hvalid a ha
        simp only [ScoreHeap.store]
        omega
      obtain ⟨_, _, _, hcopy2⟩ := snapshotScoresRef_spec
        ((snapshotScoresRef h ref).1.store (snapshotScoresRef h ref).2 k v) ref hvalid2
      rw [hcopy2, hderef _ (hstore k v), hscores]


/-- Witness of `Snapshot_contents_and_isolation` (the scenario of
`TestRoom_Snapshot_ScoresCopy`): after the score of `p1` is set to 999 in the score map of a
snapshot of the test room, the room's score map is as before. -/
theorem Snapshot_contents_and_isolation_witness :
    ((snapshotScoresRef exampleHeap (some 0)).1.store
        (snapshotScoresRef exampleHeap (some 0)).2 "p1" 999).deref (some 0) =
      answeringRoom.Scores :=
  ((Snapshot_contents_and_isolation.2 answeringRoom exampleHeap (some 0)
    (by decide) rfl).2.2 "p1" 999).1

/-- C11: for every room, `BuildLeaderboard` returns exactly one entry per current player,
carrying the player's id, name and stored score (0 if none); the entries are ordered by
descending score and, among equal scores, by ascending name; the place of each entry is 1 +
the number of entries with a strictly greater score, so entries with equal scores share a
place and the next lower score gets the place of the tie group plus the size of the group;
roundsPlayed is the room's round number and code is the room's code. -/
theorem BuildLeaderboard_ranking (lib : StdLib) (r : Room) :
    ((BuildLeaderboard lib r).Leaderboard.map (fun e => (e.PlayerID, e.Name, e.Score))).Perm
      (r.Players.range.map (fun p => (p.2.ID, p.2.Name, r.score p.2.ID))) ∧
    (BuildLeaderboard lib r).Leaderboard.Pairwise
      (fun a b => b.Score < a.Score ∨
        (a.Score = b.Score ∧ stringLess b.Name.data a.Name.data = false)) ∧
    (∀ e ∈ (BuildLeaderboard lib r).Leaderboard,
      e.Place = 1 + (((BuildLeaderboard lib r).Leaderboard.filter
        (fun x => decide (e.Score < x.Score))).length : Int)) ∧
    (∀ a ∈ (BuildLeaderboard lib r).Leaderboard, ∀ b ∈ (BuildLeaderboard lib r).Leaderboard,
      a.Score = b.Score → a.Place = b.Place) ∧
    (∀ a ∈ (BuildLeaderboard lib r).Leaderboard, ∀ b ∈ (BuildLeaderboard lib r).Leaderboard,
      b.Score < a.Score →
      (∀ x ∈ (BuildLeaderboard lib r).Leaderboard, ¬ (b.Score < x.Score ∧ x.Score < a.Score)) →
      b.Place = a.Place + (((BuildLeaderboard lib r).Leaderboard.filter
        (fun x => decide (x.Score = a.Score))).length : Int)) ∧
    (BuildLeaderboard lib r).RoundsPlayed = r.RoundNumber ∧
    (BuildLeaderboard lib r).Code = r.Code := by
  obtain ⟨sorted, hperm, hsorted, hlb⟩ := BuildLeaderboard_eq lib r
  obtain ⟨hcode, _, _, hround, _⟩ := Snapshot_fields r
  have hplace : ∀ e ∈ (BuildLeaderboard lib r).Leaderboard,
      e.Place = 1 + (((BuildLeaderboard lib r).Leaderboard.countP
        (fun x => decide (e.Score < x.Score)) : Nat) : Int) := by
    intro e he
    rw [hlb] at he ⊢
    obtain ⟨row, _, hrow⟩ := List.mem_map.mp he
    subst hrow
    rw [List.countP_map]
    rfl
  refine ⟨?_, ?_, ?_, ?_, ?_, hround, hcode⟩
  · rw [hlb, List.map_map]
    have := hperm.map (fun row : Row => (row.id, row.name, row.score))
    rw [List.map_map] at this
    exact this
  · rw [hlb, List.pairwise_map]
    apply hsorted.imp
    intro a b hab
    exact (rowLess_eq_false_iff a b).mp hab
  · intro e he
    rw [hplace e he, List.countP_eq_length_filter]
  · intro a ha b hb hab
    rw [hplace a ha, hplace b hb, hab]
  · intro a ha b hb hlt hgap
    rw [hplace a ha, hplace b hb, ← List.countP_eq_length_filter,
      countP_score_split _ a.Score b.Score hlt hgap]
    push_cast
    ring

/-- Witness of `BuildLeaderboard_ranking`: with insertion sort for `sort.Slice`, the scores
Alice 2, Bob 2, Carol 1 give the places 1, 1, 3, in this order. -/
theorem BuildLeaderboard_ranking_witness :
    (BuildLeaderboard refLib leaderboardRoom).Leaderboard.map (fun e => (e.Name, e.Score, e.Place))
      = [("Alice", 2, 1), ("Bob", 2, 1), ("Carol", 1, 3)] ∧
    ∀ e ∈ (BuildLeaderboard refLib leaderboardRoom).Leaderboard,
      e.Place = 1 + (((BuildLeaderboard refLib leaderboardRoom).Leaderboard.filter
        (fun x => decide (e.Score < x.Score))).length : Int) :=
  ⟨by decide, (BuildLeaderboard_ranking refLib leaderboardRoom).2.2.1⟩

/-- C14: `bumpRoundGen(code)` returns the room's previous counter plus 1 (1 when the room has
no counter yet), changes no other room's counter and nothing else in the hub;
`isCurrentGen(code, g)` is true exactly when g equals the room's counter (it only reads the
hub); two codes with the same upper-casing name the same counter.  Hence a generation
g = bumpRoundGen(code) is current after any later bumps exactly when none of them was for
that room: it stays current until the next bump of the room and is never current again after
one. -/
theorem roundGen_counter (lib : StdLib) (h : Hub) (code : String) :
    (h.bumpRoundGen lib code).2 = h.generation lib code + 1 ∧
    (h.roundGen.lookup (ToUpper lib code) = none → (h.bumpRoundGen lib code).2 = 1) ∧
    (h.bumpRoundGen lib code).1.generation lib code = (h.bumpRoundGen lib code).2 ∧
    (∀ code', ToUpper lib code' ≠ ToUpper lib code →
      (h.bumpRoundGen lib code).1.generation lib code' = h.generation lib code') ∧
    (h.bumpRoundGen lib code).1.clientsByRoom = h.clientsByRoom ∧
    (h.bumpRoundGen lib code).1.send = h.send ∧
    (∀ g, h.isCurrentGen lib code g = true ↔ g = h.generation lib code) ∧
    (∀ code', ToUpper lib code' = ToUpper lib code →
      h.generation lib code' = h.generation lib code ∧
      h.bumpRoundGen lib code' = h.bumpRoundGen lib code ∧
      ∀ g, h.isCurrentGen lib code' g = h.isCurrentGen lib code g) ∧
    (∀ later : List String,
      ((h.bumpRoundGen lib code).1.bumpAll lib later).isCurrentGen lib code
          (h.bumpRoundGen lib code).2 = true ↔
        ∀ c ∈ later, ToUpper lib c ≠ ToUpper lib code) := by
  refine ⟨rfl, ?_, ?_, ?_, rfl, rfl, ?_, ?_, ?_⟩
  · intro hnone
    simp [Hub.bumpRoundGen, hnone]
  · rw [Hub.generation_bumpRoundGen, if_pos rfl]
    rfl
  · intro code' hne
    rw [Hub.generation_bumpRoundGen, if_neg hne]
  · exact fun g => Hub.isCurrentGen_iff lib h code g
  · intro code' heq
    refine ⟨?_, ?_, ?_⟩
    · unfold Hub.generation
      rw [heq]
    · unfold Hub.bumpRoundGen
      rw [heq]
    · intro g
      unfold Hub.isCurrentGen
      rw [heq]
  · exact fun later => Hub.isCurrentGen_after_bumps lib h code later

/-- Witness of `roundGen_counter`: in a new hub the first bump of room "abcd" gives 1, which is
current for "ABCD" after a bump of another room and not after a second bump of "Abcd". -/
theorem roundGen_counter_witness :
    (exampleHub.bumpRoundGen refLib "wxyz").2 = 1 ∧
    (((exampleHub.bumpRoundGen refLib "abcd").1.bumpAll refLib ["wxyz"]).isCurrentGen refLib
        "abcd" (exampleHub.bumpRoundGen refLib "abcd").2 = true ↔
      ∀ c ∈ ["wxyz"], ToUpper refLib c ≠ ToUpper refLib "abcd") :=
  ⟨(roundGen_counter refLib exampleHub "wxyz").2.1 (by decide),
   (roundGen_counter refLib exampleHub "abcd").2.2.2.2.2.2.2.2 ["wxyz"]⟩

/-- C12: when the generation a deadline task holds is not the current generation of its room
at wake-up, the wake-up step has no effect: the room and the hub are as before, no message is
broadcast, no task is started and the question store is not called.  This is the case whenever
`bumpRoundGen` was called for that room after the generation was issued. -/
theorem stale_deadline_task_no_effect (lib : StdLib) (cfg : Config) (h : Hub) (room : Room)
    (roomCode : String) (gen : Int) (now : Time) :
    (h.isCurrentGen lib roomCode gen = false →
      scheduleAnsweringDeadlineWake lib cfg h room roomCode gen now = Outcome.none room h) ∧
    (∀ later : List String, (∃ c ∈ later, ToUpper lib c = ToUpper lib roomCode) →
      scheduleAnsweringDeadlineWake lib cfg
          ((h.bumpRoundGen lib roomCode).1.bumpAll lib later) room roomCode
          (h.bumpRoundGen lib roomCode).2 now =
        Outcome.none room ((h.bumpRoundGen lib roomCode).1.bumpAll lib later)) := by
  have hstale : ∀ (h' : Hub) (g : Int), h'.isCurrentGen lib roomCode g = false →
      scheduleAnsweringDeadlineWake lib cfg h' room roomCode g now = Outcome.none room h' := by
    intro h' g hg
    unfold scheduleAnsweringDeadlineWake
    rw [if_pos hg]
  refine ⟨hstale h gen, ?_⟩
  intro later hsup
  apply hstale
  rw [← Bool.not_eq_true, Hub.isCurrentGen_after_bumps]
  intro hall
  obtain ⟨c, hc, heq⟩ := hsup
  exact hall c hc heq

/-- Witness of `stale_deadline_task_no_effect`: the deadline task of the first round of the
test room wakes at the deadline after the host has started a second round. -/
theorem stale_deadline_task_no_effect_witness :
    scheduleAnsweringDeadlineWake refLib exampleConfig restartedByHost.hub restartedByHost.room
        "ABCD" 1 restartedByHost.room.AnsweringDeadline =
      Outcome.none restartedByHost.room restartedByHost.hub :=
  (stale_deadline_task_no_effect refLib exampleConfig restartedByHost.hub restartedByHost.room
    "ABCD" 1 restartedByHost.room.AnsweringDeadline).1 (by decide)

/-- C13 (what the code does): when `scheduleNextRound` wakes while the room is in the
answering phase with a host and a round number below the maximum, it calls the question store
once and broadcasts one `error` message to the room (with the text "bad phase" when the store
delivers a question); it starts no task and changes neither the room nor the hub. -/
theorem nextRound_wake_in_answering_phase (lib : StdLib) (cfg : Config)
    (supplied : Except StoreError Question) (h : Hub) (room : Room) (roomCode : String)
    (now : Time)
    (hphase : room.Phase = PhaseAnswering)
    (hhost : room.HostID ≠ "")
    (hround : room.RoundNumber < cfg.MaxRounds) :
    (scheduleNextRoundWake lib cfg supplied h room roomCode now).room = room ∧
    (scheduleNextRoundWake lib cfg supplied h room roomCode now).hub = h ∧
    (scheduleNextRoundWake lib cfg supplied h room roomCode now).spawned = [] ∧
    (scheduleNextRoundWake lib cfg supplied h room roomCode now).supplierCalls = 1 ∧
    ∃ message : String,
      (scheduleNextRoundWake lib cfg supplied h room roomCode now).broadcasts =
        [⟨roomCode, .error message⟩] ∧
      ∀ q, supplied = .ok q → message = "bad phase" := by
  obtain ⟨hh, hr⟩ := Snapshot_host_round room
  obtain ⟨err, hstart, hmsg⟩ := StartRound_answering cfg supplied room now hphase hhost
  have h2 : ¬ room.RoundNumber ≥ cfg.MaxRounds := by omega
  unfold scheduleNextRoundWake
  simp only [hh, hr]
  rw [if_neg hhost, if_neg h2]
  simp only [hstart]
  refine ⟨rfl, rfl, rfl, trivial, err.Error, rfl, ?_⟩
  intro q hq
  rw [hmsg q hq]
  rfl

/-- Witness of `nextRound_wake_in_answering_phase` (the failing scenario of C13): the host of
the test room starts the second round during the pause after the first one; when the pause
task wakes, the room is in the answering phase of round 2 of 5, and the task calls the
question store and broadcasts the error "bad phase". -/
theorem nextRound_wake_in_answering_phase_witness :
    (restartedByHost.room.Phase = PhaseAnswering ∧ restartedByHost.room.RoundNumber = 2 ∧
      restartedByHost.room.HostID = "p1") ∧
    (scheduleNextRoundWake refLib exampleConfig (.ok validQuestion) restartedByHost.hub
        restartedByHost.room "ABCD" (resultsRoom.AnsweringDeadline.Add (5 * Second))).supplierCalls
      = 1 ∧
    ∃ message : String,
      (scheduleNextRoundWake refLib exampleConfig (.ok validQuestion) restartedByHost.hub
        restartedByHost.room "ABCD" (resultsRoom.AnsweringDeadline.Add (5 * Second))).broadcasts
        = [⟨"ABCD", .error message⟩] ∧
      ∀ q, Except.ok validQuestion = (.ok q : Except StoreError Question) →
        message = "bad phase" :=
  ⟨by decide,
   (nextRound_wake_in_answering_phase refLib exampleConfig (.ok validQuestion)
      restartedByHost.hub restartedByHost.room "ABCD"
      (resultsRoom.AnsweringDeadline.Add (5 * Second)) (by decide) (by decide)
      (by decide)).2.2.2⟩

/-- C16: for every 8 random bytes, `CreateRoom` yields a room in phase lobby with no players,
empty host id, round number 0, no answers and no scores, whose code is the first 4 letters of
the unpadded base-32 encoding of the bytes with `O` replaced by `A` and `I` by `B`: exactly 4
characters, each a letter of the base-32 alphabet (A-Z, 2-7) and none of them `O`, `I`, `0` or
`1`; the code equals its own upper-casing and is the key under which the room is stored. -/
theorem CreateRoom_fresh_room (lib : StdLib) (rm : RoomManager) (b : Fin 8 → Byte) :
    (CreateRoom lib rm b).2.Phase = PhaseLobby ∧
    (CreateRoom lib rm b).2.Players = some ∅ ∧
    (CreateRoom lib rm b).2.HostID = "" ∧
    (CreateRoom lib rm b).2.RoundNumber = 0 ∧
    (CreateRoom lib rm b).2.Answers = some ∅ ∧
    (CreateRoom lib rm b).2.Scores = some ∅ ∧
    (CreateRoom lib rm b).2.Code.data =
      ((base32Encode (List.ofFn b)).map replaceAmbiguous).take 4 ∧
    (CreateRoom lib rm b).2.Code.length = 4 ∧
    (∀ c ∈ (CreateRoom lib rm b).2.Code.data,
      c ∈ base32Alphabet ∧ c ∉ ['O', 'I', '0', '1']) ∧
    ToUpper lib (CreateRoom lib rm b).2.Code = (CreateRoom lib rm b).2.Code ∧
    (CreateRoom lib rm b).1.rooms.lookup (CreateRoom lib rm b).2.Code =
      some (CreateRoom lib rm b).2 := by
  obtain ⟨heq, hmem⟩ := generateCode_eq lib b 4
  obtain ⟨hlen, _⟩ := generateCode_isRoomCode lib b
  refine ⟨rfl, rfl, rfl, rfl, rfl, rfl, ?_, hlen, ?_, ?_, ?_⟩
  · show (generateCode lib b 4).data = _
    rw [heq]
  · intro c hc
    obtain ⟨h1, h2, h3⟩ := hmem c hc
    obtain ⟨_, _, _, _, h4, h5⟩ := code_char_ascii c h1
    refine ⟨h1, ?_⟩
    simp [h2, h3, h4, h5]
  · exact ToUpper_code_chars lib _ (fun c hc => (hmem c hc).1)
  · exact AList.lookup_insert _

/-- Witness of `CreateRoom_fresh_room`: the code made from the example bytes. -/
theorem CreateRoom_fresh_room_witness :
    (CreateRoom refLib NewRoomManager exampleBytes).2.Code = "ZDWR" ∧
    (CreateRoom refLib NewRoomManager exampleBytes).2.Code.length = 4 :=
  ⟨by decide, (CreateRoom_fresh_room refLib NewRoomManager exampleBytes).2.2.2.2.2.2.2.1⟩

/-- C15: in a manager populated only by `CreateRoom`, for the room stored under code c:
`GetRoom(c)` and `GetRoom` of c with any of its letters lower-cased return that room with
found = true, whereas `GetRoom` of c with anything (white space in particular) added in front
or behind returns no room and found = false. -/
theorem GetRoom_case_insensitive_not_trimmed (lib : StdLib) (rm : RoomManager)
    (hrm : RoomManager.Populated lib rm) (c : String) (room : Room)
    (hc : rm.rooms.lookup c = some room) :
    GetRoom lib rm c = (some room, true) ∧
    (∀ v, LowerCasedVariant v c → GetRoom lib rm v = (some room, true)) ∧
    (∀ pre post : String, 0 < pre.length + post.length →
      GetRoom lib rm (pre ++ c ++ post) = (none, false)) := by
  have hkey : IsRoomCode c :=
    Populated_keys lib rm hrm c (AList.lookup_isSome.mp (by rw [hc]; rfl))
  have hup : ToUpper lib c = c := ToUpper_code_chars lib c.data (fun x hx => (hkey.2 x hx).1)
  refine ⟨?_, ?_, ?_⟩
  · rw [GetRoom_of_lookup, hup, hc]
  · intro v hv
    rw [GetRoom_of_lookup, ToUpper_lowerCasedVariant lib v c (fun x hx => (hkey.2 x hx).1) hv, hc]
  · intro pre post hpad
    have hnone : rm.rooms.lookup (ToUpper lib (pre ++ c ++ post)) = none := by
      rw [AList.lookup_eq_none]
      intro hmem
      have hlen := (Populated_keys lib rm hrm _ hmem).1
      rw [ToUpper_length, String.length_append, String.length_append, hkey.1] at hlen
      omega
    rw [GetRoom_of_lookup, hnone]

/-- Witness of `GetRoom_case_insensitive_not_trimmed` (the scenario of
`TestRoomManager_GetRoom_CaseInsensitive`): the room created from the example bytes is found
under "zdwr" and not under "  ZDWR  ". -/
theorem GetRoom_case_insensitive_not_trimmed_witness :
    GetRoom refLib (CreateRoom refLib NewRoomManager exampleBytes).1 "zdwr" =
      (some (CreateRoom refLib NewRoomManager exampleBytes).2, true) ∧
    GetRoom refLib (CreateRoom refLib NewRoomManager exampleBytes).1 ("  " ++ "ZDWR" ++ "  ") =
      (none, false) :=
  ⟨(GetRoom_case_insensitive_not_trimmed refLib _
      (RoomManager.Populated.create _ exampleBytes RoomManager.Populated.new) "ZDWR"
      (CreateRoom refLib NewRoomManager exampleBytes).2 (by rfl)).2.1 "zdwr" (by
        unfold LowerCasedVariant
        decide),
   (GetRoom_case_insensitive_not_trimmed refLib _
      (RoomManager.Populated.create _ exampleBytes RoomManager.Populated.new) "ZDWR"
      (CreateRoom refLib NewRoomManager exampleBytes).2 (by rfl)).2.2 "  " "  " (by decide)⟩

/-- C17 (as stated, refuted): in a freshly created room, and in a room its only player has
left, the player set is empty and `StartGame` returns `ErrNotHost`, not `ErrNoPlayers` (for
the former player as requester and for the empty requester id alike). -/
theorem StartGame_empty_room_counterexample :
    (CreateRoom refLib NewRoomManager exampleBytes).2.Players.len = 0 ∧
    (StartGame (CreateRoom refLib NewRoomManager exampleBytes).2 "p1" validQuestion 30
      exampleNow).2 = some .ErrNotHost ∧
    (StartGame (CreateRoom refLib NewRoomManager exampleBytes).2 "" validQuestion 30
      exampleNow).2 = some .ErrNotHost ∧
    runOps (CreateRoom refLib NewRoomManager exampleBytes).2
      [.addPlayer ⟨"p1", "Host"⟩, .removePlayer "p1"] = some abandonedRoom ∧
    abandonedRoom.Players.len = 0 ∧
    (StartGame abandonedRoom "p1" validQuestion 30 exampleNow).2 = some .ErrNotHost := by
  refine ⟨by decide, by decide, by decide, rfl, by decide, by decide⟩

/-- C17 (amended): in every room state reachable from `CreateRoom` through the Room operations
in which the player set is empty, the host id is empty and `StartGame` fails with `ErrNotHost`
for every requester id and every question, leaving the room as it was. -/
theorem StartGame_empty_room_not_host (lib : StdLib) (rm : RoomManager) (b : Fin 8 → Byte)
    (ops : List RoomOp) (r : Room)
    (hreach : runOps (CreateRoom lib rm b).2 ops = some r)
    (hempty : r.Players.len = 0)
    (requesterID : String) (q : Question) (answeringSeconds : Int) (now : Time) :
    r.HostID = "" ∧
    StartGame r requesterID q answeringSeconds now = (r, some .ErrNotHost) := by
  obtain ⟨hne, hhost⟩ := hostIsPlayer_runOps ops _ r (hostIsPlayer_CreateRoom lib rm b) hreach
  have hh : r.HostID = "" := by
    by_contra hc
    have hsome := hhost hc
    rw [GoMap.get?_isSome_iff_mem_range] at hsome
    cases hP : r.Players with
    | none => exact hne hP
    | some players =>
      rw [hP] at hsome hempty
      simp only [GoMap.len, List.length_eq_zero] at hempty
      simp [GoMap.range, hempty] at hsome
  refine ⟨hh, ?_⟩
  unfold StartGame
  rw [if_pos (Or.inl hh)]

/-- Witness of `StartGame_empty_room_not_host`: the room a player joined and left. -/
theorem StartGame_empty_room_not_host_witness :
    abandonedRoom.HostID = "" ∧
    StartGame abandonedRoom "p1" validQuestion 30 exampleNow =
      (abandonedRoom, some .ErrNotHost) :=
  StartGame_empty_room_not_host refLib NewRoomManager exampleBytes
    [.addPlayer ⟨"p1", "Host"⟩, .removePlayer "p1"] abandonedRoom rfl (by decide)
    "p1" validQuestion 30 exampleNow

/-- C18 (the code departs from it): a broadcast for a room whose connections all have open
channels, one of them with a full queue, leaves the hub loop blocked in its send on
`h.unregister` for a connection `c1` with a full queue: the loop gets no further.  The
connection `c1` keeps its slot and its open channel (the registry is as before the broadcast),
and whatever events follow the broadcast, the loop processes none of them. -/
theorem broadcast_full_queue_blocks_loop (lib : StdLib) (h : Hub) (msg : roomMessage)
    (hopen : ∀ c ∈ h.roomClients lib msg.roomCode, (h.send c.addr).closed = false)
    (hfull : ∃ c ∈ h.roomClients lib msg.roomCode,
      (h.send c.addr).cap ≤ (h.send c.addr).buf.length) :
    ∃ h1 c1, h.broadcast lib msg = .blocked h1 c1 ∧
      c1 ∈ h.roomClients lib msg.roomCode ∧
      (h1.send c1.addr).cap ≤ (h1.send c1.addr).buf.length ∧
      (h1.send c1.addr).closed = false ∧
      h1.clientsByRoom = h.clientsByRoom ∧
      ∀ later : List HubEvent, h.run lib (.broadcast msg :: later) = .blocked h1 c1 := by
  obtain ⟨h1, c1, hb, hmem, hlen, hcl, hreg, _⟩ :=
    broadcastLoop_blocks msg.data (h.roomClients lib msg.roomCode) h hopen hfull
  refine ⟨h1, c1, hb, hmem, hlen, hcl, hreg, ?_⟩
  intro later
  have hb1 : h.broadcast lib msg = .blocked h1 c1 := hb
  simp only [Hub.run, hb1]

/-- C18, at a concrete hub: with `slowClient` (queue full) and `fastClient` (queue empty) in
room `ABCD`, the broadcast blocks at `slowClient`; `fastClient`, next in the iteration, gets
nothing, and the `register` that follows is not processed. -/
theorem broadcast_full_queue_blocks_loop_witness :
    (∀ c ∈ crowdedHub.roomClients refLib exampleBroadcast.roomCode,
      (crowdedHub.send c.addr).closed = false) ∧
    (∃ c ∈ crowdedHub.roomClients refLib exampleBroadcast.roomCode,
      (crowdedHub.send c.addr).cap ≤ (crowdedHub.send c.addr).buf.length) ∧
    crowdedHub.roomClients refLib "ABCD" = [slowClient, fastClient] ∧
    (∃ h1, crowdedHub.run refLib [.broadcast exampleBroadcast, .register reconnectClient]
        = .blocked h1 slowClient ∧
      (h1.send fastClient.addr).buf = [] ∧
      h1.slot "ABCD" "p1" = some slowClient) ∧
    ∃ h1 c1, crowdedHub.broadcast refLib exampleBroadcast = .blocked h1 c1 ∧
      c1 ∈ crowdedHub.roomClients refLib exampleBroadcast.roomCode ∧
      (h1.send c1.addr).cap ≤ (h1.send c1.addr).buf.length ∧
      (h1.send c1.addr).closed = false ∧
      h1.clientsByRoom = crowdedHub.clientsByRoom ∧
      ∀ later : List HubEvent,
        crowdedHub.run refLib (.broadcast exampleBroadcast :: later) = .blocked h1 c1 :=
  ⟨by decide, by decide, by decide, ⟨_, rfl, rfl, rfl⟩,
    broadcast_full_queue_blocks_loop refLib crowdedHub exampleBroadcast (by decide) (by decide)⟩

/-- C19: processing `register(c1)` and then `register(c2)`, for two connections with the same
player id and room codes equal after `strings.ToUpper`, from any registry state: the room's
entry has one slot for the player id and it holds `c2`; no channel is touched (that of `c1`
is as closed or open as before); the slots of the other players of the room, the entries of
the other rooms and the generations are unchanged. -/
theorem register_twice_replaces_slot (lib : StdLib) (h : Hub) (c1 c2 : Client)
    (hid : c1.playerID = c2.playerID)
    (hroom : ToUpper lib c1.roomCode = ToUpper lib c2.roomCode) :
    h.run lib [.register c1, .register c2] = .done ((h.register lib c1).register lib c2) ∧
    (∃ roomClients,
      ((h.register lib c1).register lib c2).clientsByRoom.lookup (ToUpper lib c2.roomCode)
        = some roomClients ∧
      roomClients.lookup c2.playerID = some c2 ∧ roomClients.keys.count c2.playerID = 1) ∧
    ((h.register lib c1).register lib c2).send = h.send ∧
    (∀ playerID, playerID ≠ c2.playerID →
      ((h.register lib c1).register lib c2).slot (ToUpper lib c2.roomCode) playerID
        = h.slot (ToUpper lib c2.roomCode) playerID) ∧
    (∀ roomKey, roomKey ≠ ToUpper lib c2.roomCode →
      ((h.register lib c1).register lib c2).clientsByRoom.lookup roomKey
        = h.clientsByRoom.lookup roomKey) ∧
    ((h.register lib c1).register lib c2).roundGen = h.roundGen := by
  obtain ⟨ha1, ha2, _, _⟩ := Hub.register_spec lib h c1
  obtain ⟨hb1, hb2, _, _⟩ := Hub.register_spec lib (h.register lib c1) c2
  rw [hroom] at ha1 ha2
  refine ⟨rfl, ⟨_, hb1, AList.lookup_insert _, ?_⟩, rfl, ?_, ?_, rfl⟩
  · exact StrMap.count_keys_of_lookup _ _ c2 (AList.lookup_insert _)
  · intro playerID hne
    have hne1 : playerID ≠ c1.playerID := by rw [hid]; exact hne
    unfold Hub.slot
    rw [hb1, ha1]
    cases h.clientsByRoom.lookup (ToUpper lib c2.roomCode) with
    | none =>
      simp only [Option.some_bind, Option.none_bind, Option.getD_some, Option.getD_none,
        AList.lookup_insert_ne hne, AList.lookup_insert_ne hne1, AList.lookup_empty]
    | some m =>
      simp only [Option.some_bind, Option.getD_some, AList.lookup_insert_ne hne,
        AList.lookup_insert_ne hne1]
  · intro roomKey hne
    rw [hb2 roomKey hne, ha2 roomKey hne]

/-- C19, at a concrete hub: `reconnectClient` registers for the player of `slowClient` under
the room code `abcd`; the slot of `p1` in `ABCD` then holds `reconnectClient`, and the channel
of `slowClient` is open as before. -/
theorem register_twice_replaces_slot_witness :
    slowClient.playerID = reconnectClient.playerID ∧
    ToUpper refLib slowClient.roomCode = ToUpper refLib reconnectClient.roomCode ∧
    (((NewHub exampleSend).register refLib slowClient).register refLib reconnectClient).slot
      "ABCD" "p1" = some reconnectClient ∧
    ((((NewHub exampleSend).register refLib slowClient).register refLib reconnectClient).send
      slowClient.addr).closed = false ∧
    (((NewHub exampleSend).register refLib slowClient).register refLib reconnectClient).send
      = (NewHub exampleSend).send :=
  ⟨rfl, by decide, by decide, by decide,
    (register_twice_replaces_slot refLib (NewHub exampleSend) slowClient reconnectClient rfl
      (by decide)).2.2.1⟩

/-- C21: for every room whose player and score maps are initialised and every player p,
`AddPlayer(p)` returns true exactly when no host was set before the call; in that case p
becomes the host, otherwise the host id is unchanged; afterwards `players[p.id]` is p,
`scores[p.id]` is 0 if it was absent and unchanged if it was present, and the phase, the round
number, the question, the deadline, the answers, the code and all other players and scores are
unchanged. -/
theorem AddPlayer_effect (r : Room) (p : Player) (players : StrMap Player)
    (scores : StrMap Int) (hP : r.Players = some players) (hS : r.Scores = some scores) :
    ∃ r' isHost, AddPlayer r p = some (r', isHost) ∧
      (isHost = true ↔ r.HostID = "") ∧
      (r.HostID = "" → r'.HostID = p.ID) ∧
      (r.HostID ≠ "" → r'.HostID = r.HostID) ∧
      r'.Players.get? p.ID = some p ∧
      (∀ k, k ≠ p.ID → r'.Players.get? k = r.Players.get? k) ∧
      (r.Scores.get? p.ID = none → r'.Scores.get? p.ID = some 0) ∧
      (∀ v, r.Scores.get? p.ID = some v → r'.Scores.get? p.ID = some v) ∧
      (∀ k, k ≠ p.ID → r'.Scores.get? k = r.Scores.get? k) ∧
      r'.Phase = r.Phase ∧ r'.RoundNumber = r.RoundNumber ∧
      r'.CurrentQuestion = r.CurrentQuestion ∧
      r'.AnsweringDeadline = r.AnsweringDeadline ∧ r'.Answers = r.Answers ∧
      r'.Code = r.Code := by
  refine ⟨_, _, AddPlayer_eq r p players hP, by simp, ?_, ?_, ?_, ?_, ?_, ?_, ?_,
    rfl, rfl, rfl, rfl, rfl, rfl⟩
  · intro hh
    simp only [hh, if_true]
  · intro hh
    simp only [hh, if_false]
  · simp only [GoMap.get?, AList.lookup_insert]
  · intro k hk
    simp only [hP, GoMap.get?, AList.lookup_insert_ne hk]
  · intro hnone
    rw [hS] at hnone ⊢
    simp only [GoMap.get?] at hnone
    simp only [hnone, Option.isSome_none, Bool.false_eq_true, if_false, GoMap.get?,
      AList.lookup_insert]
  · intro v hv
    rw [hS] at hv ⊢
    simp only [GoMap.get?] at hv
    simp only [hv, Option.isSome_some, if_true, GoMap.get?]
  · intro k hk
    rw [hS]
    simp only [GoMap.get?]
    split_ifs
    · rfl
    · exact AList.lookup_insert_ne hk

/-- Witness of `AddPlayer_effect` (the scenario of `newTestRoomWithHost`): a second player
joining the test room is not the host, and `p1` stays the host. -/
theorem AddPlayer_effect_witness :
    ∃ r' isHost, AddPlayer lobbyRoom ⟨"p2", "P2"⟩ = some (r', isHost) ∧
      (isHost = true ↔ lobbyRoom.HostID = "") ∧ isHost = false ∧ r'.HostID = "p1" ∧
      r'.Scores.get? "p2" = some 0 := by
  obtain ⟨r', isHost, h, hflag, _, hhost, _, _, hscore, _⟩ :=
    AddPlayer_effect lobbyRoom ⟨"p2", "P2"⟩ _ _ rfl rfl
  refine ⟨r', isHost, h, hflag, ?_, hhost (by decide), hscore (by decide)⟩
  cases isHost with
  | false => rfl
  | true => exact absurd (hflag.mp rfl) (by decide)

/-- C22: in every room state reachable from `CreateRoom` by `AddPlayer` (with non-empty player
ids), `RemovePlayer`, `StartGame`, `SubmitAnswer` and `FinishRoundIfDeadlinePassed`, the host
id is empty exactly when the room has no players and is otherwise the id of a current player.
`RemovePlayer(id)`, in every room, deletes that player and no other; if id was the host, the
new host is one of the remaining players, or empty if none remain; if id was not the host, the
host id is unchanged; scores and answers are not touched. -/
theorem host_invariant (lib : StdLib) (rm : RoomManager) (b : Fin 8 → Byte)
    (ops : List RoomOp) (r : Room) (hids : ∀ op ∈ ops, op.nonEmptyID)
    (hreach : runOps (CreateRoom lib rm b).2 ops = some r) :
    (r.HostID = "" ↔ r.Players.len = 0) ∧
    (r.HostID ≠ "" → ∃ p, r.Players.get? r.HostID = some p) ∧
    ∀ (r0 : Room) (id : String),
      (RemovePlayer r0 id).Players.get? id = none ∧
      (∀ k, k ≠ id → (RemovePlayer r0 id).Players.get? k = r0.Players.get? k) ∧
      (r0.HostID = id →
        ((RemovePlayer r0 id).Players.len = 0 → (RemovePlayer r0 id).HostID = "") ∧
        ((RemovePlayer r0 id).Players.len ≠ 0 →
          ∃ p, (RemovePlayer r0 id).Players.get? (RemovePlayer r0 id).HostID = some p)) ∧
      (r0.HostID ≠ id → (RemovePlayer r0 id).HostID = r0.HostID) ∧
      (RemovePlayer r0 id).Scores = r0.Scores ∧ (RemovePlayer r0 id).Answers = r0.Answers := by
  obtain ⟨_, _, hempty, hhost⟩ :=
    hostInvariant_runOps ops _ r hids (hostInvariant_CreateRoom lib rm b) hreach
  refine ⟨hempty, fun hh => Option.isSome_iff_exists.mp (hhost hh), ?_⟩
  intro r0 id
  obtain ⟨hgone, hother, hwas, hnot, _⟩ := RemovePlayer_spec r0 id
  obtain ⟨_, _, _, _, _, hanswers, hscores⟩ := RemovePlayer_frame r0 id
  refine ⟨hgone, hother, ?_, hnot, hscores, hanswers⟩
  intro hh
  refine ⟨(hwas hh).1, fun hlen => ?_⟩
  apply Option.isSome_iff_exists.mp
  rw [GoMap.get?_isSome_iff_mem_range]
  exact (hwas hh).2 hlen

/-- Witness of `host_invariant`: after `p1` and `p2` joined a new room and `p1`, the host,
left, the host is `p2`. -/
theorem host_invariant_witness :
    (∃ r, runOps (CreateRoom refLib NewRoomManager exampleBytes).2
        [.addPlayer ⟨"p1", "Host"⟩, .addPlayer ⟨"p2", "P2"⟩, .removePlayer "p1"] = some r ∧
      r.HostID = "p2" ∧ (r.HostID = "" ↔ r.Players.len = 0)) :=
  ⟨_, rfl, by decide,
    (host_invariant refLib NewRoomManager exampleBytes
      [.addPlayer ⟨"p1", "Host"⟩, .addPlayer ⟨"p2", "P2"⟩, .removePlayer "p1"] _
      (by
        intro op hop
        simp only [List.mem_cons, List.mem_singleton, List.not_mem_nil, or_false] at hop
        rcases hop with h | h | h <;> subst h <;> simp [RoomOp.nonEmptyID])
      rfl).1⟩

/-- C23: for every room created by `CreateRoom` and every sequence of `AddPlayer`,
`RemovePlayer`, `StartGame`, `SubmitAnswer` and `FinishRoundIfDeadlinePassed` calls: (1) no
call lowers or deletes the score of any player id, so over any further sequence of calls an
entry stays and its score does not go down, also after the player left; (2) every player id
passed to `AddPlayer` has a score entry in every later state; (3) one call raises a score (as
read by `scores[id]`, 0 without an entry) by at most 1, and only
`FinishRoundIfDeadlinePassed` raises one. -/
theorem scores_persist (lib : StdLib) (rm : RoomManager) (b : Fin 8 → Byte)
    (ops : List RoomOp) (r : Room) (hreach : runOps (CreateRoom lib rm b).2 ops = some r) :
    (∀ (op : RoomOp) (r' : Room), op.run r = some r' → ∀ id : String,
      ((r.Scores.get? id).isSome → (r'.Scores.get? id).isSome) ∧
      r.score id ≤ r'.score id ∧ r'.score id ≤ r.score id + 1 ∧
      ((∀ now, op ≠ .finishRound now) → r'.score id = r.score id)) ∧
    (∀ (later : List RoomOp) (r' : Room), runOps r later = some r' → ∀ id : String,
      ((r.Scores.get? id).isSome → (r'.Scores.get? id).isSome) ∧ r.score id ≤ r'.score id) ∧
    (∀ p : Player, RoomOp.addPlayer p ∈ ops → (r.Scores.get? p.ID).isSome) := by
  refine ⟨fun op r' hop id => score_step r r' op hop id, ?_, ?_⟩
  · intro later r' hlater id
    obtain ⟨h1, h2, _⟩ := score_runOps later r r' hlater id
    exact ⟨h1, h2⟩
  · intro p hp
    exact score_entry_runOps ops _ r (by simp [CreateRoom]) hreach p hp

/-- Witness of `scores_persist`: after `exampleGame` the player `p1`, who answered correctly
and left, still has the score entry, with score 1. -/
theorem scores_persist_witness :
    runOps (CreateRoom refLib NewRoomManager exampleBytes).2 exampleGame
      = some exampleGameRoom ∧
    exampleGameRoom.Players.get? "p1" = none ∧ exampleGameRoom.score "p1" = 1 ∧
    (exampleGameRoom.Scores.get? "p1").isSome :=
  ⟨rfl, by decide, by decide,
    (scores_persist refLib NewRoomManager exampleBytes exampleGame exampleGameRoom rfl).2.2
      ⟨"p1", "Host"⟩ (List.mem_cons_self _ _)⟩

/-- C25: `StartRound`, for every room and host id.  If the question supplier fails with
`ErrNoQuestions`, the error returned has the message "no questions in db"; if it fails with
another error, that error is returned; in both cases the room is unchanged.  If the supplier
returns a question q, the error and the room after the call are those of
`room.StartGame(hostID, q, s)`, where s is the whole seconds of the configured
`AnsweringSeconds`: n for a duration of n seconds and a fraction of a second (n below 2^23,
where the `float64` value of `Seconds()` rounds to no other whole number). -/
theorem StartRound_outcomes (cfg : Config) (room : Room) (hostID : String) (now : Time) :
    (∀ e : StoreError, e.isNoQuestions = true →
      ∃ err, StartRound cfg (.error e) room hostID now = (room, some err) ∧
        err.Error = "no questions in db") ∧
    (∀ e : StoreError, e.isNoQuestions = false →
      StartRound cfg (.error e) room hostID now = (room, some (.store e)) ∧
      (StartRoundError.store e).Error = e.message) ∧
    (∀ q : Question,
      (StartRound cfg (.ok q) room hostID now).1 =
        (StartGame room hostID q (wholeSeconds cfg.AnsweringSeconds) now).1 ∧
      (StartRound cfg (.ok q) room hostID now).2 =
        (StartGame room hostID q (wholeSeconds cfg.AnsweringSeconds) now).2.map .game ∧
      ((StartRound cfg (.ok q) room hostID now).2 = none ↔
        (StartGame room hostID q (wholeSeconds cfg.AnsweringSeconds) now).2 = none)) ∧
    (∀ n frac : Int, 0 ≤ n → n < 2 ^ 23 → 0 ≤ frac → frac < Second →
      cfg.AnsweringSeconds = n * Second + frac → wholeSeconds cfg.AnsweringSeconds = n) := by
  refine ⟨?_, ?_, ?_, ?_⟩
  · intro e he
    refine ⟨.noQuestionsInDb, ?_, rfl⟩
    simp only [StartRound, he, if_true]
  · intro e he
    refine ⟨?_, rfl⟩
    simp only [StartRound, he, Bool.false_eq_true, if_false]
  · intro q
    refine ⟨rfl, rfl, ?_⟩
    show Option.map _ _ = none ↔ _
    rw [Option.map_eq_none']
  · intro n frac hn _ h0 h1 hcfg
    rw [hcfg]
    exact wholeSeconds_eq n frac hn h0 h1

/-- Witness of `StartRound_outcomes` (the scenarios of `TestGameService_StartRound_Success` and
`TestGameService_StartRound_NoQuestions`): with 30 s to answer, the host's round on the test
room is the one `StartGame` starts with 30 seconds, and without questions the error message
is "no questions in db". -/
theorem StartRound_outcomes_witness :
    (StartRound exampleConfig (.ok validQuestion) lobbyRoom "p1" exampleNow).1 = answeringRoom ∧
    wholeSeconds exampleConfig.AnsweringSeconds = 30 ∧
    ∃ err, StartRound exampleConfig (.error ⟨"no active questions", true⟩) lobbyRoom "p1"
        exampleNow = (lobbyRoom, some err) ∧ err.Error = "no questions in db" :=
  ⟨((StartRound_outcomes exampleConfig lobbyRoom "p1" exampleNow).2.2.1 validQuestion).1,
   (StartRound_outcomes exampleConfig lobbyRoom "p1" exampleNow).2.2.2 30 0 (by decide)
     (by decide) (by decide) (by decide) (by decide),
   (StartRound_outcomes exampleConfig lobbyRoom "p1" exampleNow).1 ⟨"no active questions", true⟩
     rfl⟩

/-- C26 (the code departs from it): `CreateQuestion` trims the text and the correct id and
forwards the input to the question store exactly when the trimmed text and the trimmed correct
id are non-empty and there are 4 options; otherwise it returns an error without calling the
store.  Whether the correct id is the id of one of the options is not tested: an input that
passes is forwarded also when no option has the correct id, and `StartGame` then accepts the
stored question in no room; when an option has the (trimmed) correct id, `StartGame` accepts
it from the host of a room with players in phase lobby or results. -/
theorem CreateQuestion_forwards (input : CreateQuestionInput) :
    ((TrimSpace input.Text ≠ "" ∧ TrimSpace input.CorrectID ≠ "" ∧ input.Options.length = 4) →
      CreateQuestion input = .ok { input with
        Text := TrimSpace input.Text, CorrectID := TrimSpace input.CorrectID }) ∧
    (¬ (TrimSpace input.Text ≠ "" ∧ TrimSpace input.CorrectID ≠ "" ∧
        input.Options.length = 4) →
      CreateQuestion input = .error "invalid question payload") ∧
    (∀ forwarded, CreateQuestion input = .ok forwarded →
      (hasOption forwarded.Options forwarded.CorrectID = false →
        ∀ (r : Room) (requesterID : String) (answeringSeconds : Int) (now : Time),
          (StartGame r requesterID forwarded.toQuestion answeringSeconds now).2 ≠ none) ∧
      (hasOption forwarded.Options forwarded.CorrectID = true →
        ∀ (r : Room) (answeringSeconds : Int) (now : Time),
          r.HostID ≠ "" → (r.Phase = PhaseLobby ∨ r.Phase = PhaseResults) → 1 ≤ r.Players.len →
          (StartGame r r.HostID forwarded.toQuestion answeringSeconds now).2 = none)) := by
  refine ⟨?_, ?_, ?_⟩
  · rintro ⟨h1, h2, h3⟩
    rw [CreateQuestion_eq, if_neg]
    rintro (h | h | h)
    · exact h1 h
    · exact h2 h
    · exact h h3
  · intro hno
    rw [CreateQuestion_eq, if_pos]
    by_contra hc
    apply hno
    refine ⟨fun h => hc (Or.inl h), fun h => hc (Or.inr (Or.inl h)), ?_⟩
    by_contra h
    exact hc (Or.inr (Or.inr h))
  · intro forwarded hfw
    rw [CreateQuestion_eq] at hfw
    split_ifs at hfw with hbad
    simp only [Except.ok.injEq] at hfw
    constructor
    · intro hopt r requesterID answeringSeconds now hnone
      rcases StartGame_result r requesterID forwarded.toQuestion answeringSeconds now with
        ⟨e, he⟩ | ⟨_, _, hhas, _⟩
      · rw [he] at hnone
        cases hnone
      · have : hasOption forwarded.Options forwarded.CorrectID = true := hhas
        rw [hopt] at this
        cases this
    · intro hopt r answeringSeconds now hhost hphase hplayers
      have h1 : ¬ (r.HostID = "" ∨ r.HostID ≠ r.HostID) := by
        rintro (h | h)
        · exact hhost h
        · exact h rfl
      have h2 : ¬ (r.Phase ≠ PhaseLobby ∧ r.Phase ≠ PhaseResults) := by
        rintro ⟨ha, hb⟩
        rcases hphase with h | h
        · exact ha h
        · exact hb h
      have h3 : ¬ r.Players.len < 1 := by omega
      have h4 : ¬ (TrimSpace forwarded.toQuestion.Text = "" ∨
          forwarded.toQuestion.Options.length ≠ 4 ∨
          TrimSpace forwarded.toQuestion.CorrectID = "") := by
        rw [← hfw]
        simp only [CreateQuestionInput.toQuestion, TrimSpace_idem]
        rintro (h | h | h)
        · exact hbad (Or.inl h)
        · exact hbad (Or.inr (Or.inr h))
        · exact hbad (Or.inr (Or.inl h))
      have h5 : ¬ ¬ hasOption forwarded.toQuestion.Options forwarded.toQuestion.CorrectID
          = true := fun h => h hopt
      rw [StartGame, if_neg h1, if_neg h2, if_neg h3, if_neg h4, if_neg h5]

/-- Witness of `CreateQuestion_forwards` (the failing input of C26): a question with the
options A, B, C, D and the correct id "Z" is passed to the store, and the host of the test
room cannot start a round with it. -/
theorem CreateQuestion_forwards_witness :
    CreateQuestion unmatchedInput = .ok unmatchedInput ∧
    hasOption unmatchedInput.Options unmatchedInput.CorrectID = false ∧
    StartGame lobbyRoom "p1" unmatchedInput.toQuestion 30 exampleNow
      = (lobbyRoom, some .ErrInvalidQuestion) ∧
    (StartGame lobbyRoom "p1" unmatchedInput.toQuestion 30 exampleNow).2 ≠ none :=
  ⟨(CreateQuestion_forwards unmatchedInput).1 (by decide), by decide, rfl,
    ((CreateQuestion_forwards unmatchedInput).2.2 unmatchedInput rfl).1 (by decide)
      lobbyRoom "p1" 30 exampleNow⟩

/-- C27: for every sequence of Room operations on a room created by `CreateRoom` (phase lobby,
round number 0): the phase is always lobby, answering or results; one call either leaves phase
and round number as they are, or is a `StartGame` that returns nil, made in phase lobby or
results, and leads to phase answering with the round number raised by 1, or is a
`FinishRoundIfDeadlinePassed` that returns happened = true, made in phase answering, and leads
to phase results with the round number unchanged.  So the round number never decreases, a room
that has left lobby never returns to lobby, and the round number is the number of `StartGame`
calls that returned nil. -/
theorem phase_state_machine (lib : StdLib) (rm : RoomManager) (b : Fin 8 → Byte)
    (ops : List RoomOp) (r : Room) (hreach : runOps (CreateRoom lib rm b).2 ops = some r) :
    (CreateRoom lib rm b).2.Phase = PhaseLobby ∧ (CreateRoom lib rm b).2.RoundNumber = 0 ∧
    (r.Phase = PhaseLobby ∨ r.Phase = PhaseAnswering ∨ r.Phase = PhaseResults) ∧
    r.RoundNumber = (successfulStarts (CreateRoom lib rm b).2 ops : Int) ∧
    (∀ (op : RoomOp) (r' : Room), op.run r = some r' →
      (r'.Phase = r.Phase ∧ r'.RoundNumber = r.RoundNumber) ∨
      (∃ requesterID q answeringSeconds now,
        op = .startGame requesterID q answeringSeconds now ∧
        (StartGame r requesterID q answeringSeconds now).2 = none ∧
        (r.Phase = PhaseLobby ∨ r.Phase = PhaseResults) ∧
        r'.Phase = PhaseAnswering ∧ r'.RoundNumber = r.RoundNumber + 1) ∨
      (∃ now, op = .finishRound now ∧ (FinishRoundIfDeadlinePassed r now).2.2 = true ∧
        r.Phase = PhaseAnswering ∧ r'.Phase = PhaseResults ∧
        r'.RoundNumber = r.RoundNumber)) ∧
    (∀ (later : List RoomOp) (r' : Room), runOps r later = some r' →
      r.RoundNumber ≤ r'.RoundNumber ∧ (r.Phase ≠ PhaseLobby → r'.Phase ≠ PhaseLobby)) := by
  obtain ⟨_, _, hvalid, hcount⟩ := phase_runOps ops _ r hreach
  refine ⟨rfl, rfl, hvalid (Or.inl rfl), ?_, fun op r' hop => phase_step r r' op hop, ?_⟩
  · rw [hcount]
    show (0 : Int) + _ = _
    rw [zero_add]
  · intro later r' hlater
    obtain ⟨h1, h2, _, _⟩ := phase_runOps later r r' hlater
    exact ⟨h1, h2⟩

/-- Witness of `phase_state_machine`: after `exampleGame`, with one successful `StartGame`,
the room is in phase results at round 1. -/
theorem phase_state_machine_witness :
    exampleGameRoom.Phase = PhaseResults ∧
    successfulStarts (CreateRoom refLib NewRoomManager exampleBytes).2 exampleGame = 1 ∧
    exampleGameRoom.RoundNumber =
      (successfulStarts (CreateRoom refLib NewRoomManager exampleBytes).2 exampleGame : Int) :=
  ⟨by decide, by decide,
    (phase_state_machine refLib NewRoomManager exampleBytes exampleGame exampleGameRoom
      rfl).2.2.2.1⟩

/-- C28: in every room state reachable from `CreateRoom` through the Room operations, each
recorded answer is the id of an option of the current question; each player id has at most
one recorded answer, and a `SubmitAnswer` for a player with a recorded answer leaves the
answers as they are; whenever the phase is answering or results, the current question has
exactly 4 options and its correct id is the id of one of them. -/
theorem answers_invariant (lib : StdLib) (rm : RoomManager) (b : Fin 8 → Byte)
    (ops : List RoomOp) (r : Room) (hreach : runOps (CreateRoom lib rm b).2 ops = some r) :
    (∀ id x, r.Answers.get? id = some x → ∃ o ∈ r.CurrentQuestion.Options, o.ID = x) ∧
    (∀ id, r.Answers.range.keys.count id ≤ 1) ∧
    (∀ id optionID now, (r.Answers.get? id).isSome →
      (SubmitAnswer r id optionID now).1.Answers = r.Answers) ∧
    ((r.Phase = PhaseAnswering ∨ r.Phase = PhaseResults) →
      r.CurrentQuestion.Options.length = 4 ∧
      ∃ o ∈ r.CurrentQuestion.Options, o.ID = r.CurrentQuestion.CorrectID) := by
  obtain ⟨hans, hq⟩ :=
    answersValid_runOps ops _ r (answersValid_CreateRoom lib rm b) hreach
  refine ⟨?_, ?_, ?_, ?_⟩
  · intro id x hx
    exact (hasOption_iff _ _).mp (hans id x hx)
  · intro id
    exact List.nodup_iff_count_le_one.mp (GoMap.range_nodupKeys r.Answers) id
  · intro id optionID now hsome
    rcases SubmitAnswer_result r id optionID now with ⟨e, he⟩ | ⟨_, hnone, _, _⟩
    · rw [he]
    · rw [hnone] at hsome
      cases hsome
  · intro hphase
    exact ⟨(hq hphase).1, (hasOption_iff _ _).mp (hq hphase).2⟩

/-- Witness of `answers_invariant`: after `exampleGame` the answer recorded for `p1` is "B",
the id of the second option of `validQuestion`. -/
theorem answers_invariant_witness :
    exampleGameRoom.Answers.get? "p1" = some "B" ∧
    ∃ o ∈ exampleGameRoom.CurrentQuestion.Options, o.ID = "B" :=
  ⟨by decide,
    (answers_invariant refLib NewRoomManager exampleBytes exampleGame exampleGameRoom rfl).1
      "p1" "B" (by decide)⟩

/-- C29 (the code departs from it): `unregister(c)` tests the slot of c's player id, not
whether the slot holds c.  When that slot holds a connection c2 (c itself or another one) and
the channel of c is open, processing `unregister(c)` empties the slot, so that c2 is no longer
registered, and closes the channel of c; all other slots are as before and no other channel
is touched. -/
theorem unregister_empties_slot_of_player (lib : StdLib) (h : Hub) (c c2 : Client)
    (hslot : h.slot (ToUpper lib c.roomCode) c.playerID = some c2)
    (hopen : (h.send c.addr).closed = false) :
    ∃ h1, h.run lib [.unregister c] = .done h1 ∧
      h1.slot (ToUpper lib c.roomCode) c.playerID = none ∧
      (∀ roomKey playerID, (roomKey ≠ ToUpper lib c.roomCode ∨ playerID ≠ c.playerID) →
        h1.slot roomKey playerID = h.slot roomKey playerID) ∧
      (h1.send c.addr).closed = true ∧
      (∀ addr, addr ≠ c.addr → h1.send addr = h.send addr) := by
  obtain ⟨h1, hun, hgone, hother, hsend⟩ := Hub.unregister_slots lib h c c2 hslot hopen
  refine ⟨h1, ?_, hgone, hother, ?_, ?_⟩
  · simp only [Hub.run, hun]
  · rw [hsend, Function.update_same]
  · intro addr hne
    rw [hsend, Function.update_noteq hne]

/-- Witness of `unregister_empties_slot_of_player` (the failing scenario of C29): after
`reconnectClient` took the slot of `slowClient`, unregistering `slowClient` removes
`reconnectClient` from the registry; the channel of `reconnectClient` stays open. -/
theorem unregister_empties_slot_of_player_witness :
    replacedHub.slot "ABCD" "p1" = some reconnectClient ∧ reconnectClient ≠ slowClient ∧
    ∃ h1, replacedHub.run refLib [.unregister slowClient] = .done h1 ∧
      h1.slot (ToUpper refLib slowClient.roomCode) slowClient.playerID = none ∧
      (h1.send slowClient.addr).closed = true ∧
      h1.send reconnectClient.addr = replacedHub.send reconnectClient.addr := by
  obtain ⟨h1, hrun, hgone, _, hclosed, hsend⟩ :=
    unregister_empties_slot_of_player refLib replacedHub slowClient reconnectClient
      (by decide) (by decide)
  exact ⟨by decide, by decide, h1, hrun, hgone, hclosed, hsend _ (by decide)⟩

/-- C30 (the code departs from it): for a room in the answering phase with deadline d (not the
zero time, not within a millisecond after the Unix epoch) and its deadline task, whatever
generation the task holds, the current one included: the deadline of the snapshot is d in
whole milliseconds, rounded down, so the instant the task sleeps until is at most d and less
than a millisecond before d; at every wake-up instant before d, also from that instant on,
`FinishRoundIfDeadlinePassed` returns happened = false and the wake-up step leaves the room in
the answering phase, broadcasts nothing and starts no task; only from d on does
`FinishRoundIfDeadlinePassed` return happened = true. -/
theorem deadline_task_wakes_too_early (lib : StdLib) (cfg : Config) (hub : Hub) (room : Room)
    (roomCode : String) (gen : Int)
    (hphase : room.Phase = PhaseAnswering)
    (hzero : room.AnsweringDeadline.IsZero = false)
    (hmilli : room.AnsweringDeadline.UnixMilli ≠ 0) :
    (Snapshot room).Deadline = room.AnsweringDeadline.UnixMilli ∧
    (Time.ofUnixMilli (Snapshot room).Deadline).nanos ≤ room.AnsweringDeadline.nanos ∧
    room.AnsweringDeadline.nanos < (Time.ofUnixMilli (Snapshot room).Deadline).nanos + 1000000 ∧
    (∀ now : Time, scheduleAnsweringDeadlineWait room now =
      some (if (Time.ofUnixMilli (Snapshot room).Deadline).nanos - now.nanos < 0 then 0
        else (Time.ofUnixMilli (Snapshot room).Deadline).nanos - now.nanos)) ∧
    (∀ t : Time, t.nanos < room.AnsweringDeadline.nanos →
      (FinishRoundIfDeadlinePassed room t).2.2 = false ∧
      scheduleAnsweringDeadlineWake lib cfg hub room roomCode gen t = Outcome.none room hub) ∧
    (∀ t : Time, room.AnsweringDeadline.nanos ≤ t.nanos →
      (FinishRoundIfDeadlinePassed room t).2.2 = true ∧
      (FinishRoundIfDeadlinePassed room t).1.Phase = PhaseResults) := by
  have hsnap : (Snapshot room).Deadline = room.AnsweringDeadline.UnixMilli := by
    rw [(Snapshot_fields room).2.2.2.2.2.2.2.2, if_pos ⟨hphase, hzero⟩]
  refine ⟨hsnap, ?_, ?_, ?_, ?_, ?_⟩
  · rw [hsnap]
    simp only [Time.ofUnixMilli, Time.UnixMilli, unixEpochNanos]
    omega
  · rw [hsnap]
    simp only [Time.ofUnixMilli, Time.UnixMilli, unixEpochNanos]
    omega
  · intro now
    unfold scheduleAnsweringDeadlineWait
    simp only
    rw [if_neg (by rw [hsnap]; exact hmilli)]
  · intro t ht
    have hfin : FinishRoundIfDeadlinePassed room t = (room, none, false) := by
      rcases FinishRound_cases room t with he | ⟨_, h2, _⟩
      · exact he
      · omega
    refine ⟨by rw [hfin], ?_⟩
    exact scheduleAnsweringDeadlineWake_idle lib cfg hub room roomCode gen t (Or.inr hfin)
  · intro t ht
    rw [FinishRound_due room t hphase ht]
    exact ⟨rfl, rfl⟩

/-- Witness of `deadline_task_wakes_too_early` (the failing scenario of C30): the round of
`offMilliRoom` ends 30.0005 s after `exampleNow`; its task, which holds the current
generation, sleeps until 30 s after `exampleNow`, wakes at that instant and leaves the room in
the answering phase. -/
theorem deadline_task_wakes_too_early_witness :
    offMilliRoom.AnsweringDeadline = exampleNow.Add (30 * Second + 500000) ∧
    Time.ofUnixMilli (Snapshot offMilliRoom).Deadline = exampleNow.Add (30 * Second) ∧
    exampleHub.isCurrentGen refLib "ABCD" 1 = true ∧
    (FinishRoundIfDeadlinePassed offMilliRoom (exampleNow.Add (30 * Second))).2.2 = false ∧
    scheduleAnsweringDeadlineWake refLib exampleConfig exampleHub offMilliRoom "ABCD" 1
      (exampleNow.Add (30 * Second)) = Outcome.none offMilliRoom exampleHub :=
  ⟨by decide, by decide, by decide,
    ((deadline_task_wakes_too_early refLib exampleConfig exampleHub offMilliRoom "ABCD" 1
      (by decide) (by decide) (by decide)).2.2.2.2.1
      (exampleNow.Add (30 * Second)) (by decide)).1,
    ((deadline_task_wakes_too_early refLib exampleConfig exampleHub offMilliRoom "ABCD" 1
      (by decide) (by decide) (by decide)).2.2.2.2.1
      (exampleNow.Add (30 * Second)) (by decide)).2⟩

end game
